import Mathlib

/-!
# I2C peripheral drivers of ESP32C3W5500_diepvries

A shallow embedding of `main/ssr_control.c` and `main/th_sensor.c`:

* the ESP-IDF I2C master is an external collaborator; it is embedded as a
  mock bus that logs every call made to it and answers from a reply function
  of the calls seen so far;
* pointers to driver objects are `Option` values (`none` is `NULL`), device and
  bus handles are natural numbers (`0` is `NULL`);
* `float` is IEEE-754 binary32 with round-to-nearest-even, embedded exactly:
  a finite value is a sign and a natural number of units of `2^-149`;
* a C string is the list of bytes found from the pointer on; reading past the
  end of that list is an out-of-bounds read and yields `none`.
-/

namespace Diepvries

/-! ## ESP-IDF status codes (`esp_err.h`) -/

/-- The `esp_err_t` status code of ESP-IDF, a C `int`. -/
abbrev esp_err_t := Int

/-- Success value of `esp_err_t`. -/
def ESP_OK : esp_err_t := 0

/-- Generic failure value of `esp_err_t`. -/
def ESP_FAIL : esp_err_t := -1

/-- Invalid-argument value of `esp_err_t`. -/
def ESP_ERR_INVALID_ARG : esp_err_t := 0x102

/-! ## The mock I2C master bus -/

/-- Address width selector of `i2c_device_config_t`. -/
inductive i2c_addr_bit_len_t where
  | I2C_ADDR_BIT_LEN_7
  | I2C_ADDR_BIT_LEN_10
deriving DecidableEq, Repr

/-- The fields of `i2c_device_config_t` the drivers fill in. -/
structure i2c_device_config_t where
  dev_addr_length : i2c_addr_bit_len_t
  device_address : Nat
  scl_speed_hz : Nat
deriving DecidableEq, Repr

/-- One call made to the I2C master driver, with its arguments. The last
argument of the two transactions is the `xfer_timeout_ms` of the ESP-IDF
prototypes: the time to wait, in milliseconds. -/
inductive BusCall where
  | add_device (bus_handle : Nat) (dev_config : i2c_device_config_t)
  | rm_device (handle : Nat)
  | transmit (i2c_dev : Nat) (write_buffer : List Nat) (xfer_timeout_ms : Nat)
  | transmit_receive (i2c_dev : Nat) (write_buffer : List Nat) (read_size : Nat)
      (xfer_timeout_ms : Nat)
deriving DecidableEq, Repr

/-- What the bus answers to one call: the status code, the handle stored
through `ret_handle` by `add_device` (`none`: the slot is left untouched), and
the bytes delivered by a read. -/
structure Reply where
  rc : esp_err_t
  handle : Option Nat
  data : List Nat

/-- A mock of the platform the drivers run on: the FreeRTOS conversion
`pdMS_TO_TICKS` (its tick rate is a build setting that is not part of the
sources), the behaviour of the I2C master as a function of the calls made so
far, and the log of those calls (oldest first). -/
structure MockBus where
  pdMS_TO_TICKS : Nat → Nat
  reply : List BusCall → BusCall → Reply
  calls : List BusCall

/-- Make one call: log it and return the bus answer. -/
def MockBus.call (b : MockBus) (c : BusCall) : MockBus × Reply :=
  ({ b with calls := b.calls ++ [c] }, b.reply b.calls c)

/-- Store the bytes of a read into a buffer: at most `len` bytes replace the
front of the buffer, the rest of the buffer keeps its content. -/
def store_bytes (buf data : List Nat) (len : Nat) : List Nat :=
  let d := (data.take len).map (fun b => b % 256)
  d ++ buf.drop d.length

/-- The call `i2c_master_bus_add_device(bus_handle, dev_config, ret_handle)`:
returns the new bus, the status code and the content of the handle slot. -/
def i2c_master_bus_add_device (b : MockBus) (bus_handle : Nat)
    (dev_config : i2c_device_config_t) (ret_handle : Nat) : MockBus × esp_err_t × Nat :=
  let r := b.call (.add_device bus_handle dev_config)
  (r.1, r.2.rc, r.2.handle.getD ret_handle)

/-- The call `i2c_master_bus_rm_device(handle)`; the drivers ignore its status. -/
def i2c_master_bus_rm_device (b : MockBus) (handle : Nat) : MockBus × esp_err_t :=
  let r := b.call (.rm_device handle)
  (r.1, r.2.rc)

/-- The call `i2c_master_transmit(i2c_dev, write_buffer, write_size,
xfer_timeout_ms)`. -/
def i2c_master_transmit (b : MockBus) (i2c_dev : Nat) (write_buffer : List Nat)
    (xfer_timeout_ms : Nat) : MockBus × esp_err_t :=
  let r := b.call (.transmit i2c_dev write_buffer xfer_timeout_ms)
  (r.1, r.2.rc)

/-- The call `i2c_master_transmit_receive(i2c_dev, write_buffer, write_size,
read_buffer, read_size, xfer_timeout_ms)`: returns the new bus, the status
code and the content of the read buffer. -/
def i2c_master_transmit_receive (b : MockBus) (i2c_dev : Nat) (write_buffer : List Nat)
    (read_buffer : List Nat) (read_size : Nat) (xfer_timeout_ms : Nat) :
    MockBus × esp_err_t × List Nat :=
  let r := b.call (.transmit_receive i2c_dev write_buffer read_size xfer_timeout_ms)
  (r.1, r.2.rc, store_bytes read_buffer r.2.data read_size)

/-! ## SSR driver (`ssr_control.h`, `ssr_control.c`) -/

/-- Status tag for SSR operations. -/
inductive ssr_status_tag_t where
  | SSR_STATUS_OK
  | SSR_STATUS_I2C_ERR
  | SSR_STATUS_ARG_ERR
deriving DecidableEq, Repr

/-- Per-instance object for an SSR device. -/
structure ssr_t where
  i2c_bus : Nat
  dev : Nat
  i2c_addr : Nat
  timeout_ms : Nat
  initialized : Bool
deriving DecidableEq, Repr

/-- The all-zero object: a freshly declared static `ssr_t`, and what `memset`
leaves behind. -/
def ssr_t.zero : ssr_t :=
  { i2c_bus := 0, dev := 0, i2c_addr := 0, timeout_ms := 0, initialized := false }

/-- The union inside `ssr_result_t`, tagged with the member written last. -/
inductive ssr_value where
  | esp_code (c : esp_err_t)
  | active (a : Bool)
  | version (v : Nat)
  | reserved (r : Nat)
deriving DecidableEq, Repr

/-- Read the union through its `version` member (the low byte). -/
def ssr_value.as_version : ssr_value → Nat
  | .esp_code c => (c % 256).toNat
  | .active a => if a then 1 else 0
  | .version v => v
  | .reserved r => r % 256

/-- Tagged-union return for SSR API calls. -/
structure ssr_result_t where
  tag : ssr_status_tag_t
  value : ssr_value
deriving DecidableEq, Repr

open ssr_status_tag_t in
/-- Read a single register from the SSR device. -/
def read_reg (bus : MockBus) (self : Option ssr_t) (reg : Nat) : MockBus × ssr_result_t :=
  let res : ssr_result_t := { tag := SSR_STATUS_OK, value := .reserved 0 }
  match self with
  | none => (bus, { res with tag := SSR_STATUS_ARG_ERR })
  | some d =>
    if !d.initialized then (bus, { res with tag := SSR_STATUS_ARG_ERR })
    else
      let out : List Nat := [0]
      let r : MockBus × esp_err_t × List Nat :=
        if d.dev ≠ 0 then
          i2c_master_transmit_receive bus d.dev [reg] out 1 (bus.pdMS_TO_TICKS d.timeout_ms)
        else (bus, ESP_FAIL, out)
      if r.2.1 ≠ ESP_OK then (r.1, { tag := SSR_STATUS_I2C_ERR, value := .esp_code r.2.1 })
      else (r.1, { tag := SSR_STATUS_OK, value := .version (r.2.2.headD 0) })

open ssr_status_tag_t in
/-- Write a single byte to an SSR register. -/
def write_reg (bus : MockBus) (self : Option ssr_t) (reg val : Nat) : MockBus × ssr_result_t :=
  let res : ssr_result_t := { tag := SSR_STATUS_OK, value := .reserved 0 }
  match self with
  | none => (bus, { res with tag := SSR_STATUS_ARG_ERR })
  | some d =>
    if !d.initialized then (bus, { res with tag := SSR_STATUS_ARG_ERR })
    else
      let buf : List Nat := [reg, val]
      let r : MockBus × esp_err_t :=
        if d.dev ≠ 0 then
          i2c_master_transmit bus d.dev buf (bus.pdMS_TO_TICKS d.timeout_ms)
        else (bus, ESP_FAIL)
      if r.2 ≠ ESP_OK then (r.1, { tag := SSR_STATUS_I2C_ERR, value := .esp_code r.2 })
      else (r.1, { res with tag := SSR_STATUS_OK })

open ssr_status_tag_t in
/-- Initialize an `ssr_t` instance: returns the new bus, the object behind
`self` after the call, and the result. -/
def ssr_init (bus : MockBus) (self : Option ssr_t) (i2c_bus i2c_addr timeout_ms : Nat) :
    MockBus × Option ssr_t × ssr_result_t :=
  let res : ssr_result_t := { tag := SSR_STATUS_OK, value := .reserved 0 }
  match self with
  | none => (bus, none, { res with tag := SSR_STATUS_ARG_ERR })
  | some d =>
    if i2c_addr = 0 then (bus, some d, { res with tag := SSR_STATUS_ARG_ERR })
    else
      let d := { d with i2c_bus := i2c_bus }
      let d := { d with i2c_addr := i2c_addr }
      let d := { d with timeout_ms := if timeout_ms = 0 then 200 else timeout_ms }
      let d := { d with dev := 0 }
      let dev_cfg : i2c_device_config_t :=
        { dev_addr_length := .I2C_ADDR_BIT_LEN_7, device_address := i2c_addr,
          scl_speed_hz := 100000 }
      let r := i2c_master_bus_add_device bus i2c_bus dev_cfg d.dev
      let d := { d with dev := r.2.2 }
      if r.2.1 ≠ ESP_OK then
        (r.1, some d, { tag := SSR_STATUS_I2C_ERR, value := .esp_code r.2.1 })
      else (r.1, some { d with initialized := true }, res)

open ssr_status_tag_t in
/-- Deinitialize an `ssr_t` instance and release any device handle. -/
def ssr_deinit (bus : MockBus) (self : Option ssr_t) : MockBus × Option ssr_t × ssr_result_t :=
  let res : ssr_result_t := { tag := SSR_STATUS_OK, value := .reserved 0 }
  match self with
  | none => (bus, none, { res with tag := SSR_STATUS_ARG_ERR })
  | some d =>
    let bus := if d.dev ≠ 0 ∧ d.i2c_bus ≠ 0 then (i2c_master_bus_rm_device bus d.dev).1 else bus
    (bus, some ssr_t.zero, res)

open ssr_status_tag_t in
/-- Read the SSR on/off state (register 0x00). -/
def ssr_get_active (bus : MockBus) (self : Option ssr_t) : MockBus × ssr_result_t :=
  let r := read_reg bus self 0x00
  if r.2.tag ≠ SSR_STATUS_OK then r
  else (r.1, { tag := SSR_STATUS_OK, value := .active (r.2.value.as_version != 0) })

/-- Write the SSR on/off state to register 0x00. -/
def ssr_set_active (bus : MockBus) (self : Option ssr_t) (active : Bool) :
    MockBus × ssr_result_t :=
  write_reg bus self 0x00 (if active then 1 else 0)

/-- Read the device version from register 0xFE. -/
def ssr_get_version (bus : MockBus) (self : Option ssr_t) : MockBus × ssr_result_t :=
  read_reg bus self 0xFE

/-! ## IEEE-754 binary32 (`float`) -/

/-- A `float`: every finite binary32 value is a whole number of units of
`2^-149` (the smallest subnormal), so a finite value is kept as its sign bit
and the count `k` of such units; its value is `(-1)^neg * k * 2^-149`. -/
inductive F32 where
  | fin (neg : Bool) (k : Nat)
  | inf (neg : Bool)
  | nan
deriving DecidableEq, Repr

/-- Quotient of two naturals rounded to the nearest natural, ties to even. -/
def rne (N D : Nat) : Nat :=
  let k := N / D
  let r := N % D
  if 2 * r < D then k else if D < 2 * r then k + 1 else if k % 2 = 0 then k else k + 1

namespace F32

/-- The number of low bits to drop from a count of units `t` so that 24
significant bits remain (`0` in the subnormal range and the first normal
binade). The first argument bounds the number of halvings. -/
def shiftFor : Nat → Nat → Nat
  | 0, _ => 0
  | fuel + 1, t => if t < 2 ^ 24 then 0 else shiftFor fuel (t / 2) + 1

/-- Round the non-negative real `N / D` units (of `2^-149`) to binary32,
round-to-nearest-even, overflowing to infinity from `2^128` on. -/
def roundQ (neg : Bool) (N D : Nat) : F32 :=
  let t := N / D
  let s := shiftFor t t
  let k := rne N (D * 2 ^ s) * 2 ^ s
  if 2 ^ 128 * 2 ^ 149 ≤ k then .inf neg else .fin neg k

/-- Conversion of a C integer to `float`. -/
def ofInt (n : Int) : F32 := roundQ (decide (n < 0)) (n.natAbs * 2 ^ 149) 1

/-- The constant `0.0f`. -/
def zero : F32 := .fin false 0

/-- The signed count of units of a finite value. -/
def units (neg : Bool) (k : Nat) : Int := if neg then -(k : Int) else (k : Int)

/-- Binary32 addition. -/
def add : F32 → F32 → F32
  | nan, _ => nan
  | _, nan => nan
  | inf a, inf b => if a = b then inf a else nan
  | inf a, fin _ _ => inf a
  | fin _ _, inf b => inf b
  | fin sa ka, fin sb kb =>
    let x : Int := units sa ka + units sb kb
    if x = 0 then fin (sa && sb) 0 else roundQ (decide (x < 0)) x.natAbs 1

/-- Binary32 multiplication. -/
def mul : F32 → F32 → F32
  | nan, _ => nan
  | _, nan => nan
  | inf a, inf b => inf (xor a b)
  | inf a, fin sb kb => if kb = 0 then nan else inf (xor a sb)
  | fin sa ka, inf b => if ka = 0 then nan else inf (xor sa b)
  | fin sa ka, fin sb kb => roundQ (xor sa sb) (ka * kb) (2 ^ 149)

/-- Binary32 division. -/
def div : F32 → F32 → F32
  | nan, _ => nan
  | _, nan => nan
  | inf _, inf _ => nan
  | inf a, fin sb _ => inf (xor a sb)
  | fin sa _, inf b => fin (xor sa b) 0
  | fin sa ka, fin sb kb =>
    if kb = 0 then (if ka = 0 then nan else inf (xor sa sb))
    else roundQ (xor sa sb) (ka * 2 ^ 149) kb

/-- The real value of a finite `float`, as a rational. -/
def toRat : F32 → Option ℚ
  | fin neg k => some ((if neg then -1 else 1) * (k : ℚ) / 2 ^ 149)
  | _ => none

/-- A rational is exactly representable in binary32 when its magnitude is
`m * 2^e` with `m < 2^24` and `-149 ≤ e ≤ 104`; here `e = s - 149`. -/
def Representable (q : ℚ) : Prop :=
  ∃ m s : Nat, m < 2 ^ 24 ∧ s ≤ 253 ∧ |q| = (m : ℚ) * 2 ^ s / 2 ^ 149

end F32

/-! ## Thermocouple driver (`th_sensor.h`, `th_sensor.c`) -/

/-- Register of the temperature value, 4 bytes. -/
def KMETER_TEMP_VAL_REG : Nat := 0x00

/-- Register of the Celsius temperature string, 8 bytes. -/
def KMETER_TEMP_CELSIUS_STRING_REG : Nat := 0x30

/-- Status tags for thermocouple operations. -/
inductive th_status_tag_t where
  | TH_STATUS_OK
  | TH_STATUS_I2C_ERR
  | TH_STATUS_ARG_ERR
  | TH_STATUS_SENSOR_ERR
deriving DecidableEq, Repr

/-- Per-instance object for a thermocouple sensor. -/
structure th_t where
  i2c_bus : Nat
  dev : Nat
  i2c_addr : Nat
  timeout_ms : Nat
  initialized : Bool
deriving DecidableEq, Repr

/-- The all-zero object: a freshly declared static `th_t`, and what `memset`
leaves behind. -/
def th_t.zero : th_t :=
  { i2c_bus := 0, dev := 0, i2c_addr := 0, timeout_ms := 0, initialized := false }

/-- The union inside `th_result_t`, tagged with the member written last. -/
inductive th_value where
  | esp_code (c : esp_err_t)
  | temp_c (t : F32)
  | str_c (s : List Nat)
  | version (v : Nat)
  | status (v : Nat)
deriving DecidableEq, Repr

/-- Tagged-union return for thermocouple API calls. -/
structure th_result_t where
  tag : th_status_tag_t
  value : th_value
deriving DecidableEq, Repr

/-- The C-locale `isspace` of `ctype.h`: space, and the controls `\t` to `\r`. -/
def isspace (c : Nat) : Bool := c == 32 || (9 ≤ c && c ≤ 13)

/-- Reduce an integer to the range of `long long` (two's complement, 64 bits). -/
def wrap64 (x : Int) : Int := (x + 2 ^ 63) % 2 ^ 64 - 2 ^ 63

/-- The loop `while (*s && isspace((unsigned char)*s)) s++;`. A byte of memory
is a value from 0 to 255, on which the cast to `unsigned char` is the identity. -/
def skip_spaces : List Nat → Option (List Nat)
  | [] => none
  | c :: s => if c ≠ 0 ∧ isspace c = true then skip_spaces s else some (c :: s)

/-- The loop over the integer digits: returns `s`, `int_part` and `int_digits`.
The digit counter is an `int` in the source; it is only compared with zero,
and on the 32-bit target no string is long enough to wrap it back to zero. -/
def scan_int : List Nat → Int → Nat → Option (List Nat × Int × Nat)
  | [], _, _ => none
  | c :: s, int_part, int_digits =>
    if 48 ≤ c ∧ c ≤ 57 then
      scan_int s (wrap64 (int_part * 10 + ((c : Int) - 48))) (int_digits + 1)
    else some (c :: s, int_part, int_digits)

/-- The loop over the fraction digits: returns `s`, `frac`, `div` and
`frac_digits`. -/
def scan_frac : List Nat → F32 → F32 → Nat → Option (List Nat × F32 × F32 × Nat)
  | [], _, _, _ => none
  | c :: s, frac, div, frac_digits =>
    if 48 ≤ c ∧ c ≤ 57 then
      scan_frac s (F32.add (F32.mul frac (F32.ofInt 10)) (F32.ofInt ((c : Int) - 48)))
        (F32.mul div (F32.ofInt 10)) (frac_digits + 1)
    else some (c :: s, frac, div, frac_digits)

/-- Parse a temperature string like `+0018.50` or `-3.25` into a float.
`s` is the memory from the pointer on and `out` the object behind `out`
(`none` for `NULL`). The result is `none` when a read leaves the memory of
`s`; otherwise it is the returned flag and the object behind `out` after the
call. -/
def temp_str_to_float (s : Option (List Nat)) (out : Option F32) :
    Option (Bool × Option F32) :=
  match s, out with
  | some s, some o =>
    (skip_spaces s).bind fun s =>
    match s with
    | [] => none
    | c :: t =>
      let sign : Int := if c = 43 ∨ c = 45 then (if c = 45 then -1 else 1) else 1
      let s := if c = 43 ∨ c = 45 then t else c :: t
      (scan_int s 0 0).bind fun r =>
      let int_part := r.2.1
      let int_digits := r.2.2
      match r.1 with
      | [] => none
      | c :: t =>
        (if c = 46 then scan_frac t F32.zero (F32.ofInt 1) 0
         else some (c :: t, F32.zero, F32.ofInt 1, 0)).bind fun q =>
        let frac := q.2.1
        let div := q.2.2.1
        let frac_digits := q.2.2.2
        if int_digits = 0 ∧ frac_digits = 0 then some (false, some o)
        else
          (skip_spaces q.1).bind fun s =>
          match s with
          | [] => none
          | c :: _ =>
            if c ≠ 0 then some (false, some o)
            else
              some (true, some (F32.mul (F32.ofInt sign)
                (F32.add (F32.ofInt int_part)
                  (if frac_digits ≠ 0 then F32.div frac div else F32.zero))))
  | _, _ => some (false, out)

open th_status_tag_t in
/-- Internal helper: read `len` bytes starting at register `reg` into `out`.
Returns the new bus, the result and the buffer behind `out` after the call. -/
def read_regs (bus : MockBus) (self : Option th_t) (reg : Nat) (out : Option (List Nat))
    (len : Nat) : MockBus × th_result_t × Option (List Nat) :=
  let res : th_result_t := { tag := TH_STATUS_OK, value := .esp_code 0 }
  match self, out with
  | some d, some buf =>
    if !d.initialized || len == 0 then (bus, { res with tag := TH_STATUS_ARG_ERR }, out)
    else
      let r : MockBus × esp_err_t × List Nat :=
        if d.dev ≠ 0 then
          i2c_master_transmit_receive bus d.dev [reg] buf len (bus.pdMS_TO_TICKS d.timeout_ms)
        else (bus, ESP_ERR_INVALID_ARG, buf)
      if r.2.1 ≠ ESP_OK then
        (r.1, { tag := TH_STATUS_I2C_ERR, value := .esp_code r.2.1 }, some r.2.2)
      else (r.1, res, some r.2.2)
  | _, _ => (bus, { res with tag := TH_STATUS_ARG_ERR }, out)

open th_status_tag_t in
/-- Initialize a `th_t` instance and create a device handle on the bus. -/
def th_init (bus : MockBus) (self : Option th_t) (i2c_bus i2c_addr timeout_ms : Nat) :
    MockBus × Option th_t × th_result_t :=
  let res : th_result_t := { tag := TH_STATUS_OK, value := .esp_code 0 }
  match self with
  | none => (bus, none, { res with tag := TH_STATUS_ARG_ERR })
  | some d =>
    if i2c_addr = 0 then (bus, some d, { res with tag := TH_STATUS_ARG_ERR })
    else
      let d := th_t.zero
      let d := { d with i2c_bus := i2c_bus }
      let d := { d with i2c_addr := i2c_addr }
      let d := { d with timeout_ms := if timeout_ms = 0 then 200 else timeout_ms }
      let d := { d with dev := 0 }
      let dev_cfg : i2c_device_config_t :=
        { dev_addr_length := .I2C_ADDR_BIT_LEN_7, device_address := i2c_addr,
          scl_speed_hz := 100000 }
      let r := i2c_master_bus_add_device bus i2c_bus dev_cfg d.dev
      let d := { d with dev := r.2.2 }
      if r.2.1 ≠ ESP_OK then
        (r.1, some d, { tag := TH_STATUS_I2C_ERR, value := .esp_code r.2.1 })
      else (r.1, some { d with initialized := true }, res)

open th_status_tag_t in
/-- Deinitialize a `th_t` instance and release device handles. -/
def th_deinit (bus : MockBus) (self : Option th_t) : MockBus × Option th_t × th_result_t :=
  let res : th_result_t := { tag := TH_STATUS_OK, value := .esp_code 0 }
  match self with
  | none => (bus, none, { res with tag := TH_STATUS_ARG_ERR })
  | some d =>
    let bus := if d.dev ≠ 0 ∧ d.i2c_bus ≠ 0 then (i2c_master_bus_rm_device bus d.dev).1 else bus
    (bus, some th_t.zero, res)

open th_status_tag_t in
/-- Read temperature in degrees Celsius as a string of 8 bytes. -/
def th_get_temp_c_str (bus : MockBus) (self : Option th_t) : MockBus × th_result_t :=
  let buf : List Nat := List.replicate 8 0
  let r := read_regs bus self KMETER_TEMP_CELSIUS_STRING_REG (some buf) 8
  if r.2.1.tag ≠ TH_STATUS_OK then (r.1, r.2.1)
  else (r.1, { tag := TH_STATUS_OK, value := .str_c ((r.2.2.getD buf).take 8) })

open th_status_tag_t in
/-- Read the temperature from the sensor string representation (8 bytes) and
convert it to float. The result is `none` when the parser reads outside the
9-byte buffer. -/
def th_get_temp_c (bus : MockBus) (self : Option th_t) : Option (MockBus × th_result_t) :=
  let res : th_result_t := { tag := TH_STATUS_OK, value := .esp_code 0 }
  let buf : List Nat := List.replicate 9 0
  let r := read_regs bus self KMETER_TEMP_CELSIUS_STRING_REG (some buf) (9 - 1)
  if r.2.1.tag ≠ TH_STATUS_OK then some (r.1, r.2.1)
  else
    let temp_c : F32 := F32.zero
    (temp_str_to_float r.2.2 (some temp_c)).bind fun p =>
    if !p.1 then some (r.1, { res with tag := TH_STATUS_SENSOR_ERR })
    else some (r.1, { tag := TH_STATUS_OK, value := .temp_c (p.2.getD temp_c) })

/-- The `int32_t` object made of four bytes in memory: the target (RISC-V
ESP32-C3) is little-endian and two's complement. -/
def int32_of_bytes (b : List Nat) : Int :=
  let u : Nat := b.getD 0 0 + 256 * b.getD 1 0 + 65536 * b.getD 2 0 + 16777216 * b.getD 3 0
  if u < 2 ^ 31 then (u : Int) else (u : Int) - 2 ^ 32

open th_status_tag_t in
/-- Read the temperature directly from the sensor register, int to float. -/
def th_get_temp_c_float (bus : MockBus) (self : Option th_t) : MockBus × th_result_t :=
  let buf : List Nat := List.replicate 4 0
  let r := read_regs bus self KMETER_TEMP_VAL_REG (some buf) 4
  if r.2.1.tag ≠ TH_STATUS_OK then (r.1, r.2.1)
  else
    let temp := F32.div (F32.ofInt (int32_of_bytes (r.2.2.getD buf))) (F32.ofInt 100)
    (r.1, { tag := TH_STATUS_OK, value := .temp_c temp })

/-! ## Sequences of register operations, and example buses -/

/-- The timeout argument of a bus transaction (`none` for the two calls that
take none). -/
def BusCall.xfer_timeout? : BusCall → Option Nat
  | .add_device _ _ => none
  | .rm_device _ => none
  | .transmit _ _ t => some t
  | .transmit_receive _ _ _ t => some t

/-- The register operations of the SSR driver. -/
inductive SsrOp where
  | get_active
  | set_active (active : Bool)
  | get_version
deriving DecidableEq, Repr

/-- Run one SSR register operation. -/
def ssr_run_op (bus : MockBus) (self : Option ssr_t) : SsrOp → MockBus × ssr_result_t
  | .get_active => ssr_get_active bus self
  | .set_active a => ssr_set_active bus self a
  | .get_version => ssr_get_version bus self

/-- Run SSR register operations one after the other; the bus is returned. -/
def ssr_run_ops (bus : MockBus) (self : Option ssr_t) : List SsrOp → MockBus
  | [] => bus
  | op :: ops => ssr_run_ops (ssr_run_op bus self op).1 self ops

/-- The register operations of the thermocouple driver. -/
inductive ThOp where
  | get_temp_c_str
  | get_temp_c
  | get_temp_c_float
deriving DecidableEq, Repr

/-- Run one thermocouple register operation (`none`: the parser left its buffer). -/
def th_run_op (bus : MockBus) (self : Option th_t) : ThOp → Option (MockBus × th_result_t)
  | .get_temp_c_str => some (th_get_temp_c_str bus self)
  | .get_temp_c => th_get_temp_c bus self
  | .get_temp_c_float => some (th_get_temp_c_float bus self)

/-- Run thermocouple register operations one after the other. -/
def th_run_ops (bus : MockBus) (self : Option th_t) : List ThOp → Option MockBus
  | [] => some bus
  | op :: ops => (th_run_op bus self op).bind fun r => th_run_ops r.1 self ops

/-- The byte last written to register `reg` of device `dev` in a call log
(oldest call first; `0` when the register was never written). -/
def last_written (dev reg : Nat) (log : List BusCall) : Nat :=
  log.foldl (fun v c =>
    match c with
    | .transmit d [r, b] _ => if d = dev ∧ r = reg then b else v
    | _ => v) 0

/-- The behaviour of a loopback bus: every call succeeds, a write of the frame
`[reg, b]` stores `b` in register `reg` of the addressed device, and a read
returns what was last stored, from the addressed register on. -/
def loopback_reply (log : List BusCall) : BusCall → Reply
  | .add_device _ cfg => { rc := ESP_OK, handle := some (cfg.device_address + 1), data := [] }
  | .rm_device _ => { rc := ESP_OK, handle := none, data := [] }
  | .transmit _ _ _ => { rc := ESP_OK, handle := none, data := [] }
  | .transmit_receive dev w n _ =>
    { rc := ESP_OK, handle := none,
      data := (List.range n).map fun i => last_written dev (w.headD 0 + i) log }

/-- A loopback bus with an empty log and a 100 Hz tick. -/
def loopback_bus : MockBus :=
  { pdMS_TO_TICKS := fun ms => ms * 100 / 1000, reply := loopback_reply, calls := [] }

/-- A bus that answers every call with the same status code and data, and
hands out the same handle for every binding. -/
def const_bus (rc : esp_err_t) (handle : Option Nat) (data : List Nat) : MockBus :=
  { pdMS_TO_TICKS := fun ms => ms * 100 / 1000,
    reply := fun _ _ => { rc := rc, handle := handle, data := data }, calls := [] }

/-- An SSR object as a successful `ssr_init` leaves it. -/
def ssr_bound : ssr_t :=
  { i2c_bus := 1, dev := 7, i2c_addr := 0x50, timeout_ms := 200, initialized := true }

/-- A thermocouple object as a successful `th_init` leaves it. -/
def th_bound : th_t :=
  { i2c_bus := 1, dev := 9, i2c_addr := 0x66, timeout_ms := 200, initialized := true }

/-! ## The decimal grammar of the specification -/

/-- A decimal digit, `0` to `9` in ASCII. -/
def is_digit (c : Nat) : Prop := 48 ≤ c ∧ c ≤ 57

instance (c : Nat) : Decidable (is_digit c) := by
  unfold is_digit
  infer_instance

/-- A text of the decimal grammar, split into its parts: leading whitespace,
an optional sign (`some true` is `-`, `some false` is `+`), the integer
digits, an optional `.` with the fraction digits, trailing whitespace. -/
structure DecimalText where
  lead : List Nat
  sign : Option Bool
  int_digits : List Nat
  frac : Option (List Nat)
  trail : List Nat
deriving DecidableEq, Repr

namespace DecimalText

/-- The bytes of the sign part. -/
def sign_bytes : Option Bool → List Nat
  | none => []
  | some false => [43]
  | some true => [45]

/-- The bytes of the fraction part. -/
def frac_bytes : Option (List Nat) → List Nat
  | none => []
  | some F => 46 :: F

/-- The fraction digits (none when there is no `.`). -/
def frac_digits (t : DecimalText) : List Nat := t.frac.getD []

/-- The string the parts spell, without the terminator. -/
def bytes (t : DecimalText) : List Nat :=
  t.lead ++ sign_bytes t.sign ++ t.int_digits ++ frac_bytes t.frac ++ t.trail

/-- Each part holds only the characters the grammar allows there. -/
def WellFormed (t : DecimalText) : Prop :=
  (∀ c ∈ t.lead, isspace c = true) ∧ (∀ c ∈ t.int_digits, is_digit c)
    ∧ (∀ c ∈ t.frac_digits, is_digit c) ∧ (∀ c ∈ t.trail, isspace c = true)

/-- At least one digit in the integer or the fraction part. -/
def has_digit (t : DecimalText) : Prop := t.int_digits ≠ [] ∨ t.frac_digits ≠ []

instance (t : DecimalText) : Decidable t.WellFormed := by
  unfold WellFormed
  infer_instance

instance (t : DecimalText) : Decidable t.has_digit := by
  unfold has_digit
  infer_instance

end DecimalText

/-- The number a list of decimal digits reads as, after the number `a` read
so far. -/
def digits_acc (a : Nat) (ds : List Nat) : Nat :=
  ds.foldl (fun (v c : Nat) => 10 * v + (c - 48)) a

/-- The number a list of decimal digits reads as. -/
def digits_value (ds : List Nat) : Nat := digits_acc 0 ds

/-- The value of a text in exact arithmetic:
`sign * (value(I) + value(F) / 10^k)` with `k` the number of fraction digits. -/
def DecimalText.value (t : DecimalText) : ℚ :=
  (if t.sign = some true then -1 else 1)
    * ((digits_value t.int_digits : ℚ)
        + (digits_value t.frac_digits : ℚ) / 10 ^ t.frac_digits.length)

/-- The string held by a memory: the bytes before its first NUL. -/
def c_string (mem : List Nat) : List Nat := mem.takeWhile (fun c => c ≠ 0)

/-- The content of `int_part` after the integer loop has read the digits `ds`. -/
def int_acc (a : Int) (ds : List Nat) : Int :=
  ds.foldl (fun (a : Int) (c : Nat) => wrap64 (a * 10 + ((c : Int) - 48))) a

/-- The content of `frac` after the fraction loop has read the digits `ds`. -/
def frac_acc (f : F32) (ds : List Nat) : F32 :=
  ds.foldl (fun (f : F32) (c : Nat) =>
    F32.add (F32.mul f (F32.ofInt 10)) (F32.ofInt ((c : Int) - 48))) f

/-- The content of `div` after the fraction loop has read the digits `ds`. -/
def div_acc (d : F32) (ds : List Nat) : F32 :=
  ds.foldl (fun (d : F32) (_ : Nat) => F32.mul d (F32.ofInt 10)) d

/-- The float the parser writes for a text of the grammar, computed as the
source computes it. -/
def DecimalText.parsed (t : DecimalText) : F32 :=
  F32.mul (F32.ofInt (if t.sign = some true then -1 else 1))
    (F32.add (F32.ofInt (int_acc 0 t.int_digits))
      (if t.frac_digits.length ≠ 0 then
        F32.div (frac_acc F32.zero t.frac_digits) (div_acc (F32.ofInt 1) t.frac_digits)
       else F32.zero))

/-- The bytes of an ASCII literal followed by the terminator. -/
def c_str (s : String) : List Nat := s.toList.map Char.toNat ++ [0]

/-- The end of `temp_str_to_float`, from the test for a digit on: `q` holds
`s`, `frac`, `div` and `frac_digits` as the fraction part left them. -/
def parse_finish (sign int_part : Int) (int_digits : Nat) (q : List Nat × F32 × F32 × Nat)
    (o : F32) : Option (Bool × Option F32) :=
  if int_digits = 0 ∧ q.2.2.2 = 0 then some (false, some o)
  else
    (skip_spaces q.1).bind fun s =>
    match s with
    | [] => none
    | c :: _ =>
      if c ≠ 0 then some (false, some o)
      else
        some (true, some (F32.mul (F32.ofInt sign)
          (F32.add (F32.ofInt int_part)
            (if q.2.2.2 ≠ 0 then F32.div q.2.1 q.2.2.1 else F32.zero))))

/-- The middle of `temp_str_to_float`, from the integer digits on. -/
def parse_number (sign : Int) (s : List Nat) (o : F32) : Option (Bool × Option F32) :=
  (scan_int s 0 0).bind fun r =>
  match r.1 with
  | [] => none
  | c :: t =>
    (if c = 46 then scan_frac t F32.zero (F32.ofInt 1) 0
     else some (c :: t, F32.zero, F32.ofInt 1, 0)).bind fun q =>
    parse_finish sign r.2.1 r.2.2 q o

/-- The text `0.75000000000`: eleven fraction digits that read 75000000000. -/
def long_fraction_text : DecimalText :=
  { lead := [], sign := none, int_digits := [48],
    frac := some [55, 53, 48, 48, 48, 48, 48, 48, 48, 48, 48], trail := [] }

/-- The text `+0018.50` of the specification. -/
def spec_example_text : DecimalText :=
  { lead := [], sign := some false, int_digits := [48, 48, 49, 56],
    frac := some [53, 48], trail := [] }

/-- What one operation may add to the call log: transactions whose timeout
argument is `T`, on a bus with the same tick conversion. -/
def AddsCallsWithTimeout (bus after : MockBus) (T : Nat) : Prop :=
  after.pdMS_TO_TICKS = bus.pdMS_TO_TICKS
    ∧ ∃ new, after.calls = bus.calls ++ new ∧ ∀ c ∈ new, c.xfer_timeout? = some T

/-! ## Binding followed by teardown, and sequences of driver calls -/

/-- The device configuration both bindings hand to `add_device`. -/
def bind_cfg (i2c_addr : Nat) : i2c_device_config_t :=
  { dev_addr_length := .I2C_ADDR_BIT_LEN_7, device_address := i2c_addr, scl_speed_hz := 100000 }

/-- The call `ssr_init` followed immediately by `ssr_deinit` on the same object. -/
def ssr_bind_unbind (bus : MockBus) (self : Option ssr_t) (i2c_bus i2c_addr timeout_ms : Nat) :
    MockBus × Option ssr_t × ssr_result_t :=
  ssr_deinit (ssr_init bus self i2c_bus i2c_addr timeout_ms).1
    (ssr_init bus self i2c_bus i2c_addr timeout_ms).2.1

/-- The call `th_init` followed immediately by `th_deinit` on the same object. -/
def th_bind_unbind (bus : MockBus) (self : Option th_t) (i2c_bus i2c_addr timeout_ms : Nat) :
    MockBus × Option th_t × th_result_t :=
  th_deinit (th_init bus self i2c_bus i2c_addr timeout_ms).1
    (th_init bus self i2c_bus i2c_addr timeout_ms).2.1

/-- A bus keeps the handle discipline when every accepted binding stores a
handle that is not NULL and every rejected binding stores none. -/
def HandleDiscipline (bus : MockBus) : Prop :=
  ∀ (log : List BusCall) (bus_handle : Nat) (cfg : i2c_device_config_t),
    ((bus.reply log (.add_device bus_handle cfg)).rc = ESP_OK →
      ∃ h, h ≠ 0 ∧ (bus.reply log (.add_device bus_handle cfg)).handle = some h)
    ∧ ((bus.reply log (.add_device bus_handle cfg)).rc ≠ ESP_OK →
      (bus.reply log (.add_device bus_handle cfg)).handle = none)

/-- One call of the SSR driver on an object. -/
inductive SsrStep where
  | init (i2c_bus i2c_addr timeout_ms : Nat)
  | deinit
  | op (o : SsrOp)
deriving DecidableEq, Repr

/-- Run one SSR driver call: the new bus and the object after the call. -/
def ssr_step (bus : MockBus) (self : Option ssr_t) : SsrStep → MockBus × Option ssr_t
  | .init i2c_bus i2c_addr timeout_ms =>
    ((ssr_init bus self i2c_bus i2c_addr timeout_ms).1,
      (ssr_init bus self i2c_bus i2c_addr timeout_ms).2.1)
  | .deinit => ((ssr_deinit bus self).1, (ssr_deinit bus self).2.1)
  | .op o => ((ssr_run_op bus self o).1, self)

/-- Run SSR driver calls one after the other. -/
def ssr_steps (bus : MockBus) (self : Option ssr_t) : List SsrStep → MockBus × Option ssr_t
  | [] => (bus, self)
  | st :: rest => ssr_steps (ssr_step bus self st).1 (ssr_step bus self st).2 rest

/-- One call of the thermocouple driver on an object. -/
inductive ThStep where
  | init (i2c_bus i2c_addr timeout_ms : Nat)
  | deinit
  | op (o : ThOp)
deriving DecidableEq, Repr

/-- Run one thermocouple driver call (`none`: the parser left its buffer). -/
def th_step (bus : MockBus) (self : Option th_t) : ThStep → Option (MockBus × Option th_t)
  | .init i2c_bus i2c_addr timeout_ms =>
    some ((th_init bus self i2c_bus i2c_addr timeout_ms).1,
      (th_init bus self i2c_bus i2c_addr timeout_ms).2.1)
  | .deinit => some ((th_deinit bus self).1, (th_deinit bus self).2.1)
  | .op o => (th_run_op bus self o).map fun r => (r.1, self)

/-- Run thermocouple driver calls one after the other. -/
def th_steps (bus : MockBus) (self : Option th_t) :
    List ThStep → Option (MockBus × Option th_t)
  | [] => some (bus, self)
  | st :: rest => (th_step bus self st).bind fun r => th_steps r.1 r.2 rest

/-- The behaviour of a bus with a single device slot: the first binding is
accepted and stores the handle 7, every later binding is rejected with
`ESP_FAIL` and stores no handle; all other calls succeed. -/
def one_slot_reply (log : List BusCall) : BusCall → Reply
  | .add_device _ _ =>
    if log.any (fun c => match c with
        | .add_device _ _ => true
        | _ => false)
    then { rc := ESP_FAIL, handle := none, data := [] }
    else { rc := ESP_OK, handle := some 7, data := [] }
  | _ => { rc := ESP_OK, handle := none, data := [] }

/-- A bus with a single device slot, an empty log and a 100 Hz tick. -/
def one_slot_bus : MockBus :=
  { pdMS_TO_TICKS := fun ms => ms * 100 / 1000, reply := one_slot_reply, calls := [] }

/-! # Properties -/

/-! ## Register operations on an object that is not initialized -/

theorem read_reg_uninit (bus : MockBus) (d : ssr_t) (reg : Nat) (h : d.initialized = false) :
    read_reg bus (some d) reg = (bus, { tag := .SSR_STATUS_ARG_ERR, value := .reserved 0 }) := by
  simp [read_reg, h]

theorem write_reg_uninit (bus : MockBus) (d : ssr_t) (reg val : Nat)
    (h : d.initialized = false) :
    write_reg bus (some d) reg val
      = (bus, { tag := .SSR_STATUS_ARG_ERR, value := .reserved 0 }) := by
  simp [write_reg, h]

theorem read_regs_uninit (bus : MockBus) (d : th_t) (reg len : Nat) (out : Option (List Nat))
    (h : d.initialized = false) :
    read_regs bus (some d) reg out len
      = (bus, { tag := .TH_STATUS_ARG_ERR, value := .esp_code 0 }, out) := by
  cases out <;> simp [read_regs, h]

/-- C1: on a device in the zero state each of the six register operations
returns the argument-error tag and leaves the call log of the mock bus as it
was, so no bus transaction is made. -/
theorem zero_state_ops_arg_err_no_bus_call (bus : MockBus) (a : Bool) :
    ((ssr_get_active bus (some ssr_t.zero)).2.tag = .SSR_STATUS_ARG_ERR
      ∧ (ssr_get_active bus (some ssr_t.zero)).1.calls = bus.calls)
    ∧ ((ssr_set_active bus (some ssr_t.zero) a).2.tag = .SSR_STATUS_ARG_ERR
      ∧ (ssr_set_active bus (some ssr_t.zero) a).1.calls = bus.calls)
    ∧ ((ssr_get_version bus (some ssr_t.zero)).2.tag = .SSR_STATUS_ARG_ERR
      ∧ (ssr_get_version bus (some ssr_t.zero)).1.calls = bus.calls)
    ∧ (∃ r, th_get_temp_c bus (some th_t.zero) = some r
      ∧ r.2.tag = .TH_STATUS_ARG_ERR ∧ r.1.calls = bus.calls)
    ∧ ((th_get_temp_c_str bus (some th_t.zero)).2.tag = .TH_STATUS_ARG_ERR
      ∧ (th_get_temp_c_str bus (some th_t.zero)).1.calls = bus.calls)
    ∧ ((th_get_temp_c_float bus (some th_t.zero)).2.tag = .TH_STATUS_ARG_ERR
      ∧ (th_get_temp_c_float bus (some th_t.zero)).1.calls = bus.calls) := by
  have hs : ssr_t.zero.initialized = false := rfl
  have ht : th_t.zero.initialized = false := rfl
  refine ⟨?_, ?_, ?_, ?_, ?_, ?_⟩
  · simp [ssr_get_active, read_reg_uninit _ _ _ hs]
  · simp [ssr_set_active, write_reg_uninit _ _ _ _ hs]
  · simp [ssr_get_version, read_reg_uninit _ _ _ hs]
  · simp [th_get_temp_c, read_regs_uninit _ _ _ _ _ ht]
  · simp [th_get_temp_c_str, read_regs_uninit _ _ _ _ _ ht]
  · simp [th_get_temp_c_float, read_regs_uninit _ _ _ _ _ ht]

/-! ## Register operations on a bound object -/

theorem read_reg_bound (bus : MockBus) (d : ssr_t) (reg : Nat)
    (hi : d.initialized = true) (hd : d.dev ≠ 0) :
    read_reg bus (some d) reg =
      (if (bus.reply bus.calls
            (.transmit_receive d.dev [reg] 1 (bus.pdMS_TO_TICKS d.timeout_ms))).rc ≠ ESP_OK then
        ((bus.call (.transmit_receive d.dev [reg] 1 (bus.pdMS_TO_TICKS d.timeout_ms))).1,
          { tag := .SSR_STATUS_I2C_ERR,
            value := .esp_code (bus.reply bus.calls
              (.transmit_receive d.dev [reg] 1 (bus.pdMS_TO_TICKS d.timeout_ms))).rc })
      else
        ((bus.call (.transmit_receive d.dev [reg] 1 (bus.pdMS_TO_TICKS d.timeout_ms))).1,
          { tag := .SSR_STATUS_OK,
            value := .version ((store_bytes [0] (bus.reply bus.calls
              (.transmit_receive d.dev [reg] 1 (bus.pdMS_TO_TICKS d.timeout_ms))).data
                1).headD 0) })) := by
  simp [read_reg, hi, hd, i2c_master_transmit_receive, MockBus.call]

theorem write_reg_bound (bus : MockBus) (d : ssr_t) (reg val : Nat)
    (hi : d.initialized = true) (hd : d.dev ≠ 0) :
    write_reg bus (some d) reg val =
      (if (bus.reply bus.calls
            (.transmit d.dev [reg, val] (bus.pdMS_TO_TICKS d.timeout_ms))).rc ≠ ESP_OK then
        ((bus.call (.transmit d.dev [reg, val] (bus.pdMS_TO_TICKS d.timeout_ms))).1,
          { tag := .SSR_STATUS_I2C_ERR,
            value := .esp_code (bus.reply bus.calls
              (.transmit d.dev [reg, val] (bus.pdMS_TO_TICKS d.timeout_ms))).rc })
      else
        ((bus.call (.transmit d.dev [reg, val] (bus.pdMS_TO_TICKS d.timeout_ms))).1,
          { tag := .SSR_STATUS_OK, value := .reserved 0 })) := by
  simp [write_reg, hi, hd, i2c_master_transmit, MockBus.call]

theorem read_regs_bound (bus : MockBus) (d : th_t) (reg len : Nat) (buf : List Nat)
    (hi : d.initialized = true) (hd : d.dev ≠ 0) (hl : len ≠ 0) :
    read_regs bus (some d) reg (some buf) len =
      (if (bus.reply bus.calls
            (.transmit_receive d.dev [reg] len (bus.pdMS_TO_TICKS d.timeout_ms))).rc ≠ ESP_OK then
        ((bus.call (.transmit_receive d.dev [reg] len (bus.pdMS_TO_TICKS d.timeout_ms))).1,
          { tag := .TH_STATUS_I2C_ERR,
            value := .esp_code (bus.reply bus.calls
              (.transmit_receive d.dev [reg] len (bus.pdMS_TO_TICKS d.timeout_ms))).rc },
          some (store_bytes buf (bus.reply bus.calls
              (.transmit_receive d.dev [reg] len (bus.pdMS_TO_TICKS d.timeout_ms))).data len))
      else
        ((bus.call (.transmit_receive d.dev [reg] len (bus.pdMS_TO_TICKS d.timeout_ms))).1,
          { tag := .TH_STATUS_OK, value := .esp_code 0 },
          some (store_bytes buf (bus.reply bus.calls
              (.transmit_receive d.dev [reg] len (bus.pdMS_TO_TICKS d.timeout_ms))).data
                len))) := by
  simp [read_regs, hi, hd, hl, i2c_master_transmit_receive, MockBus.call]

/-- C2: when the mock bus answers the next call with a status code `c` other
than `ESP_OK`, both bindings (for a nonzero address) and each of the six
register operations on a bound object return the I2C-error tag with
`value.esp_code = c`. -/
theorem bus_failure_code_is_preserved (bus : MockBus) (c : esp_err_t) (hc : c ≠ ESP_OK)
    (hbus : ∀ call, (bus.reply bus.calls call).rc = c) :
    (∀ (s : ssr_t) (i2c_bus i2c_addr timeout_ms : Nat), i2c_addr ≠ 0 →
      (ssr_init bus (some s) i2c_bus i2c_addr timeout_ms).2.2
        = { tag := .SSR_STATUS_I2C_ERR, value := .esp_code c })
    ∧ (∀ (t : th_t) (i2c_bus i2c_addr timeout_ms : Nat), i2c_addr ≠ 0 →
      (th_init bus (some t) i2c_bus i2c_addr timeout_ms).2.2
        = { tag := .TH_STATUS_I2C_ERR, value := .esp_code c })
    ∧ (∀ (s : ssr_t) (a : Bool), s.initialized = true → s.dev ≠ 0 →
      (ssr_get_active bus (some s)).2 = { tag := .SSR_STATUS_I2C_ERR, value := .esp_code c }
      ∧ (ssr_set_active bus (some s) a).2
          = { tag := .SSR_STATUS_I2C_ERR, value := .esp_code c }
      ∧ (ssr_get_version bus (some s)).2
          = { tag := .SSR_STATUS_I2C_ERR, value := .esp_code c })
    ∧ (∀ t : th_t, t.initialized = true → t.dev ≠ 0 →
      (∃ r, th_get_temp_c bus (some t) = some r
        ∧ r.2 = { tag := .TH_STATUS_I2C_ERR, value := .esp_code c })
      ∧ (th_get_temp_c_str bus (some t)).2
          = { tag := .TH_STATUS_I2C_ERR, value := .esp_code c }
      ∧ (th_get_temp_c_float bus (some t)).2
          = { tag := .TH_STATUS_I2C_ERR, value := .esp_code c }) := by
  refine ⟨?_, ?_, ?_, ?_⟩
  · intro s i2c_bus i2c_addr timeout_ms ha
    simp [ssr_init, ha, i2c_master_bus_add_device, MockBus.call, hbus, hc]
  · intro t i2c_bus i2c_addr timeout_ms ha
    simp [th_init, ha, i2c_master_bus_add_device, MockBus.call, hbus, hc]
  · intro s a hi hd
    refine ⟨?_, ?_, ?_⟩
    · simp [ssr_get_active, read_reg_bound _ _ _ hi hd, hbus, hc]
    · simp [ssr_set_active, write_reg_bound _ _ _ _ hi hd, hbus, hc]
    · simp [ssr_get_version, read_reg_bound _ _ _ hi hd, hbus, hc]
  · intro t hi hd
    refine ⟨?_, ?_, ?_⟩
    · simp [th_get_temp_c, read_regs_bound _ _ _ _ _ hi hd, hbus, hc]
    · simp [th_get_temp_c_str, read_regs_bound _ _ _ _ _ hi hd, hbus, hc]
    · simp [th_get_temp_c_float, read_regs_bound _ _ _ _ _ hi hd, hbus, hc]

/-- Witness of C2 on a bus that answers every call with `ESP_FAIL`. -/
theorem bus_failure_code_is_preserved_witness :
    ((-1 : esp_err_t) ≠ ESP_OK
      ∧ ∀ call, ((const_bus (-1) none []).reply (const_bus (-1) none []).calls call).rc = -1)
    ∧ (ssr_init (const_bus (-1) none []) (some ssr_t.zero) 1 0x50 0).2.2
        = { tag := .SSR_STATUS_I2C_ERR, value := .esp_code (-1) }
    ∧ (ssr_get_active (const_bus (-1) none []) (some ssr_bound)).2
        = { tag := .SSR_STATUS_I2C_ERR, value := .esp_code (-1) } :=
  ⟨⟨by decide, fun _ => rfl⟩,
    (bus_failure_code_is_preserved (const_bus (-1) none []) (-1) (by decide)
      (fun _ => rfl)).1 ssr_t.zero 1 0x50 0 (by decide),
    ((bus_failure_code_is_preserved (const_bus (-1) none []) (-1) (by decide)
      (fun _ => rfl)).2.2.1 ssr_bound true rfl (by decide)).1⟩

/-! ## Binding: the address check -/

/-- C7, counterexample: address 200 is above the 7-bit range, yet both
bindings hand it to the bus, succeed and fill in the object. -/
theorem bind_accepts_address_200 :
    (ssr_init (const_bus ESP_OK (some 7) []) (some ssr_t.zero) 1 200 0).2.2.tag
        = .SSR_STATUS_OK
    ∧ (ssr_init (const_bus ESP_OK (some 7) []) (some ssr_t.zero) 1 200 0).1.calls
        = [.add_device 1 ⟨.I2C_ADDR_BIT_LEN_7, 200, 100000⟩]
    ∧ (ssr_init (const_bus ESP_OK (some 7) []) (some ssr_t.zero) 1 200 0).2.1
        = some { i2c_bus := 1, dev := 7, i2c_addr := 200, timeout_ms := 200,
                 initialized := true }
    ∧ (th_init (const_bus ESP_OK (some 7) []) (some th_t.zero) 1 200 0).2.2.tag
        = .TH_STATUS_OK
    ∧ (th_init (const_bus ESP_OK (some 7) []) (some th_t.zero) 1 200 0).1.calls
        = [.add_device 1 ⟨.I2C_ADDR_BIT_LEN_7, 200, 100000⟩]
    ∧ (th_init (const_bus ESP_OK (some 7) []) (some th_t.zero) 1 200 0).2.1
        = some { i2c_bus := 1, dev := 7, i2c_addr := 200, timeout_ms := 200,
                 initialized := true } := by
  decide

/-- C7, amended: the bindings reject exactly the address 0. For address 0
they return the argument-error tag, make no call to the bus and leave the
object as it was. Every other address, also one above 127, is handed to the
bus in one `add_device` call and the result is not the argument-error tag. -/
theorem bind_rejects_exactly_address_zero (bus : MockBus) (s : ssr_t) (t : th_t)
    (i2c_bus i2c_addr timeout_ms : Nat) :
    (i2c_addr = 0 →
      ssr_init bus (some s) i2c_bus i2c_addr timeout_ms
        = (bus, some s, { tag := .SSR_STATUS_ARG_ERR, value := .reserved 0 })
      ∧ th_init bus (some t) i2c_bus i2c_addr timeout_ms
        = (bus, some t, { tag := .TH_STATUS_ARG_ERR, value := .esp_code 0 }))
    ∧ (i2c_addr ≠ 0 →
      (ssr_init bus (some s) i2c_bus i2c_addr timeout_ms).2.2.tag ≠ .SSR_STATUS_ARG_ERR
      ∧ (ssr_init bus (some s) i2c_bus i2c_addr timeout_ms).1.calls
        = bus.calls ++ [.add_device i2c_bus ⟨.I2C_ADDR_BIT_LEN_7, i2c_addr, 100000⟩]
      ∧ (th_init bus (some t) i2c_bus i2c_addr timeout_ms).2.2.tag ≠ .TH_STATUS_ARG_ERR
      ∧ (th_init bus (some t) i2c_bus i2c_addr timeout_ms).1.calls
        = bus.calls ++ [.add_device i2c_bus ⟨.I2C_ADDR_BIT_LEN_7, i2c_addr, 100000⟩]) := by
  constructor
  · intro h
    simp [ssr_init, th_init, h]
  · intro h
    refine ⟨?_, ?_, ?_, ?_⟩
    · simp only [ssr_init, h, if_false]
      split <;> simp
    · simp only [ssr_init, h, if_false]
      split <;> simp [i2c_master_bus_add_device, MockBus.call]
    · simp only [th_init, h, if_false]
      split <;> simp
    · simp only [th_init, h, if_false]
      split <;> simp [i2c_master_bus_add_device, MockBus.call]

/-- Witness of the amended C7 at the addresses 0 and 200. -/
theorem bind_rejects_exactly_address_zero_witness :
    ((0 : Nat) = 0
      ∧ ssr_init loopback_bus (some ssr_bound) 1 0 50
        = (loopback_bus, some ssr_bound, { tag := .SSR_STATUS_ARG_ERR, value := .reserved 0 }))
    ∧ ((200 : Nat) ≠ 0
      ∧ (ssr_init loopback_bus (some ssr_bound) 1 200 50).2.2.tag ≠ .SSR_STATUS_ARG_ERR) :=
  ⟨⟨rfl, ((bind_rejects_exactly_address_zero loopback_bus ssr_bound th_bound 1 0 50).1 rfl).1⟩,
    ⟨by decide,
      ((bind_rejects_exactly_address_zero loopback_bus ssr_bound th_bound 1 200 50).2
        (by decide)).1⟩⟩

/-! ## The SSR state register -/

theorem last_written_append_write (dev reg b t : Nat) (log : List BusCall) :
    last_written dev reg (log ++ [.transmit dev [reg, b] t]) = b := by
  simp [last_written, List.foldl_append]

/-- C9: on a loopback bus and a bound SSR object, writing the byte `b` to a
register and reading the register back returns OK with `b`; and
`ssr_set_active a` followed by `ssr_get_active` returns OK with `active = a`. -/
theorem write_then_read_round_trip (bus : MockBus) (d : ssr_t) (reg b : Nat) (a : Bool)
    (hbus : bus.reply = loopback_reply) (hi : d.initialized = true) (hd : d.dev ≠ 0)
    (hb : b < 256) :
    ((write_reg bus (some d) reg b).2.tag = .SSR_STATUS_OK
      ∧ (read_reg (write_reg bus (some d) reg b).1 (some d) reg).2
          = { tag := .SSR_STATUS_OK, value := .version b })
    ∧ ((ssr_set_active bus (some d) a).2.tag = .SSR_STATUS_OK
      ∧ (ssr_get_active (ssr_set_active bus (some d) a).1 (some d)).2
          = { tag := .SSR_STATUS_OK, value := .active a }) := by
  have hw : ∀ v : Nat, write_reg bus (some d) reg v
      = ((bus.call (.transmit d.dev [reg, v] (bus.pdMS_TO_TICKS d.timeout_ms))).1,
          { tag := .SSR_STATUS_OK, value := .reserved 0 }) := by
    intro v
    rw [write_reg_bound _ _ _ _ hi hd]
    simp [hbus, loopback_reply, ESP_OK]
  have hr : ∀ v : Nat, v < 256 →
      (read_reg (bus.call (.transmit d.dev [reg, v] (bus.pdMS_TO_TICKS d.timeout_ms))).1
        (some d) reg).2 = { tag := .SSR_STATUS_OK, value := .version v } := by
    intro v hv
    rw [read_reg_bound _ _ _ hi hd]
    simp [MockBus.call, hbus, loopback_reply, ESP_OK, store_bytes, last_written_append_write,
      Nat.mod_eq_of_lt hv, List.range_succ]
  refine ⟨⟨?_, ?_⟩, ?_⟩
  · rw [hw]
  · rw [hw]
    exact hr b hb
  · have hw0 : ∀ v : Nat, write_reg bus (some d) 0 v
        = ((bus.call (.transmit d.dev [0, v] (bus.pdMS_TO_TICKS d.timeout_ms))).1,
            { tag := .SSR_STATUS_OK, value := .reserved 0 }) := by
      intro v
      rw [write_reg_bound _ _ _ _ hi hd]
      simp [hbus, loopback_reply, ESP_OK]
    have hr0 : ∀ v : Nat, v < 256 →
        read_reg (bus.call (.transmit d.dev [0, v] (bus.pdMS_TO_TICKS d.timeout_ms))).1
          (some d) 0 = ((MockBus.call (bus.call (.transmit d.dev [0, v]
            (bus.pdMS_TO_TICKS d.timeout_ms))).1 (.transmit_receive d.dev [0] 1
              (bus.pdMS_TO_TICKS d.timeout_ms))).1,
            { tag := .SSR_STATUS_OK, value := .version v }) := by
      intro v hv
      rw [read_reg_bound _ _ _ hi hd]
      simp [MockBus.call, hbus, loopback_reply, ESP_OK, store_bytes, last_written_append_write,
        Nat.mod_eq_of_lt hv, List.range_succ]
    cases a
    · simp [ssr_set_active, ssr_get_active, hw0, hr0, ssr_value.as_version]
    · simp [ssr_set_active, ssr_get_active, hw0, hr0, ssr_value.as_version]

/-- Witness of C9 on the loopback bus with register 0x00 and the byte 0xA5. -/
theorem write_then_read_round_trip_witness :
    (loopback_bus.reply = loopback_reply ∧ ssr_bound.initialized = true ∧ ssr_bound.dev ≠ 0
      ∧ 0xA5 < 256)
    ∧ (read_reg (write_reg loopback_bus (some ssr_bound) 0 0xA5).1 (some ssr_bound) 0).2
        = { tag := .SSR_STATUS_OK, value := .version 0xA5 } :=
  ⟨⟨rfl, rfl, by decide, by decide⟩,
    ((write_then_read_round_trip loopback_bus ssr_bound 0 0xA5 true rfl rfl (by decide)
      (by decide)).1).2⟩

/-- C10: when the bus answers the read of register 0x00 of a bound SSR object
with success and the byte `v`, `ssr_get_active` returns OK with `active = true`
for every nonzero `v` and `active = false` exactly for `v = 0`. -/
theorem get_active_is_byte_nonzero (bus : MockBus) (d : ssr_t) (v : Nat)
    (hi : d.initialized = true) (hd : d.dev ≠ 0) (hv : v < 256)
    (hrc : (bus.reply bus.calls
      (.transmit_receive d.dev [0x00] 1 (bus.pdMS_TO_TICKS d.timeout_ms))).rc = ESP_OK)
    (hdata : (bus.reply bus.calls
      (.transmit_receive d.dev [0x00] 1 (bus.pdMS_TO_TICKS d.timeout_ms))).data = [v]) :
    (ssr_get_active bus (some d)).2
        = { tag := .SSR_STATUS_OK, value := .active (decide (v ≠ 0)) }
    ∧ (v ≠ 0 → (ssr_get_active bus (some d)).2.value = .active true)
    ∧ ((ssr_get_active bus (some d)).2.value = .active false ↔ v = 0) := by
  have h : (ssr_get_active bus (some d)).2
      = { tag := .SSR_STATUS_OK, value := .active (decide (v ≠ 0)) } := by
    by_cases h0 : v = 0
    · subst h0
      simp [ssr_get_active, read_reg_bound _ _ _ hi hd, hrc, hdata, store_bytes,
        ssr_value.as_version]
    · simp [ssr_get_active, read_reg_bound _ _ _ hi hd, hrc, hdata, store_bytes,
        ssr_value.as_version, Nat.mod_eq_of_lt hv, h0]
  refine ⟨h, ?_, ?_⟩
  · intro hne
    simp [h, hne]
  · simp [h]

/-- Witness of C10 on a bus that answers every read with the byte 0xFF. -/
theorem get_active_is_byte_nonzero_witness :
    (ssr_bound.initialized = true ∧ ssr_bound.dev ≠ 0 ∧ 0xFF < 256)
    ∧ (ssr_get_active (const_bus ESP_OK none [0xFF]) (some ssr_bound)).2
        = { tag := .SSR_STATUS_OK, value := .active true } :=
  ⟨⟨rfl, by decide, by decide⟩,
    (get_active_is_byte_nonzero (const_bus ESP_OK none [0xFF]) ssr_bound 0xFF rfl (by decide)
      (by decide) rfl rfl).1⟩

/-! ## The scanning loops of the parser -/

theorem isspace_ne_zero {c : Nat} (h : isspace c = true) : c ≠ 0 := by
  rintro rfl
  simp [isspace] at h

theorem skip_spaces_append (ws rest : List Nat) (h : ∀ c ∈ ws, isspace c = true) :
    skip_spaces (ws ++ rest) = skip_spaces rest := by
  induction ws with
  | nil => rfl
  | cons c ws ih =>
    have hc : isspace c = true := h c (List.mem_cons_self _ _)
    have hrest : ∀ x ∈ ws, isspace x = true := fun x hx => h x (List.mem_cons_of_mem _ hx)
    simp [skip_spaces, hc, isspace_ne_zero hc, ih hrest]

theorem skip_spaces_stop (c : Nat) (rest : List Nat) (h : isspace c = false) :
    skip_spaces (c :: rest) = some (c :: rest) := by
  simp [skip_spaces, h]

theorem skip_spaces_some {s r : List Nat} (h : skip_spaces s = some r) :
    ∃ ws c rest, s = ws ++ r ∧ r = c :: rest ∧ (∀ x ∈ ws, isspace x = true)
      ∧ isspace c = false := by
  induction s with
  | nil => simp [skip_spaces] at h
  | cons a s ih =>
    by_cases ha : a ≠ 0 ∧ isspace a = true
    · rw [skip_spaces, if_pos ha] at h
      obtain ⟨ws, c, rest, h1, h2, h3, h4⟩ := ih h
      refine ⟨a :: ws, c, rest, by simp [h1], h2, ?_, h4⟩
      intro x hx
      rcases List.mem_cons.1 hx with rfl | hx
      · exact ha.2
      · exact h3 x hx
    · rw [skip_spaces, if_neg ha] at h
      have hr : r = a :: s := by simpa using h.symm
      refine ⟨[], a, s, by simp [hr], hr, by simp, ?_⟩
      by_cases hz : a = 0
      · subst hz
        simp [isspace]
      · by_contra hsp
        exact ha ⟨hz, by simpa using hsp⟩

theorem scan_int_append (ds rest : List Nat) (a : Int) (n : Nat) (h : ∀ c ∈ ds, is_digit c) :
    scan_int (ds ++ rest) a n = scan_int rest (int_acc a ds) (n + ds.length) := by
  induction ds generalizing a n with
  | nil => rfl
  | cons c ds ih =>
    have hc : 48 ≤ c ∧ c ≤ 57 := h c (List.mem_cons_self _ _)
    have hrest : ∀ x ∈ ds, is_digit x := fun x hx => h x (List.mem_cons_of_mem _ hx)
    rw [List.cons_append, scan_int, if_pos hc, ih _ _ hrest]
    simp only [int_acc, List.foldl_cons, List.length_cons]
    rw [Nat.add_assoc, Nat.add_comm 1]

theorem scan_int_stop (c : Nat) (rest : List Nat) (a : Int) (n : Nat) (h : ¬ is_digit c) :
    scan_int (c :: rest) a n = some (c :: rest, a, n) := by
  have h2 : ¬ (48 ≤ c ∧ c ≤ 57) := h
  simp [scan_int, h2]

theorem scan_int_some {s : List Nat} {a : Int} {n : Nat} {r : List Nat × Int × Nat}
    (h : scan_int s a n = some r) :
    ∃ ds c rest, s = ds ++ r.1 ∧ r.1 = c :: rest ∧ (∀ x ∈ ds, is_digit x) ∧ ¬ is_digit c
      ∧ r.2.1 = int_acc a ds ∧ r.2.2 = n + ds.length := by
  induction s generalizing a n with
  | nil => simp [scan_int] at h
  | cons b s ih =>
    by_cases hb : 48 ≤ b ∧ b ≤ 57
    · rw [scan_int, if_pos hb] at h
      obtain ⟨ds, c, rest, h1, h2, h3, h4, h5, h6⟩ := ih h
      refine ⟨b :: ds, c, rest, by simp [h1], h2, ?_, h4, ?_, ?_⟩
      · intro x hx
        rcases List.mem_cons.1 hx with rfl | hx
        · exact hb
        · exact h3 x hx
      · simpa [int_acc] using h5
      · simp only [List.length_cons]
        omega
    · rw [scan_int, if_neg hb] at h
      have hr : r = (b :: s, a, n) := by simpa using h.symm
      subst hr
      exact ⟨[], b, s, by simp, rfl, by simp, hb, rfl, rfl⟩

theorem scan_frac_append (ds rest : List Nat) (f d : F32) (n : Nat)
    (h : ∀ c ∈ ds, is_digit c) :
    scan_frac (ds ++ rest) f d n
      = scan_frac rest (frac_acc f ds) (div_acc d ds) (n + ds.length) := by
  induction ds generalizing f d n with
  | nil => rfl
  | cons c ds ih =>
    have hc : 48 ≤ c ∧ c ≤ 57 := h c (List.mem_cons_self _ _)
    have hrest : ∀ x ∈ ds, is_digit x := fun x hx => h x (List.mem_cons_of_mem _ hx)
    rw [List.cons_append, scan_frac, if_pos hc, ih _ _ _ hrest]
    simp only [frac_acc, div_acc, List.foldl_cons, List.length_cons]
    rw [Nat.add_assoc, Nat.add_comm 1]

theorem scan_frac_stop (c : Nat) (rest : List Nat) (f d : F32) (n : Nat) (h : ¬ is_digit c) :
    scan_frac (c :: rest) f d n = some (c :: rest, f, d, n) := by
  have h2 : ¬ (48 ≤ c ∧ c ≤ 57) := h
  simp [scan_frac, h2]

theorem scan_frac_some {s : List Nat} {f d : F32} {n : Nat} {r : List Nat × F32 × F32 × Nat}
    (h : scan_frac s f d n = some r) :
    ∃ ds c rest, s = ds ++ r.1 ∧ r.1 = c :: rest ∧ (∀ x ∈ ds, is_digit x) ∧ ¬ is_digit c
      ∧ r.2.1 = frac_acc f ds ∧ r.2.2.1 = div_acc d ds ∧ r.2.2.2 = n + ds.length := by
  induction s generalizing f d n with
  | nil => simp [scan_frac] at h
  | cons b s ih =>
    by_cases hb : 48 ≤ b ∧ b ≤ 57
    · rw [scan_frac, if_pos hb] at h
      obtain ⟨ds, c, rest, h1, h2, h3, h4, h5, h6, h7⟩ := ih h
      refine ⟨b :: ds, c, rest, by simp [h1], h2, ?_, h4, ?_, ?_, ?_⟩
      · intro x hx
        rcases List.mem_cons.1 hx with rfl | hx
        · exact hb
        · exact h3 x hx
      · simpa [frac_acc] using h5
      · simpa [div_acc] using h6
      · simp only [List.length_cons]
        omega
    · rw [scan_frac, if_neg hb] at h
      have hr : r = (b :: s, f, d, n) := by simpa using h.symm
      subst hr
      exact ⟨[], b, s, by simp, rfl, by simp, hb, rfl, rfl, rfl⟩

/-! ## The parser, stage by stage -/

theorem temp_str_to_float_eq (s : List Nat) (o : F32) :
    temp_str_to_float (some s) (some o) =
      (skip_spaces s).bind fun s =>
      match s with
      | [] => none
      | c :: t =>
        parse_number (if c = 43 ∨ c = 45 then (if c = 45 then -1 else 1) else 1)
          (if c = 43 ∨ c = 45 then t else c :: t) o := by
  rfl

theorem isspace_not_digit {c : Nat} (h : isspace c = true) : ¬ is_digit c := by
  intro hd
  have h1 : 48 ≤ c := hd.1
  simp only [isspace, Bool.or_eq_true, beq_iff_eq, Bool.and_eq_true, decide_eq_true_eq] at h
  omega

theorem is_digit_not_space {c : Nat} (h : is_digit c) : isspace c = false := by
  by_contra hs
  exact isspace_not_digit (by simpa using hs) h

theorem parse_finish_of_trail (sign int_part : Int) (int_digits frac_digits : Nat)
    (trail junk : List Nat) (f d o : F32) (ht : ∀ c ∈ trail, isspace c = true)
    (hd : ¬ (int_digits = 0 ∧ frac_digits = 0)) :
    parse_finish sign int_part int_digits (trail ++ 0 :: junk, f, d, frac_digits) o
      = some (true, some (F32.mul (F32.ofInt sign)
          (F32.add (F32.ofInt int_part)
            (if frac_digits ≠ 0 then F32.div f d else F32.zero)))) := by
  have h0 : isspace 0 = false := by decide
  simp [parse_finish, hd, skip_spaces_append _ _ ht, skip_spaces_stop 0 junk h0]

theorem trail_head (trail junk : List Nat) (ht : ∀ c ∈ trail, isspace c = true) :
    ∃ c rest, trail ++ 0 :: junk = c :: rest ∧ ¬ is_digit c ∧ c ≠ 46 ∧ c ≠ 43 ∧ c ≠ 45 := by
  cases trail with
  | nil => exact ⟨0, junk, rfl, by decide, by decide, by decide, by decide⟩
  | cons c tl =>
    have hc : isspace c = true := ht c (List.mem_cons_self _ _)
    refine ⟨c, tl ++ 0 :: junk, rfl, isspace_not_digit hc, ?_, ?_, ?_⟩ <;>
      · rintro rfl
        simp [isspace] at hc

theorem parse_number_of_text (sign : Int) (I : List Nat) (frac : Option (List Nat))
    (trail junk : List Nat) (o : F32) (hI : ∀ c ∈ I, is_digit c)
    (hF : ∀ c ∈ frac.getD [], is_digit c) (ht : ∀ c ∈ trail, isspace c = true)
    (hd : I ≠ [] ∨ frac.getD [] ≠ []) :
    parse_number sign (I ++ (DecimalText.frac_bytes frac ++ (trail ++ 0 :: junk))) o
      = some (true, some (F32.mul (F32.ofInt sign)
          (F32.add (F32.ofInt (int_acc 0 I))
            (if (frac.getD []).length ≠ 0 then
              F32.div (frac_acc F32.zero (frac.getD [])) (div_acc (F32.ofInt 1) (frac.getD []))
             else F32.zero)))) := by
  obtain ⟨c, rest, hcr, hcd, hc46, -, -⟩ := trail_head trail junk ht
  cases frac with
  | none =>
    have hI0 : I ≠ [] := by simpa using hd
    have hlen : I.length ≠ 0 := by simpa using hI0
    have h1 : scan_int (I ++ (trail ++ 0 :: junk)) 0 0
        = some (c :: rest, int_acc 0 I, I.length) := by
      rw [scan_int_append _ _ _ _ hI, hcr, scan_int_stop _ _ _ _ hcd, Nat.zero_add]
    have h2 := parse_finish_of_trail sign (int_acc 0 I) I.length 0 trail junk F32.zero
      (F32.ofInt 1) o ht (by simp [hlen])
    rw [hcr] at h2
    simp only [parse_number, DecimalText.frac_bytes, List.nil_append, h1, Option.some_bind,
      if_neg hc46, h2, Option.getD_none, List.length_nil, ne_eq, not_true_eq_false, if_false]
  | some F =>
    have hF2 : ∀ c ∈ F, is_digit c := by simpa using hF
    have hlen : ¬ (I.length = 0 ∧ F.length = 0) := by
      intro h
      rcases hd with h1 | h1
      · exact h1 (List.length_eq_zero.1 h.1)
      · exact h1 (by simpa using List.length_eq_zero.1 h.2)
    have h1 : scan_int (I ++ (46 :: F ++ (trail ++ 0 :: junk))) 0 0
        = some (46 :: (F ++ (trail ++ 0 :: junk)), int_acc 0 I, I.length) := by
      rw [scan_int_append _ _ _ _ hI, List.cons_append,
        scan_int_stop _ _ _ _ (by decide), Nat.zero_add]
    have h3 : scan_frac (F ++ (trail ++ 0 :: junk)) F32.zero (F32.ofInt 1) 0
        = some (trail ++ 0 :: junk, frac_acc F32.zero F, div_acc (F32.ofInt 1) F, F.length) := by
      rw [scan_frac_append _ _ _ _ _ hF2, hcr, scan_frac_stop _ _ _ _ _ hcd, Nat.zero_add]
    have h2 := parse_finish_of_trail sign (int_acc 0 I) I.length F.length trail junk
      (frac_acc F32.zero F) (div_acc (F32.ofInt 1) F) o ht hlen
    simp only [parse_number, DecimalText.frac_bytes, h1, Option.some_bind, if_true, h3, h2,
      Option.getD_some]

theorem number_head (I : List Nat) (frac : Option (List Nat)) (trail junk : List Nat)
    (hI : ∀ c ∈ I, is_digit c) (hd : I ≠ [] ∨ frac.getD [] ≠ []) :
    ∃ c rest, I ++ (DecimalText.frac_bytes frac ++ (trail ++ 0 :: junk)) = c :: rest
      ∧ isspace c = false ∧ c ≠ 43 ∧ c ≠ 45 := by
  cases I with
  | cons c I2 =>
    have hc : is_digit c := hI c (List.mem_cons_self _ _)
    have h1 : 48 ≤ c := hc.1
    exact ⟨c, _, rfl, is_digit_not_space hc, by omega, by omega⟩
  | nil =>
    cases frac with
    | none => simp at hd
    | some F => exact ⟨46, _, rfl, by decide, by decide, by decide⟩

/-- Completeness of the parser: on the bytes of a well-formed text that has a
digit, followed by the terminator, it returns true and writes `t.parsed`,
whatever follows the terminator and whatever `*out` held. -/
theorem temp_str_to_float_of_text (t : DecimalText) (junk : List Nat) (o : F32)
    (hw : t.WellFormed) (hd : t.has_digit) :
    temp_str_to_float (some (t.bytes ++ 0 :: junk)) (some o) = some (true, some t.parsed) := by
  obtain ⟨hlead, hI, hF, htrail⟩ := hw
  have hnum := fun sign : Int =>
    parse_number_of_text sign t.int_digits t.frac t.trail junk o hI hF htrail hd
  rw [temp_str_to_float_eq]
  simp only [DecimalText.bytes, List.append_assoc]
  rw [skip_spaces_append _ _ hlead]
  rcases hsg : t.sign with _ | _ | _
  · obtain ⟨c, rest, hcr, hsp, h43, h45⟩ :=
      number_head t.int_digits t.frac t.trail junk hI hd
    have hn := hnum 1
    rw [hcr] at hn
    simp only [DecimalText.sign_bytes, List.nil_append, hcr, skip_spaces_stop _ _ hsp,
      Option.some_bind, h43, h45, or_self, if_false, hn, DecimalText.parsed, hsg,
      DecimalText.frac_digits]
    simp
  · simp only [DecimalText.sign_bytes, List.cons_append, List.nil_append,
      skip_spaces_stop 43 _ (by decide), Option.some_bind, true_or, if_true, hnum,
      DecimalText.parsed, hsg, DecimalText.frac_digits]
    simp
  · simp only [DecimalText.sign_bytes, List.cons_append, List.nil_append,
      skip_spaces_stop 45 _ (by decide), Option.some_bind, or_true, if_true, hnum,
      DecimalText.parsed, hsg, DecimalText.frac_digits]

theorem parse_finish_true {sign int_part : Int} {int_digits : Nat}
    {q : List Nat × F32 × F32 × Nat} {o : F32} {x : Option F32}
    (h : parse_finish sign int_part int_digits q o = some (true, x)) :
    ¬ (int_digits = 0 ∧ q.2.2.2 = 0)
      ∧ ∃ trail junk, q.1 = trail ++ 0 :: junk ∧ (∀ c ∈ trail, isspace c = true)
        ∧ x = some (F32.mul (F32.ofInt sign) (F32.add (F32.ofInt int_part)
            (if q.2.2.2 ≠ 0 then F32.div q.2.1 q.2.2.1 else F32.zero))) := by
  unfold parse_finish at h
  by_cases hd : int_digits = 0 ∧ q.2.2.2 = 0
  · rw [if_pos hd] at h
    simp at h
  · rw [if_neg hd] at h
    obtain ⟨s, hs, h⟩ := Option.bind_eq_some.1 h
    obtain ⟨ws, c, rest, h1, h2, h3, -⟩ := skip_spaces_some hs
    subst h2
    by_cases hc : c = 0
    · subst hc
      simp only [ne_eq, not_true_eq_false, if_false, Option.some.injEq, Prod.mk.injEq,
        true_and] at h
      exact ⟨hd, ws, rest, h1, h3, h.symm⟩
    · simp [hc] at h

theorem parse_number_true {sign : Int} {s : List Nat} {o : F32} {x : Option F32}
    (h : parse_number sign s o = some (true, x)) :
    ∃ (I : List Nat) (frac : Option (List Nat)) (trail junk : List Nat),
      s = I ++ (DecimalText.frac_bytes frac ++ (trail ++ 0 :: junk))
      ∧ (∀ c ∈ I, is_digit c) ∧ (∀ c ∈ frac.getD [], is_digit c)
      ∧ (∀ c ∈ trail, isspace c = true) ∧ (I ≠ [] ∨ frac.getD [] ≠ [])
      ∧ x = some (F32.mul (F32.ofInt sign)
          (F32.add (F32.ofInt (int_acc 0 I))
            (if (frac.getD []).length ≠ 0 then
              F32.div (frac_acc F32.zero (frac.getD [])) (div_acc (F32.ofInt 1) (frac.getD []))
             else F32.zero))) := by
  unfold parse_number at h
  obtain ⟨r, hr, h⟩ := Option.bind_eq_some.1 h
  obtain ⟨I, c, rest, h1, h2, h3, -, h5, h6⟩ := scan_int_some hr
  rw [h2] at h
  simp only at h
  obtain ⟨q, hq, h⟩ := Option.bind_eq_some.1 h
  obtain ⟨hd, trail, junk, hq1, htrail, hx⟩ := parse_finish_true h
  rw [h5] at hx
  rw [h6, Nat.zero_add] at hd
  by_cases hc : c = 46
  · subst hc
    rw [if_pos rfl] at hq
    obtain ⟨F, c2, rest2, g1, g2, g3, -, g5, g6, g7⟩ := scan_frac_some hq
    rw [Nat.zero_add] at g7
    refine ⟨I, some F, trail, junk, ?_, h3, by simpa using g3, htrail, ?_, ?_⟩
    · rw [h1, h2, g1, hq1]
      rfl
    · by_contra hne
      push_neg at hne
      apply hd
      rw [g7]
      simp only [Option.getD_some] at hne
      simp [hne.1, hne.2]
    · rw [hx, g5, g6, g7]
      rfl
  · rw [if_neg hc] at hq
    have hq2 : q = (c :: rest, F32.zero, F32.ofInt 1, 0) := by simpa using hq.symm
    subst hq2
    refine ⟨I, none, trail, junk, ?_, h3, by simp, htrail, ?_, ?_⟩
    · rw [h1, h2]
      simp only at hq1
      rw [hq1]
      rfl
    · left
      intro hI
      apply hd
      simp [hI]
    · rw [hx]
      simp

/-- Soundness of the parser: when it returns true the memory holds a
well-formed text with a digit, then the terminator, and the value written is
`t.parsed`. -/
theorem text_of_temp_str_to_float {mem : List Nat} {o : F32} {x : Option F32}
    (h : temp_str_to_float (some mem) (some o) = some (true, x)) :
    ∃ (t : DecimalText) (junk : List Nat), t.WellFormed ∧ t.has_digit
      ∧ mem = t.bytes ++ 0 :: junk ∧ x = some t.parsed := by
  rw [temp_str_to_float_eq] at h
  obtain ⟨s1, hs1, h⟩ := Option.bind_eq_some.1 h
  obtain ⟨ws, c, rest, hmem, hs1c, hws, -⟩ := skip_spaces_some hs1
  subst hs1c
  simp only at h
  obtain ⟨I, frac, trail, junk, hs, hI, hF, htrail, hd, hx⟩ := parse_number_true h
  by_cases h45 : c = 45
  · subst h45
    simp only [or_true, if_true] at hs hx
    refine ⟨⟨ws, some true, I, frac, trail⟩, junk, ⟨hws, hI, hF, htrail⟩, hd, ?_, ?_⟩
    · rw [hmem, hs]
      simp [DecimalText.bytes, DecimalText.sign_bytes]
    · rw [hx]
      simp [DecimalText.parsed, DecimalText.frac_digits]
  · by_cases h43 : c = 43
    · subst h43
      simp only [true_or, if_true, if_neg h45] at hs hx
      refine ⟨⟨ws, some false, I, frac, trail⟩, junk, ⟨hws, hI, hF, htrail⟩, hd, ?_, ?_⟩
      · rw [hmem, hs]
        simp [DecimalText.bytes, DecimalText.sign_bytes]
      · rw [hx]
        simp [DecimalText.parsed, DecimalText.frac_digits]
    · simp only [h43, h45, or_self, if_false] at hs hx
      refine ⟨⟨ws, none, I, frac, trail⟩, junk, ⟨hws, hI, hF, htrail⟩, hd, ?_, ?_⟩
      · rw [hmem, hs]
        simp [DecimalText.bytes, DecimalText.sign_bytes]
      · rw [hx]
        simp [DecimalText.parsed, DecimalText.frac_digits]

/-! ## The parser stays inside a terminated buffer -/

theorem skip_spaces_total {s : List Nat} (h : 0 ∈ s) :
    ∃ r, skip_spaces s = some r ∧ 0 ∈ r := by
  induction s with
  | nil => simp at h
  | cons c s ih =>
    by_cases hc : c ≠ 0 ∧ isspace c = true
    · have h0 : 0 ∈ s := by
        rcases List.mem_cons.1 h with h1 | h1
        · exact absurd h1.symm hc.1
        · exact h1
      simpa [skip_spaces, hc] using ih h0
    · exact ⟨c :: s, by simp only [skip_spaces, if_neg hc], h⟩

theorem scan_int_total {s : List Nat} (a : Int) (n : Nat) (h : 0 ∈ s) :
    ∃ r, scan_int s a n = some r ∧ 0 ∈ r.1 := by
  induction s generalizing a n with
  | nil => simp at h
  | cons c s ih =>
    by_cases hc : 48 ≤ c ∧ c ≤ 57
    · have h0 : 0 ∈ s := by
        rcases List.mem_cons.1 h with h1 | h1
        · omega
        · exact h1
      simpa [scan_int, hc] using ih _ _ h0
    · exact ⟨(c :: s, a, n), by simp only [scan_int, if_neg hc], h⟩

theorem scan_frac_total {s : List Nat} (f d : F32) (n : Nat) (h : 0 ∈ s) :
    ∃ r, scan_frac s f d n = some r ∧ 0 ∈ r.1 := by
  induction s generalizing f d n with
  | nil => simp at h
  | cons c s ih =>
    by_cases hc : 48 ≤ c ∧ c ≤ 57
    · have h0 : 0 ∈ s := by
        rcases List.mem_cons.1 h with h1 | h1
        · omega
        · exact h1
      simpa [scan_frac, hc] using ih _ _ _ h0
    · exact ⟨(c :: s, f, d, n), by simp only [scan_frac, if_neg hc], h⟩

theorem parse_finish_total (sign int_part : Int) (int_digits : Nat)
    (q : List Nat × F32 × F32 × Nat) (o : F32) (h : 0 ∈ q.1) :
    ∃ b x, parse_finish sign int_part int_digits q o = some (b, x)
      ∧ (b = false → x = some o) := by
  unfold parse_finish
  by_cases hd : int_digits = 0 ∧ q.2.2.2 = 0
  · exact ⟨false, some o, by rw [if_pos hd], fun _ => rfl⟩
  · obtain ⟨r, hr, h0⟩ := skip_spaces_total h
    rw [if_neg hd, hr, Option.some_bind]
    cases r with
    | nil => simp at h0
    | cons c rest =>
      by_cases hc : c = 0
      · subst hc
        exact ⟨true, _, if_neg (by simp), by simp⟩
      · exact ⟨false, some o, by simp [hc], fun _ => rfl⟩

theorem parse_number_total (sign : Int) (s : List Nat) (o : F32) (h : 0 ∈ s) :
    ∃ b x, parse_number sign s o = some (b, x) ∧ (b = false → x = some o) := by
  unfold parse_number
  obtain ⟨r, hr, h0⟩ := scan_int_total 0 0 h
  rw [hr, Option.some_bind]
  rcases hr1 : r.1 with _ | ⟨c, t⟩
  · rw [hr1] at h0
    simp at h0
  · simp only
    by_cases hc : c = 46
    · subst hc
      have ht : 0 ∈ t := by
        rw [hr1] at h0
        rcases List.mem_cons.1 h0 with h1 | h1
        · omega
        · exact h1
      obtain ⟨q, hq, hq0⟩ := scan_frac_total F32.zero (F32.ofInt 1) 0 ht
      rw [if_pos rfl, hq, Option.some_bind]
      exact parse_finish_total _ _ _ _ _ hq0
    · rw [if_neg hc, Option.some_bind]
      exact parse_finish_total _ _ _ _ _ (by rw [← hr1]; exact h0)

/-- The parser is defined on every memory that holds a NUL: no read leaves
the memory, and when the flag is false `*out` keeps its content. -/
theorem temp_str_to_float_total (mem : List Nat) (o : F32) (h : 0 ∈ mem) :
    ∃ b x, temp_str_to_float (some mem) (some o) = some (b, x) ∧ (b = false → x = some o) := by
  rw [temp_str_to_float_eq]
  obtain ⟨r, hr, h0⟩ := skip_spaces_total h
  rw [hr, Option.some_bind]
  cases r with
  | nil => simp at h0
  | cons c t =>
    simp only
    by_cases hc : c = 43 ∨ c = 45
    · have ht : 0 ∈ t := by
        rcases List.mem_cons.1 h0 with h1 | h1
        · omega
        · exact h1
      rw [if_pos hc, if_pos hc]
      exact parse_number_total _ _ _ ht
    · rw [if_neg hc, if_neg hc]
      exact parse_number_total _ _ _ h0

/-! ## The string of a memory and the bytes of a text -/

theorem wellformed_byte {t : DecimalText} (hw : t.WellFormed) {c : Nat} (hc : c ∈ t.bytes) :
    isspace c = true ∨ c = 43 ∨ c = 45 ∨ c = 46 ∨ is_digit c := by
  obtain ⟨hlead, hI, hF, htrail⟩ := hw
  simp only [DecimalText.bytes, List.mem_append] at hc
  rcases hc with (((hc | hc) | hc) | hc) | hc
  · exact Or.inl (hlead c hc)
  · rcases hs : t.sign with _ | _ | _ <;> rw [hs] at hc <;>
      simp [DecimalText.sign_bytes] at hc
    · exact Or.inr (Or.inl hc)
    · exact Or.inr (Or.inr (Or.inl hc))
  · exact Or.inr (Or.inr (Or.inr (Or.inr (hI c hc))))
  · rcases hf : t.frac with _ | F
    · rw [hf] at hc
      simp [DecimalText.frac_bytes] at hc
    · rw [hf] at hc
      simp only [DecimalText.frac_bytes, List.mem_cons] at hc
      rcases hc with hc | hc
      · exact Or.inr (Or.inr (Or.inr (Or.inl hc)))
      · exact Or.inr (Or.inr (Or.inr (Or.inr (hF c (by simpa [DecimalText.frac_digits, hf])))))
  · exact Or.inl (htrail c hc)

theorem wellformed_no_nul {t : DecimalText} (hw : t.WellFormed) : 0 ∉ t.bytes := by
  intro h
  rcases wellformed_byte hw h with h1 | h1 | h1 | h1 | h1
  · simp [isspace] at h1
  · omega
  · omega
  · omega
  · have h2 : 48 ≤ 0 := h1.1
    omega

theorem c_string_append_nul (str junk : List Nat) (h : 0 ∉ str) :
    c_string (str ++ 0 :: junk) = str := by
  induction str with
  | nil => simp [c_string]
  | cons c str ih =>
    have hc : c ≠ 0 := fun h0 => h (by simp [h0])
    have hs : 0 ∉ str := fun h0 => h (List.mem_cons_of_mem _ h0)
    simpa [c_string, List.takeWhile_cons, hc] using ih hs

theorem mem_eq_c_string_append (mem : List Nat) (h : 0 ∈ mem) :
    ∃ junk, mem = c_string mem ++ 0 :: junk := by
  induction mem with
  | nil => simp at h
  | cons c mem ih =>
    by_cases hc : c = 0
    · subst hc
      exact ⟨mem, by simp [c_string]⟩
    · have h0 : 0 ∈ mem := by
        rcases List.mem_cons.1 h with h1 | h1
        · exact absurd h1.symm hc
        · exact h1
      obtain ⟨junk, hj⟩ := ih h0
      refine ⟨junk, ?_⟩
      have e : c_string (c :: mem) = c :: c_string mem := by
        simp [c_string, List.takeWhile_cons, hc]
      rw [e, List.cons_append, ← hj]

/-- C4: no partial-prefix parsing. When `temp_str_to_float` returns true, the
entire string in memory (all bytes before the terminator) is whitespace, an
optional sign, digits, an optional `.` with digits, and whitespace; and on a
terminated memory whose string is not of that form it returns false and
leaves `*out` alone. -/
theorem no_prefix_parsing (mem : List Nat) (o : F32) :
    (∀ x, temp_str_to_float (some mem) (some o) = some (true, x) →
      0 ∈ mem ∧ ∃ t : DecimalText, t.WellFormed ∧ t.has_digit ∧ c_string mem = t.bytes)
    ∧ (0 ∈ mem → (¬ ∃ t : DecimalText, t.WellFormed ∧ c_string mem = t.bytes) →
      temp_str_to_float (some mem) (some o) = some (false, some o)) := by
  have h1 : ∀ x, temp_str_to_float (some mem) (some o) = some (true, x) →
      0 ∈ mem ∧ ∃ t : DecimalText, t.WellFormed ∧ t.has_digit ∧ c_string mem = t.bytes := by
    intro x hx
    obtain ⟨t, junk, hw, hd, hm, -⟩ := text_of_temp_str_to_float hx
    refine ⟨by simp [hm], t, hw, hd, ?_⟩
    rw [hm, c_string_append_nul _ _ (wellformed_no_nul hw)]
  refine ⟨h1, ?_⟩
  intro h0 hno
  obtain ⟨b, x, hp, hb⟩ := temp_str_to_float_total mem o h0
  cases b with
  | true =>
    obtain ⟨-, t, hw, -, hs⟩ := h1 x hp
    exact absurd ⟨t, hw, hs⟩ hno
  | false => rw [hp, hb rfl]

/-- The text `12.3x` of the specification is not a text of the grammar. -/
theorem garbage_not_in_grammar :
    ¬ ∃ t : DecimalText, t.WellFormed ∧ c_string (c_str "12.3x") = t.bytes := by
  rintro ⟨t, hw, hs⟩
  have hx : 120 ∈ t.bytes := by
    rw [← hs]
    decide
  rcases wellformed_byte hw hx with h | h | h | h | h
  · simp [isspace] at h
  · omega
  · omega
  · omega
  · have h2 : (120 : Nat) ≤ 57 := h.2
    omega

/-- Rejected inputs: a second sign, a second `.`, a blank between the sign
and the digits, a blank inside the number, and a null pointer for `s` or
`out`. -/
theorem rejected_examples :
    temp_str_to_float (some (c_str "+-1")) (some F32.zero) = some (false, some F32.zero)
    ∧ temp_str_to_float (some (c_str "1.2.3")) (some F32.zero) = some (false, some F32.zero)
    ∧ temp_str_to_float (some (c_str "+ 1")) (some F32.zero) = some (false, some F32.zero)
    ∧ temp_str_to_float (some (c_str "1 2")) (some F32.zero) = some (false, some F32.zero)
    ∧ temp_str_to_float none (some F32.zero) = some (false, some F32.zero)
    ∧ temp_str_to_float (some (c_str "1")) none = some (false, none) := by
  decide

/-- Witness of C4 on the text `12.3x` of the specification. -/
theorem no_prefix_parsing_witness :
    (0 ∈ c_str "12.3x"
      ∧ ¬ ∃ t : DecimalText, t.WellFormed ∧ c_string (c_str "12.3x") = t.bytes)
    ∧ temp_str_to_float (some (c_str "12.3x")) (some F32.zero) = some (false, some F32.zero) :=
  ⟨⟨by decide, garbage_not_in_grammar⟩,
    (no_prefix_parsing (c_str "12.3x") F32.zero).2 (by decide) garbage_not_in_grammar⟩

/-! ## Bus calls made by the register operations -/

theorem read_reg_bus (bus : MockBus) (d : ssr_t) (reg : Nat) :
    (read_reg bus (some d) reg).1 = bus
    ∨ (read_reg bus (some d) reg).1
        = (bus.call (.transmit_receive d.dev [reg] 1 (bus.pdMS_TO_TICKS d.timeout_ms))).1 := by
  by_cases hi : d.initialized = true
  · by_cases hd : d.dev = 0
    · left
      simp [read_reg, hi, hd, ESP_FAIL, ESP_OK]
    · right
      rw [read_reg_bound _ _ _ hi hd]
      split <;> rfl
  · left
    rw [read_reg_uninit _ _ _ (by simpa using hi)]

theorem write_reg_bus (bus : MockBus) (d : ssr_t) (reg val : Nat) :
    (write_reg bus (some d) reg val).1 = bus
    ∨ (write_reg bus (some d) reg val).1
        = (bus.call (.transmit d.dev [reg, val] (bus.pdMS_TO_TICKS d.timeout_ms))).1 := by
  by_cases hi : d.initialized = true
  · by_cases hd : d.dev = 0
    · left
      simp [write_reg, hi, hd, ESP_FAIL, ESP_OK]
    · right
      rw [write_reg_bound _ _ _ _ hi hd]
      split <;> rfl
  · left
    rw [write_reg_uninit _ _ _ _ (by simpa using hi)]

theorem read_regs_bus (bus : MockBus) (d : th_t) (reg len : Nat) (buf : List Nat)
    (hl : len ≠ 0) :
    ((read_regs bus (some d) reg (some buf) len).1 = bus
      ∧ (read_regs bus (some d) reg (some buf) len).2.2 = some buf)
    ∨ ((read_regs bus (some d) reg (some buf) len).1
        = (bus.call (.transmit_receive d.dev [reg] len (bus.pdMS_TO_TICKS d.timeout_ms))).1
      ∧ (read_regs bus (some d) reg (some buf) len).2.2
        = some (store_bytes buf (bus.reply bus.calls
            (.transmit_receive d.dev [reg] len (bus.pdMS_TO_TICKS d.timeout_ms))).data len)) := by
  by_cases hi : d.initialized = true
  · by_cases hd : d.dev = 0
    · left
      simp [read_regs, hi, hd, hl, ESP_ERR_INVALID_ARG, ESP_OK]
    · right
      rw [read_regs_bound _ _ _ _ _ hi hd hl]
      split <;> exact ⟨rfl, rfl⟩
  · left
    rw [read_regs_uninit _ _ _ _ _ (by simpa using hi)]
    exact ⟨rfl, rfl⟩

theorem store_bytes_keeps_terminator (data : List Nat) :
    0 ∈ store_bytes (List.replicate 9 0) data 8 := by
  unfold store_bytes
  apply List.mem_append_right
  have hlen : ((data.take 8).map (fun b => b % 256)).length ≤ 8 := by
    simp only [List.length_map, List.length_take]
    omega
  rw [List.drop_replicate]
  exact List.mem_replicate.2 ⟨by omega, rfl⟩

/-- The string read of `th_get_temp_c` always returns: the parser is handed a
buffer whose last byte is the terminator. -/
theorem th_get_temp_c_bus (bus : MockBus) (d : th_t) :
    ∃ r, th_get_temp_c bus (some d) = some r
      ∧ (r.1 = bus
        ∨ r.1 = (bus.call (.transmit_receive d.dev [KMETER_TEMP_CELSIUS_STRING_REG] 8
            (bus.pdMS_TO_TICKS d.timeout_ms))).1) := by
  have h0 : ∀ data, ∃ b x, temp_str_to_float (some (store_bytes (List.replicate 9 0) data 8))
      (some F32.zero) = some (b, x) ∧ (b = false → x = some F32.zero) :=
    fun data => temp_str_to_float_total _ _ (store_bytes_keeps_terminator data)
  have h1 : ∃ b x, temp_str_to_float (some (List.replicate 9 0)) (some F32.zero) = some (b, x)
      ∧ (b = false → x = some F32.zero) :=
    temp_str_to_float_total _ _ (by decide)
  unfold th_get_temp_c
  rcases read_regs_bus bus d KMETER_TEMP_CELSIUS_STRING_REG 8 (List.replicate 9 0) (by decide)
    with ⟨hb, hbuf⟩ | ⟨hb, hbuf⟩
  · simp only [Nat.add_one_sub_one, hb, hbuf]
    obtain ⟨b, x, hp, -⟩ := h1
    rw [hp]
    by_cases ht : (read_regs bus (some d) KMETER_TEMP_CELSIUS_STRING_REG
        (some (List.replicate 9 0)) 8).2.1.tag ≠ .TH_STATUS_OK
    · exact ⟨_, if_pos ht, Or.inl rfl⟩
    · rw [if_neg ht]
      cases b <;> exact ⟨_, rfl, Or.inl rfl⟩
  · simp only [Nat.add_one_sub_one, hb, hbuf]
    obtain ⟨b, x, hp, -⟩ := h0 (bus.reply bus.calls (.transmit_receive d.dev
      [KMETER_TEMP_CELSIUS_STRING_REG] 8 (bus.pdMS_TO_TICKS d.timeout_ms))).data
    rw [hp]
    by_cases ht : (read_regs bus (some d) KMETER_TEMP_CELSIUS_STRING_REG
        (some (List.replicate 9 0)) 8).2.1.tag ≠ .TH_STATUS_OK
    · exact ⟨_, if_pos ht, Or.inr rfl⟩
    · rw [if_neg ht]
      cases b <;> exact ⟨_, rfl, Or.inr rfl⟩

/-! ## The timeout of the transactions -/

theorem adds_calls_refl (bus : MockBus) (T : Nat) : AddsCallsWithTimeout bus bus T :=
  ⟨rfl, [], by simp, by simp⟩

theorem adds_calls_trans {a b c : MockBus} {T : Nat} (h1 : AddsCallsWithTimeout a b T)
    (h2 : AddsCallsWithTimeout b c T) : AddsCallsWithTimeout a c T := by
  obtain ⟨p1, n1, e1, t1⟩ := h1
  obtain ⟨p2, n2, e2, t2⟩ := h2
  refine ⟨p2.trans p1, n1 ++ n2, by rw [e2, e1, List.append_assoc], ?_⟩
  intro x hx
  rcases List.mem_append.1 hx with h | h
  · exact t1 x h
  · exact t2 x h

theorem adds_calls_transmit (bus : MockBus) (dev : Nat) (w : List Nat) (T : Nat) :
    AddsCallsWithTimeout bus (bus.call (.transmit dev w T)).1 T :=
  ⟨rfl, [.transmit dev w T], rfl, by simp [BusCall.xfer_timeout?]⟩

theorem adds_calls_transmit_receive (bus : MockBus) (dev : Nat) (w : List Nat) (n T : Nat) :
    AddsCallsWithTimeout bus (bus.call (.transmit_receive dev w n T)).1 T :=
  ⟨rfl, [.transmit_receive dev w n T], rfl, by simp [BusCall.xfer_timeout?]⟩

theorem ssr_run_op_adds (bus : MockBus) (d : ssr_t) (op : SsrOp) :
    AddsCallsWithTimeout bus (ssr_run_op bus (some d) op).1
      (bus.pdMS_TO_TICKS d.timeout_ms) := by
  cases op with
  | get_active =>
    have h : (ssr_get_active bus (some d)).1 = (read_reg bus (some d) 0x00).1 := by
      simp only [ssr_get_active]
      split <;> rfl
    simp only [ssr_run_op, h]
    rcases read_reg_bus bus d 0x00 with e | e <;> rw [e]
    · exact adds_calls_refl _ _
    · exact adds_calls_transmit_receive _ _ _ _ _
  | set_active a =>
    simp only [ssr_run_op, ssr_set_active]
    rcases write_reg_bus bus d 0x00 (if a = true then 1 else 0) with e | e <;> rw [e]
    · exact adds_calls_refl _ _
    · exact adds_calls_transmit _ _ _ _
  | get_version =>
    simp only [ssr_run_op, ssr_get_version]
    rcases read_reg_bus bus d 0xFE with e | e <;> rw [e]
    · exact adds_calls_refl _ _
    · exact adds_calls_transmit_receive _ _ _ _ _

theorem ssr_run_ops_adds (bus : MockBus) (d : ssr_t) (ops : List SsrOp) :
    AddsCallsWithTimeout bus (ssr_run_ops bus (some d) ops)
      (bus.pdMS_TO_TICKS d.timeout_ms) := by
  induction ops generalizing bus with
  | nil => exact adds_calls_refl _ _
  | cons op ops ih =>
    have h1 := ssr_run_op_adds bus d op
    have h2 := ih (ssr_run_op bus (some d) op).1
    rw [h1.1] at h2
    exact adds_calls_trans h1 h2

theorem th_run_op_adds (bus : MockBus) (d : th_t) (op : ThOp) :
    ∃ r, th_run_op bus (some d) op = some r
      ∧ AddsCallsWithTimeout bus r.1 (bus.pdMS_TO_TICKS d.timeout_ms) := by
  cases op with
  | get_temp_c_str =>
    refine ⟨_, rfl, ?_⟩
    have h : (th_get_temp_c_str bus (some d)).1
        = (read_regs bus (some d) KMETER_TEMP_CELSIUS_STRING_REG
            (some (List.replicate 8 0)) 8).1 := by
      simp only [th_get_temp_c_str]
      split <;> rfl
    rw [h]
    rcases read_regs_bus bus d KMETER_TEMP_CELSIUS_STRING_REG 8 (List.replicate 8 0)
      (by decide) with ⟨e, -⟩ | ⟨e, -⟩ <;> rw [e]
    · exact adds_calls_refl _ _
    · exact adds_calls_transmit_receive _ _ _ _ _
  | get_temp_c =>
    obtain ⟨r, hr, e | e⟩ := th_get_temp_c_bus bus d
    · exact ⟨r, hr, by rw [e]; exact adds_calls_refl _ _⟩
    · exact ⟨r, hr, by rw [e]; exact adds_calls_transmit_receive _ _ _ _ _⟩
  | get_temp_c_float =>
    refine ⟨_, rfl, ?_⟩
    have h : (th_get_temp_c_float bus (some d)).1
        = (read_regs bus (some d) KMETER_TEMP_VAL_REG (some (List.replicate 4 0)) 4).1 := by
      simp only [th_get_temp_c_float]
      split <;> rfl
    rw [h]
    rcases read_regs_bus bus d KMETER_TEMP_VAL_REG 4 (List.replicate 4 0)
      (by decide) with ⟨e, -⟩ | ⟨e, -⟩ <;> rw [e]
    · exact adds_calls_refl _ _
    · exact adds_calls_transmit_receive _ _ _ _ _

theorem th_run_ops_adds (bus : MockBus) (d : th_t) (ops : List ThOp) :
    ∃ after, th_run_ops bus (some d) ops = some after
      ∧ AddsCallsWithTimeout bus after (bus.pdMS_TO_TICKS d.timeout_ms) := by
  induction ops generalizing bus with
  | nil => exact ⟨bus, rfl, adds_calls_refl _ _⟩
  | cons op ops ih =>
    obtain ⟨r, hr, h1⟩ := th_run_op_adds bus d op
    obtain ⟨after, ha, h2⟩ := ih r.1
    rw [h1.1] at h2
    exact ⟨after, by simp only [th_run_ops, hr, Option.some_bind, ha], adds_calls_trans h1 h2⟩

theorem ssr_init_timeout (bus : MockBus) (s : ssr_t) (i2c_bus i2c_addr timeout_ms : Nat)
    (ha : i2c_addr ≠ 0) :
    ∃ d, (ssr_init bus (some s) i2c_bus i2c_addr timeout_ms).2.1 = some d
      ∧ d.timeout_ms = (if timeout_ms = 0 then 200 else timeout_ms)
      ∧ (ssr_init bus (some s) i2c_bus i2c_addr timeout_ms).1.pdMS_TO_TICKS
          = bus.pdMS_TO_TICKS := by
  simp only [ssr_init, ha, if_false]
  split <;> exact ⟨_, rfl, rfl, rfl⟩

theorem th_init_timeout (bus : MockBus) (t : th_t) (i2c_bus i2c_addr timeout_ms : Nat)
    (ha : i2c_addr ≠ 0) :
    ∃ d, (th_init bus (some t) i2c_bus i2c_addr timeout_ms).2.1 = some d
      ∧ d.timeout_ms = (if timeout_ms = 0 then 200 else timeout_ms)
      ∧ (th_init bus (some t) i2c_bus i2c_addr timeout_ms).1.pdMS_TO_TICKS
          = bus.pdMS_TO_TICKS := by
  simp only [th_init, ha, if_false]
  split <;> exact ⟨_, rfl, rfl, rfl⟩

/-- C8, the failing input evaluated: on a platform with a 100 Hz tick,
`ssr_init` with timeout 0 stores 200 (milliseconds) in the object, as the
header documents, but the transaction of the following `ssr_get_active` is
made with `xfer_timeout_ms = 20`, not 200; and after `th_init` with the
timeout 1500 the object holds 1500 and the bus is handed 150. Every call
site wraps the stored milliseconds in `pdMS_TO_TICKS` before it passes them
as the millisecond argument of the transaction. -/
theorem stored_timeout_is_not_the_one_passed :
    ((ssr_init loopback_bus (some ssr_t.zero) 1 0x50 0).2.1.map ssr_t.timeout_ms = some 200
      ∧ ((ssr_get_active (ssr_init loopback_bus (some ssr_t.zero) 1 0x50 0).1
            (ssr_init loopback_bus (some ssr_t.zero) 1 0x50 0).2.1).1.calls.map
              BusCall.xfer_timeout?) = [none, some 20])
    ∧ ((th_init loopback_bus (some th_t.zero) 1 0x66 1500).2.1.map th_t.timeout_ms = some 1500
      ∧ ((th_get_temp_c_float (th_init loopback_bus (some th_t.zero) 1 0x66 1500).1
            (th_init loopback_bus (some th_t.zero) 1 0x66 1500).2.1).1.calls.map
              BusCall.xfer_timeout?) = [none, some 150]) := by
  decide

/-- What the code does with the timeout, for every tick conversion: after
`ssr_init` / `th_init` with a nonzero address the object holds 200 when the
caller passed 0 and the value of the caller otherwise, and every bus
transaction of the register operations that follow is handed
`pdMS_TO_TICKS` of that stored value. The bus therefore gets the stored
milliseconds only on a platform whose conversion leaves them unchanged. -/
theorem transactions_are_handed_ticks (bus : MockBus) (s : ssr_t) (t : th_t)
    (i2c_bus i2c_addr timeout_ms : Nat) (sops : List SsrOp) (tops : List ThOp)
    (ha : i2c_addr ≠ 0) :
    (∃ d, (ssr_init bus (some s) i2c_bus i2c_addr timeout_ms).2.1 = some d
      ∧ d.timeout_ms = (if timeout_ms = 0 then 200 else timeout_ms)
      ∧ ∃ new,
        (ssr_run_ops (ssr_init bus (some s) i2c_bus i2c_addr timeout_ms).1 (some d) sops).calls
          = (ssr_init bus (some s) i2c_bus i2c_addr timeout_ms).1.calls ++ new
        ∧ ∀ c ∈ new, c.xfer_timeout?
            = some (bus.pdMS_TO_TICKS (if timeout_ms = 0 then 200 else timeout_ms)))
    ∧ (∃ d, (th_init bus (some t) i2c_bus i2c_addr timeout_ms).2.1 = some d
      ∧ d.timeout_ms = (if timeout_ms = 0 then 200 else timeout_ms)
      ∧ ∃ after new,
        th_run_ops (th_init bus (some t) i2c_bus i2c_addr timeout_ms).1 (some d) tops
          = some after
        ∧ after.calls = (th_init bus (some t) i2c_bus i2c_addr timeout_ms).1.calls ++ new
        ∧ ∀ c ∈ new, c.xfer_timeout?
            = some (bus.pdMS_TO_TICKS (if timeout_ms = 0 then 200 else timeout_ms))) := by
  constructor
  · obtain ⟨d, hd, ht, hp⟩ := ssr_init_timeout bus s i2c_bus i2c_addr timeout_ms ha
    refine ⟨d, hd, ht, ?_⟩
    obtain ⟨-, new, e, h⟩ :=
      ssr_run_ops_adds (ssr_init bus (some s) i2c_bus i2c_addr timeout_ms).1 d sops
    rw [hp, ht] at h
    exact ⟨new, e, h⟩
  · obtain ⟨d, hd, ht, hp⟩ := th_init_timeout bus t i2c_bus i2c_addr timeout_ms ha
    refine ⟨d, hd, ht, ?_⟩
    obtain ⟨after, hr, -, new, e, h⟩ :=
      th_run_ops_adds (th_init bus (some t) i2c_bus i2c_addr timeout_ms).1 d tops
    rw [hp, ht] at h
    exact ⟨after, new, hr, e, h⟩

/-! ## The string read of the thermocouple -/

theorem store_bytes_payload (payload : List Nat) (hlen : payload.length = 8)
    (hb : ∀ b ∈ payload, b < 256) :
    store_bytes (List.replicate 9 0) payload 8 = payload ++ [0] := by
  have h1 : payload.take 8 = payload := List.take_of_length_le (by omega)
  have h2 : payload.map (fun b => b % 256) = payload := by
    conv_rhs => rw [← List.map_id payload]
    exact List.map_congr_left fun b hb2 => Nat.mod_eq_of_lt (hb b hb2)
  simp only [store_bytes, h1, h2, hlen]
  rfl

theorem c_string_append_terminator (p : List Nat) : c_string (p ++ [0]) = c_string p := by
  induction p with
  | nil => simp [c_string]
  | cons c p ih =>
    by_cases hc : c = 0
    · subst hc
      simp [c_string]
    · simpa [c_string, List.takeWhile_cons, hc] using ih

set_option maxRecDepth 100000 in
/-- C5, counterexample: the payload `18.5`, NUL, `xyz` is not a text of the
grammar (it holds a NUL and the letters), and yet `th_get_temp_c` returns OK
with 18.5: the bytes after the first NUL are never looked at. -/
theorem get_temp_c_ignores_bytes_after_nul :
    (th_get_temp_c (const_bus ESP_OK none [49, 56, 46, 53, 0, 120, 121, 122])
        (some th_bound)).map (fun r => r.2)
      = some { tag := .TH_STATUS_OK, value := .temp_c (.fin false (37 * 2 ^ 148)) }
    ∧ (F32.fin false (37 * 2 ^ 148)).toRat = some (37 / 2)
    ∧ ¬ ∃ t : DecimalText, t.WellFormed ∧ t.bytes = [49, 56, 46, 53, 0, 120, 121, 122] := by
  refine ⟨?_, ?_, ?_⟩
  · decide
  · simp only [F32.toRat, if_false, Option.some.injEq]
    norm_num
  · rintro ⟨t, hw, hs⟩
    apply wellformed_no_nul hw
    rw [hs]
    decide

/-- The string of a terminated memory decides the parse: true with
`t.parsed` when it is a text `t` of the grammar with a digit, false when it is
no such text. -/
theorem temp_str_to_float_decided_by_string (mem : List Nat) (o : F32) (h0 : 0 ∈ mem) :
    (∀ t : DecimalText, t.WellFormed → t.has_digit → t.bytes = c_string mem →
      temp_str_to_float (some mem) (some o) = some (true, some t.parsed))
    ∧ ((¬ ∃ t : DecimalText, t.WellFormed ∧ t.has_digit ∧ t.bytes = c_string mem) →
      temp_str_to_float (some mem) (some o) = some (false, some o)) := by
  constructor
  · intro t hw hd hs
    obtain ⟨junk, hj⟩ := mem_eq_c_string_append mem h0
    rw [hj, ← hs]
    exact temp_str_to_float_of_text t junk o hw hd
  · intro hno
    obtain ⟨b, x, hp, hb⟩ := temp_str_to_float_total mem o h0
    cases b with
    | true =>
      obtain ⟨t, junk, hw, hd, hm, -⟩ := text_of_temp_str_to_float hp
      refine absurd ⟨t, hw, hd, ?_⟩ hno
      rw [hm, c_string_append_nul _ _ (wellformed_no_nul hw)]
    | false => rw [hp, hb rfl]

/-- C5, amended: for every 8-byte payload returned by a successful bus read
of register 0x30 on a bound object, `th_get_temp_c` returns: OK with the value
of the parser exactly when the string of the payload, that is its bytes
before the first NUL (all 8 when it holds none), is a text of the decimal
grammar with at least one digit; and `TH_STATUS_SENSOR_ERR` otherwise. Bytes
after a NUL are not examined. -/
theorem get_temp_c_parses_the_string_of_the_payload (bus : MockBus) (d : th_t)
    (payload : List Nat) (hi : d.initialized = true) (hd : d.dev ≠ 0)
    (hlen : payload.length = 8) (hb : ∀ b ∈ payload, b < 256)
    (hrc : (bus.reply bus.calls
      (.transmit_receive d.dev [0x30] 8 (bus.pdMS_TO_TICKS d.timeout_ms))).rc = ESP_OK)
    (hdata : (bus.reply bus.calls
      (.transmit_receive d.dev [0x30] 8 (bus.pdMS_TO_TICKS d.timeout_ms))).data = payload) :
    ∃ r, th_get_temp_c bus (some d) = some r
      ∧ (∀ t : DecimalText, t.WellFormed → t.has_digit → t.bytes = c_string payload →
          temp_str_to_float (some (payload ++ [0])) (some F32.zero)
            = some (true, some t.parsed)
          ∧ r.2 = { tag := .TH_STATUS_OK, value := .temp_c t.parsed })
      ∧ ((¬ ∃ t : DecimalText, t.WellFormed ∧ t.has_digit ∧ t.bytes = c_string payload) →
          r.2 = { tag := .TH_STATUS_SENSOR_ERR, value := .esp_code 0 })
      ∧ (r.2.tag = .TH_STATUS_OK ↔
          ∃ t : DecimalText, t.WellFormed ∧ t.has_digit ∧ t.bytes = c_string payload) := by
  have h0 : 0 ∈ payload ++ [0] := by simp
  obtain ⟨hyes, hno⟩ := temp_str_to_float_decided_by_string (payload ++ [0]) F32.zero h0
  rw [c_string_append_terminator] at hyes hno
  have hread : read_regs bus (some d) KMETER_TEMP_CELSIUS_STRING_REG
      (some (List.replicate 9 0)) (9 - 1)
      = ((bus.call (.transmit_receive d.dev [0x30] 8 (bus.pdMS_TO_TICKS d.timeout_ms))).1,
          { tag := .TH_STATUS_OK, value := .esp_code 0 }, some (payload ++ [0])) := by
    have h := read_regs_bound bus d 0x30 8 (List.replicate 9 0) hi hd (by decide)
    rw [hrc, hdata, store_bytes_payload payload hlen hb] at h
    simpa [KMETER_TEMP_CELSIUS_STRING_REG] using h
  by_cases hex : ∃ t : DecimalText, t.WellFormed ∧ t.has_digit ∧ t.bytes = c_string payload
  · obtain ⟨t0, hw0, hd0, hs0⟩ := hex
    have hp0 := hyes t0 hw0 hd0 hs0
    have hres : th_get_temp_c bus (some d)
        = some ((bus.call (.transmit_receive d.dev [0x30] 8
            (bus.pdMS_TO_TICKS d.timeout_ms))).1,
            { tag := .TH_STATUS_OK, value := .temp_c t0.parsed }) := by
      unfold th_get_temp_c
      simp only [hread, hp0]
      simp
    refine ⟨_, hres, ?_, ?_, ?_⟩
    · intro t hw hd2 hs
      have hp := hyes t hw hd2 hs
      have e : t.parsed = t0.parsed := by
        rw [hp0] at hp
        simpa using hp.symm
      exact ⟨hp, by rw [e]⟩
    · intro hn
      exact absurd ⟨t0, hw0, hd0, hs0⟩ hn
    · exact ⟨fun _ => ⟨t0, hw0, hd0, hs0⟩, fun _ => rfl⟩
  · have hp := hno hex
    have hres : th_get_temp_c bus (some d)
        = some ((bus.call (.transmit_receive d.dev [0x30] 8
            (bus.pdMS_TO_TICKS d.timeout_ms))).1,
            { tag := .TH_STATUS_SENSOR_ERR, value := .esp_code 0 }) := by
      unfold th_get_temp_c
      simp only [hread, hp]
      simp
    refine ⟨_, hres, ?_, ?_, ?_⟩
    · intro t hw hd2 hs
      exact absurd ⟨t, hw, hd2, hs⟩ hex
    · intro _
      rfl
    · constructor
      · intro h
        simp at h
      · intro h
        exact absurd h hex

/-- Witness of the amended C5 on the payload `+0018.50`. -/
theorem get_temp_c_parses_the_string_of_the_payload_witness :
    (th_bound.initialized = true ∧ th_bound.dev ≠ 0
      ∧ [43, 48, 48, 49, 56, 46, 53, 48].length = 8
      ∧ ∀ b ∈ [43, 48, 48, 49, 56, 46, 53, 48], b < 256)
    ∧ ∃ r, th_get_temp_c (const_bus ESP_OK none [43, 48, 48, 49, 56, 46, 53, 48])
        (some th_bound) = some r
      ∧ (r.2.tag = .TH_STATUS_OK ↔ ∃ t : DecimalText, t.WellFormed ∧ t.has_digit
          ∧ t.bytes = c_string [43, 48, 48, 49, 56, 46, 53, 48]) :=
  ⟨⟨rfl, by decide, rfl, by decide⟩,
    (get_temp_c_parses_the_string_of_the_payload
      (const_bus ESP_OK none [43, 48, 48, 49, 56, 46, 53, 48]) th_bound
      [43, 48, 48, 49, 56, 46, 53, 48] rfl (by decide) rfl (by decide) rfl rfl).imp
      fun _ h => ⟨h.1, h.2.2.2⟩⟩

/-! ## Rounding is exact on binary32 values -/

namespace F32

theorem shiftFor_small (fuel t : Nat) (h : t < 2 ^ 24) : shiftFor fuel t = 0 := by
  cases fuel with
  | zero => rfl
  | succ f => simp only [shiftFor, if_pos h]

theorem shiftFor_spec (fuel t : Nat) (hf : t ≤ fuel) (h : 2 ^ 24 ≤ t) :
    2 ^ (shiftFor fuel t + 23) ≤ t ∧ t < 2 ^ (shiftFor fuel t + 24) := by
  induction fuel generalizing t with
  | zero =>
    have : (0 : Nat) < 2 ^ 24 := by positivity
    omega
  | succ f ih =>
    have hnot : ¬ t < 2 ^ 24 := by omega
    have hpos : (0 : Nat) < 2 ^ 24 := by positivity
    have hhalf : t / 2 ≤ f := by omega
    simp only [shiftFor, if_neg hnot]
    by_cases hs : t / 2 < 2 ^ 24
    · rw [shiftFor_small f _ hs]
      constructor
      · simpa using h
      · have : (2 : Nat) ^ (0 + 1 + 24) = 2 * 2 ^ 24 := by norm_num
        omega
    · have h2 := ih (t / 2) hhalf (by omega)
      have e1 : (2 : Nat) ^ (shiftFor f (t / 2) + 1 + 23) = 2 * 2 ^ (shiftFor f (t / 2) + 23) := by
        rw [show shiftFor f (t / 2) + 1 + 23 = (shiftFor f (t / 2) + 23) + 1 by omega, pow_succ]
        ring
      have e2 : (2 : Nat) ^ (shiftFor f (t / 2) + 1 + 24) = 2 * 2 ^ (shiftFor f (t / 2) + 24) := by
        rw [show shiftFor f (t / 2) + 1 + 24 = (shiftFor f (t / 2) + 24) + 1 by omega, pow_succ]
        ring
      rw [e1, e2]
      omega

end F32

theorem rne_mul (q D : Nat) (hD : 0 < D) : rne (q * D) D = q := by
  simp [rne, Nat.mul_div_cancel _ hD, hD]

namespace F32

/-- A count of units with at most 24 significant bits, below the overflow
threshold, is a binary32 value: rounding it gives it back. -/
theorem roundQ_exact (neg : Bool) (m s D : Nat) (hm : m < 2 ^ 24)
    (hk : m * 2 ^ s < 2 ^ 128 * 2 ^ 149) (hD : 0 < D) :
    roundQ neg (m * 2 ^ s * D) D = fin neg (m * 2 ^ s) := by
  have ht : m * 2 ^ s * D / D = m * 2 ^ s := Nat.mul_div_cancel _ hD
  have hdvd : 2 ^ shiftFor (m * 2 ^ s) (m * 2 ^ s) ∣ m * 2 ^ s := by
    by_cases hsm : m * 2 ^ s < 2 ^ 24
    · rw [shiftFor_small _ _ hsm]
      simp
    · obtain ⟨h1, -⟩ := shiftFor_spec (m * 2 ^ s) (m * 2 ^ s) le_rfl (by omega)
      have h2 : m * 2 ^ s < 2 ^ 24 * 2 ^ s :=
        Nat.mul_lt_mul_of_pos_right hm (by positivity)
      rw [← pow_add] at h2
      have h3 : shiftFor (m * 2 ^ s) (m * 2 ^ s) + 23 < 24 + s :=
        (Nat.pow_lt_pow_iff_right (by norm_num)).1 (lt_of_le_of_lt h1 h2)
      exact Dvd.dvd.mul_left (pow_dvd_pow 2 (by omega)) m
  have hround : ∀ sh : Nat, 2 ^ sh ∣ m * 2 ^ s →
      rne (m * 2 ^ s * D) (D * 2 ^ sh) * 2 ^ sh = m * 2 ^ s := by
    rintro sh ⟨q, hq⟩
    have hN : m * 2 ^ s * D = q * (D * 2 ^ sh) := by
      rw [hq]
      ring
    rw [hN, rne_mul _ _ (by positivity), hq]
    ring
  simp only [roundQ, ht, hround _ hdvd, if_neg (not_le.2 hk)]


theorem ofInt_nat_exact (n m e : Nat) (h : n = m * 2 ^ e) (hm : m < 2 ^ 24)
    (hn : n < 2 ^ 128) : ofInt (n : Int) = fin false (n * 2 ^ 149) := by
  have hneg : decide ((n : Int) < 0) = false := by simp
  have hk : m * 2 ^ (e + 149) < 2 ^ 128 * 2 ^ 149 := by
    rw [pow_add, ← mul_assoc, ← h]
    exact Nat.mul_lt_mul_of_pos_right hn (by positivity)
  have hN : (n : Int).natAbs * 2 ^ 149 = m * 2 ^ (e + 149) * 1 := by
    rw [Int.natAbs_ofNat, h, pow_add]
    ring
  have hv : n * 2 ^ 149 = m * 2 ^ (e + 149) := by
    rw [h, pow_add]
    ring
  rw [ofInt, hneg, hN, roundQ_exact false m (e + 149) 1 hm hk Nat.one_pos, hv]

theorem ofInt_small (n : Nat) (hn : n < 2 ^ 24) : ofInt (n : Int) = fin false (n * 2 ^ 149) :=
  ofInt_nat_exact n n 0 (by simp) hn (lt_trans hn (by norm_num))

theorem ofInt_neg_one : ofInt (-1) = fin true (2 ^ 149) := by
  have h := roundQ_exact true 1 149 1 (by norm_num) (by norm_num) Nat.one_pos
  simpa [ofInt] using h

theorem mul_exact (sa sb : Bool) (a b m s : Nat) (h : a * b = m * 2 ^ s * 2 ^ 149)
    (hm : m < 2 ^ 24) (hk : m * 2 ^ s < 2 ^ 128 * 2 ^ 149) :
    mul (fin sa a) (fin sb b) = fin (xor sa sb) (m * 2 ^ s) := by
  rw [mul, h]
  exact roundQ_exact _ m s _ hm hk (by positivity)

theorem add_exact (a b m s : Nat) (h : a + b = m * 2 ^ s) (hm : m < 2 ^ 24)
    (hk : m * 2 ^ s < 2 ^ 128 * 2 ^ 149) :
    add (fin false a) (fin false b) = fin false (a + b) := by
  simp only [add, units, Bool.false_eq_true, if_false, Bool.and_self]
  by_cases h0 : (a : Int) + (b : Int) = 0
  · have : a + b = 0 := by omega
    rw [if_pos h0, this]
  · have hnn : ¬ ((a : Int) + (b : Int) < 0) := by omega
    have hab : ((a : Int) + (b : Int)).natAbs = m * 2 ^ s * 1 := by
      rw [mul_one, ← h]
      omega
    rw [if_neg h0, decide_eq_false hnn, hab,
      roundQ_exact false m s 1 hm hk Nat.one_pos, h]

theorem div_exact (a b m s : Nat) (hb : b ≠ 0) (h : a * 2 ^ 149 = m * 2 ^ s * b)
    (hm : m < 2 ^ 24) (hk : m * 2 ^ s < 2 ^ 128 * 2 ^ 149) :
    div (fin false a) (fin false b) = fin false (m * 2 ^ s) := by
  simp only [div, if_neg hb, h, Bool.xor_false]
  exact roundQ_exact _ m s b hm hk (Nat.pos_of_ne_zero hb)

end F32

/-! ## The accumulators of the parser are exact on short inputs -/

theorem digits_acc_cons (a c : Nat) (ds : List Nat) :
    digits_acc a (c :: ds) = digits_acc (10 * a + (c - 48)) ds := rfl

theorem digits_acc_ge (a : Nat) (ds : List Nat) : a ≤ digits_acc a ds := by
  induction ds generalizing a with
  | nil => exact le_rfl
  | cons c ds ih =>
    rw [digits_acc_cons]
    have := ih (10 * a + (c - 48))
    omega

theorem digits_acc_lt (a : Nat) (ds : List Nat) (h : ∀ c ∈ ds, is_digit c) :
    digits_acc a ds < (a + 1) * 10 ^ ds.length := by
  induction ds generalizing a with
  | nil => simp [digits_acc]
  | cons c ds ih =>
    have hc : 48 ≤ c ∧ c ≤ 57 := h c (List.mem_cons_self _ _)
    have h1 := ih (10 * a + (c - 48)) (fun x hx => h x (List.mem_cons_of_mem _ hx))
    rw [digits_acc_cons, List.length_cons, pow_succ]
    have h2 : (10 * a + (c - 48) + 1) * 10 ^ ds.length ≤ (a + 1) * (10 ^ ds.length * 10) := by
      have : 10 * a + (c - 48) + 1 ≤ (a + 1) * 10 := by omega
      calc (10 * a + (c - 48) + 1) * 10 ^ ds.length
          ≤ ((a + 1) * 10) * 10 ^ ds.length := Nat.mul_le_mul_right _ this
        _ = (a + 1) * (10 ^ ds.length * 10) := by ring
    omega

theorem digits_value_lt (ds : List Nat) (h : ∀ c ∈ ds, is_digit c) :
    digits_value ds < 10 ^ ds.length := by
  simpa [digits_value] using digits_acc_lt 0 ds h

theorem wrap64_of_small (x : Int) (h0 : 0 ≤ x) (h1 : x < 2 ^ 63) : wrap64 x = x := by
  unfold wrap64
  norm_num at h1 ⊢
  omega

theorem int_acc_exact (ds : List Nat) (a : Nat) (h : ∀ c ∈ ds, is_digit c)
    (hlt : digits_acc a ds < 2 ^ 63) : int_acc (a : Int) ds = (digits_acc a ds : Int) := by
  induction ds generalizing a with
  | nil => rfl
  | cons c ds ih =>
    have hc : 48 ≤ c ∧ c ≤ 57 := h c (List.mem_cons_self _ _)
    rw [digits_acc_cons] at hlt ⊢
    have hstep := digits_acc_ge (10 * a + (c - 48)) ds
    have hcast : (a : Int) * 10 + ((c : Int) - 48) = ((10 * a + (c - 48) : Nat) : Int) := by
      omega
    have hw : wrap64 ((a : Int) * 10 + ((c : Int) - 48)) = ((10 * a + (c - 48) : Nat) : Int) := by
      rw [hcast]
      apply wrap64_of_small
      · exact Int.natCast_nonneg _
      · have : 10 * a + (c - 48) < 2 ^ 63 := lt_of_le_of_lt hstep hlt
        exact_mod_cast this
    simp only [int_acc, List.foldl_cons] at ih ⊢
    rw [hw]
    exact ih _ (fun x hx => h x (List.mem_cons_of_mem _ hx)) hlt

theorem units_bound (n : Nat) (hn : n < 2 ^ 24) : n * 2 ^ 149 < 2 ^ 128 * 2 ^ 149 :=
  Nat.mul_lt_mul_of_pos_right (lt_trans hn (by norm_num)) (by positivity)

theorem frac_acc_exact (ds : List Nat) (a : Nat) (h : ∀ c ∈ ds, is_digit c)
    (hlt : digits_acc a ds < 2 ^ 24) :
    frac_acc (.fin false (a * 2 ^ 149)) ds = .fin false (digits_acc a ds * 2 ^ 149) := by
  induction ds generalizing a with
  | nil => rfl
  | cons c ds ih =>
    have hc : 48 ≤ c ∧ c ≤ 57 := h c (List.mem_cons_self _ _)
    rw [digits_acc_cons] at hlt ⊢
    have hstep : 10 * a + (c - 48) < 2 ^ 24 :=
      lt_of_le_of_lt (digits_acc_ge (10 * a + (c - 48)) ds) hlt
    have h10a : 10 * a < 2 ^ 24 := by omega
    have hd : c - 48 < 2 ^ 24 := by omega
    have hcast : (c : Int) - 48 = ((c - 48 : Nat) : Int) := by omega
    have hmul : F32.mul (.fin false (a * 2 ^ 149)) (F32.ofInt 10)
        = .fin false (10 * a * 2 ^ 149) := by
      have e10 : F32.ofInt 10 = .fin false (10 * 2 ^ 149) := F32.ofInt_small 10 (by norm_num)
      rw [e10]
      exact F32.mul_exact false false _ _ (10 * a) 149 (by ring) h10a (units_bound _ h10a)
    have hadd : F32.add (.fin false (10 * a * 2 ^ 149)) (F32.ofInt ((c : Int) - 48))
        = .fin false ((10 * a + (c - 48)) * 2 ^ 149) := by
      have e : 10 * a * 2 ^ 149 + (c - 48) * 2 ^ 149 = (10 * a + (c - 48)) * 2 ^ 149 := by
        ring
      rw [hcast, F32.ofInt_small _ hd,
        F32.add_exact _ _ (10 * a + (c - 48)) 149 e hstep (units_bound _ hstep), e]
    simp only [frac_acc, List.foldl_cons] at ih ⊢
    rw [hmul, hadd]
    exact ih _ (fun x hx => h x (List.mem_cons_of_mem _ hx)) hlt

theorem pow_five_lt (j : Nat) (hj : j ≤ 10) : 5 ^ j < 2 ^ 24 :=
  lt_of_le_of_lt (Nat.pow_le_pow_right (by norm_num) hj) (by norm_num)

theorem pow_ten_units (j : Nat) : 10 ^ j * 2 ^ 149 = 5 ^ j * 2 ^ (j + 149) := by
  rw [show (10 : Nat) = 5 * 2 by norm_num, mul_pow, pow_add]
  ring

theorem pow_ten_units_bound (j : Nat) (hj : j ≤ 10) :
    5 ^ j * 2 ^ (j + 149) < 2 ^ 128 * 2 ^ 149 := by
  have h1 : 5 ^ j * 2 ^ j < 2 ^ 128 := by
    rw [← mul_pow]
    exact lt_of_le_of_lt (Nat.pow_le_pow_right (by norm_num) hj) (by norm_num)
  rw [pow_add, ← mul_assoc]
  exact Nat.mul_lt_mul_of_pos_right h1 (by positivity)

theorem div_acc_exact (ds : List Nat) (j : Nat) (hj : j + ds.length ≤ 10) :
    div_acc (.fin false (10 ^ j * 2 ^ 149)) ds
      = .fin false (10 ^ (j + ds.length) * 2 ^ 149) := by
  induction ds generalizing j with
  | nil => rfl
  | cons c ds ih =>
    rw [List.length_cons] at hj
    have hmul : F32.mul (.fin false (10 ^ j * 2 ^ 149)) (F32.ofInt 10)
        = .fin false (10 ^ (j + 1) * 2 ^ 149) := by
      have e10 : F32.ofInt 10 = .fin false (10 * 2 ^ 149) := F32.ofInt_small 10 (by norm_num)
      rw [e10, pow_ten_units (j + 1)]
      refine F32.mul_exact false false _ _ (5 ^ (j + 1)) (j + 1 + 149) ?_
        (pow_five_lt _ (by omega)) (pow_ten_units_bound _ (by omega))
      rw [← pow_ten_units (j + 1)]
      ring
    simp only [div_acc, List.foldl_cons, List.length_cons] at ih ⊢
    rw [hmul, ih (j + 1) (by omega), Nat.add_assoc, Nat.add_comm 1]


/-- The arithmetic core of the exactness of the parser: when the exact value
`(I + F / 10^k)` is `m * 2^s` units with `m < 2^24`, every rounding on the way
is exact and the parser writes exactly that many units. -/
theorem parsed_units (t : DecimalText) (hw : t.WellFormed) (m s : Nat)
    (hI : digits_value t.int_digits < 2 ^ 63) (hF : digits_value t.frac_digits < 2 ^ 24)
    (hk : t.frac_digits.length ≤ 10) (hm : m < 2 ^ 24) (hs : s ≤ 253)
    (heq : (digits_value t.int_digits * 10 ^ t.frac_digits.length
              + digits_value t.frac_digits) * 2 ^ 149
            = m * 2 ^ s * 10 ^ t.frac_digits.length) :
    t.parsed = .fin (decide (t.sign = some true)) (m * 2 ^ s) := by
  obtain ⟨-, hdI, hdF, -⟩ := hw
  have hFlt := digits_value_lt t.frac_digits hdF
  generalize hIv : digits_value t.int_digits = I at *
  generalize hFv : digits_value t.frac_digits = F at *
  generalize hkv : t.frac_digits.length = k at *
  have hU : (0 : Nat) < 2 ^ 149 := by positivity
  have hT : (0 : Nat) < 10 ^ k := by positivity
  have hkvb : m * 2 ^ s < 2 ^ 128 * 2 ^ 149 := by
    have h1 : m * 2 ^ s < 2 ^ 24 * 2 ^ s := Nat.mul_lt_mul_of_pos_right hm (by positivity)
    have h2 : (2 : Nat) ^ 24 * 2 ^ s ≤ 2 ^ 24 * 2 ^ 253 :=
      Nat.mul_le_mul_left _ (Nat.pow_le_pow_right (by norm_num) hs)
    have h3 : (2 : Nat) ^ 24 * 2 ^ 253 = 2 ^ 128 * 2 ^ 149 := by
      rw [← pow_add, ← pow_add]
    omega
  -- the integer part fits below the value
  have hge : I * 2 ^ 149 ≤ m * 2 ^ s := by
    have h1 : I * 2 ^ 149 * 10 ^ k ≤ m * 2 ^ s * 10 ^ k := by
      rw [← heq]
      have : (I * 10 ^ k + F) * 2 ^ 149 = I * 2 ^ 149 * 10 ^ k + F * 2 ^ 149 := by ring
      omega
    exact Nat.le_of_mul_le_mul_right h1 hT
  obtain ⟨kf, hkf⟩ : ∃ kf, m * 2 ^ s = I * 2 ^ 149 + kf := ⟨m * 2 ^ s - I * 2 ^ 149, by omega⟩
  have hkfF : kf * 10 ^ k = F * 2 ^ 149 := by
    have h1 : (I * 10 ^ k + F) * 2 ^ 149 = I * 2 ^ 149 * 10 ^ k + F * 2 ^ 149 := by ring
    have h2 : m * 2 ^ s * 10 ^ k = I * 2 ^ 149 * 10 ^ k + kf * 10 ^ k := by
      rw [hkf]
      ring
    omega
  have hkflt : kf < 2 ^ 149 := by
    have h1 : kf * 10 ^ k < 2 ^ 149 * 10 ^ k := by
      rw [hkfF, mul_comm (2 ^ 149) (10 ^ k)]
      exact Nat.mul_lt_mul_of_pos_right hFlt hU
    exact Nat.lt_of_mul_lt_mul_right h1
  -- when the value is a whole number of units of 1, the fraction is zero
  have hwhole : 149 ≤ s → kf = 0 := by
    intro h149
    have hd1 : 2 ^ 149 ∣ m * 2 ^ s := Dvd.dvd.mul_left (pow_dvd_pow 2 h149) m
    have hd2 : 2 ^ 149 ∣ I * 2 ^ 149 := Dvd.intro_left _ rfl
    have hd3 : 2 ^ 149 ∣ kf := by
      rw [hkf] at hd1
      exact (Nat.dvd_add_right hd2).1 hd1
    exact Nat.eq_zero_of_dvd_of_lt hd3 hkflt
  -- the fraction is a binary32 value
  obtain ⟨mf, sf, hkfm, hmf⟩ : ∃ mf sf, kf = mf * 2 ^ sf ∧ mf < 2 ^ 24 := by
    by_cases h149 : 149 ≤ s
    · exact ⟨0, 0, by rw [hwhole h149]; simp, by norm_num⟩
    · refine ⟨m - I * 2 ^ (149 - s), s, ?_, by omega⟩
      have e : I * 2 ^ 149 = I * 2 ^ (149 - s) * 2 ^ s := by
        rw [mul_assoc, ← pow_add]
        congr 2
        omega
      rw [Nat.sub_mul, ← e]
      omega
  have hkfb : mf * 2 ^ sf < 2 ^ 128 * 2 ^ 149 := by
    rw [← hkfm]
    have : (2 : Nat) ^ 149 ≤ 2 ^ 128 * 2 ^ 149 := Nat.le_mul_of_pos_left _ (by positivity)
    omega
  -- the integer part converts exactly
  have hint : F32.ofInt (int_acc 0 t.int_digits) = .fin false (I * 2 ^ 149) := by
    have h0 : int_acc 0 t.int_digits = (I : Int) := by
      have := int_acc_exact t.int_digits 0 hdI (by rw [← digits_value, hIv]; exact hI)
      rw [← hIv]
      simpa [digits_value] using this
    rw [h0]
    by_cases hsmall : I < 2 ^ 24
    · exact F32.ofInt_small I hsmall
    · have h1 : 2 ^ 24 * 2 ^ 149 ≤ m * 2 ^ s :=
        le_trans (Nat.mul_le_mul_right _ (by omega)) hge
      have h2 : m * 2 ^ s < 2 ^ 24 * 2 ^ s := Nat.mul_lt_mul_of_pos_right hm (by positivity)
      have h3 : (2 : Nat) ^ 149 < 2 ^ s := by
        have : (2 : Nat) ^ 24 * 2 ^ 149 < 2 ^ 24 * 2 ^ s := lt_of_le_of_lt h1 h2
        exact Nat.lt_of_mul_lt_mul_left this
      have h4 : 149 < s := (Nat.pow_lt_pow_iff_right (by norm_num)).1 h3
      have hkf0 := hwhole (by omega)
      have hIm : I = m * 2 ^ (s - 149) := by
        have e : m * 2 ^ s = m * 2 ^ (s - 149) * 2 ^ 149 := by
          rw [mul_assoc, ← pow_add]
          congr 2
          omega
        rw [hkf0, Nat.add_zero, e] at hkf
        exact (Nat.eq_of_mul_eq_mul_right hU hkf).symm
      exact F32.ofInt_nat_exact I m (s - 149) hIm hm (lt_trans hI (by norm_num))
  -- the fraction part divides exactly
  have hfrac : (if t.frac_digits.length ≠ 0 then
        F32.div (frac_acc F32.zero t.frac_digits) (div_acc (F32.ofInt 1) t.frac_digits)
      else F32.zero) = .fin false kf := by
    by_cases hk0 : t.frac_digits.length = 0
    · have hnil : t.frac_digits = [] := List.length_eq_zero.1 hk0
      have hF0 : F = 0 := by
        rw [← hFv, hnil]
        rfl
      have hkf0 : kf = 0 := by
        rw [hF0, Nat.zero_mul] at hkfF
        rcases Nat.mul_eq_zero.1 hkfF with h | h
        · exact h
        · omega
      rw [if_neg (by simpa using hk0), hkf0]
      rfl
    · have hz : F32.zero = .fin false (0 * 2 ^ 149) := by
        rw [Nat.zero_mul]
        rfl
      have h1 : F32.ofInt 1 = .fin false (10 ^ 0 * 2 ^ 149) := by
        have := F32.ofInt_small 1 (by norm_num)
        simpa using this
      have hfa : frac_acc F32.zero t.frac_digits = .fin false (F * 2 ^ 149) := by
        rw [hz, frac_acc_exact t.frac_digits 0 hdF (by rw [← digits_value, hFv]; exact hF),
          ← digits_value, hFv]
      have hda : div_acc (F32.ofInt 1) t.frac_digits = .fin false (10 ^ k * 2 ^ 149) := by
        rw [h1, div_acc_exact t.frac_digits 0 (by omega), Nat.zero_add, hkv]
      rw [if_pos hk0, hfa, hda, hkfm]
      refine F32.div_exact _ _ mf sf (by positivity) ?_ hmf hkfb
      rw [← hkfm]
      calc F * 2 ^ 149 * 2 ^ 149 = kf * 10 ^ k * 2 ^ 149 := by rw [hkfF]
        _ = kf * (10 ^ k * 2 ^ 149) := by ring
  have hsum : F32.add (.fin false (I * 2 ^ 149)) (.fin false kf) = .fin false (m * 2 ^ s) := by
    rw [F32.add_exact _ _ m s hkf.symm hm hkvb, ← hkf]
  have hparsed : t.parsed = F32.mul (F32.ofInt (if t.sign = some true then -1 else 1))
      (.fin false (m * 2 ^ s)) := by
    rw [DecimalText.parsed, hint, hfrac, hsum]
  rw [hparsed]
  by_cases hsg : t.sign = some true
  · rw [if_pos hsg, F32.ofInt_neg_one, decide_eq_true hsg]
    exact F32.mul_exact true false _ _ m s (by ring) hm hkvb
  · have h1 : F32.ofInt 1 = .fin false (2 ^ 149) := by
      have := F32.ofInt_small 1 (by norm_num)
      simpa using this
    rw [if_neg hsg, h1, decide_eq_false hsg]
    exact F32.mul_exact false false _ _ m s (by ring) hm hkvb

/-! ## The value written by the parser -/

set_option maxRecDepth 100000 in
/-- The examples of the specification: `+0018.50` parses to 18.5, `-3.25` to
-3.25, `0` to 0 and `7` between blanks to 7; the empty string, `+` and
`12.3x` are rejected. -/
theorem parse_examples :
    (temp_str_to_float (some (c_str "+0018.50")) (some F32.zero)
        = some (true, some (.fin false (37 * 2 ^ 148)))
      ∧ (F32.fin false (37 * 2 ^ 148)).toRat = some (37 / 2))
    ∧ (temp_str_to_float (some (c_str "-3.25")) (some F32.zero)
        = some (true, some (.fin true (13 * 2 ^ 147)))
      ∧ (F32.fin true (13 * 2 ^ 147)).toRat = some (-13 / 4))
    ∧ (temp_str_to_float (some (c_str "0")) (some F32.zero)
        = some (true, some (.fin false 0))
      ∧ (F32.fin false 0).toRat = some 0)
    ∧ (temp_str_to_float (some (c_str "  7  ")) (some F32.zero)
        = some (true, some (.fin false (7 * 2 ^ 149)))
      ∧ (F32.fin false (7 * 2 ^ 149)).toRat = some 7)
    ∧ temp_str_to_float (some (c_str "")) (some F32.zero) = some (false, some F32.zero)
    ∧ temp_str_to_float (some (c_str "+")) (some F32.zero) = some (false, some F32.zero)
    ∧ temp_str_to_float (some (c_str "12.3x")) (some F32.zero)
        = some (false, some F32.zero) := by
  refine ⟨⟨by decide, ?_⟩, ⟨by decide, ?_⟩, ⟨by decide, ?_⟩, ⟨by decide, ?_⟩,
    by decide, by decide, by decide⟩
  · simp only [F32.toRat, if_false, Option.some.injEq]
    norm_num
  · simp only [F32.toRat, if_true, Option.some.injEq]
    norm_num
  · simp [F32.toRat]
  · simp only [F32.toRat, if_false, Option.some.injEq]
    norm_num

theorem abs_signed_value (sg : Bool) (x : ℚ) (hx : 0 ≤ x) :
    |(if sg then (-1 : ℚ) else 1) * x| = x := by
  cases sg <;> simp [abs_of_nonneg hx]

set_option maxRecDepth 100000 in
/-- C3, counterexample: `0.75000000000` is a text of the grammar with a digit,
its value 3/4 is exactly representable in binary32, and the parser returns
true but writes 12582913/16777216 = 0.75000005960464477539: with eleven
fraction digits `frac` and `div` are rounded before they are divided. -/
theorem long_fraction_is_not_exact :
    (long_fraction_text.WellFormed ∧ long_fraction_text.has_digit
      ∧ long_fraction_text.bytes ++ [0] = c_str "0.75000000000")
    ∧ (long_fraction_text.value = 3 / 4 ∧ F32.Representable (3 / 4))
    ∧ temp_str_to_float (some (c_str "0.75000000000")) (some F32.zero)
        = some (true, some (.fin false (12582913 * 2 ^ 125)))
    ∧ (F32.fin false (12582913 * 2 ^ 125)).toRat = some (12582913 / 16777216)
    ∧ (12582913 / 16777216 : ℚ) ≠ 3 / 4 := by
  refine ⟨⟨by decide, by decide, by decide⟩, ⟨?_, ?_⟩, by decide, ?_, by norm_num⟩
  · have hs : long_fraction_text.sign ≠ some true := by decide
    rw [DecimalText.value, if_neg hs]
    simp only [long_fraction_text, DecimalText.frac_digits,
      Option.getD_some, digits_value, digits_acc, List.foldl_cons, List.foldl_nil,
      List.length_cons, List.length_nil]
    norm_num
  · exact ⟨3, 147, by norm_num, by norm_num, by norm_num [abs_of_nonneg]⟩
  · simp only [F32.toRat, if_false, Option.some.injEq]
    norm_num

/-- A text of at most 8 characters, the width of the sensor register, is
within the bounds under which the parser is exact. -/
theorem short_text_bounds (t : DecimalText) (hw : t.WellFormed) (hlen : t.bytes.length ≤ 8) :
    digits_value t.int_digits < 2 ^ 63 ∧ digits_value t.frac_digits < 2 ^ 24
      ∧ t.frac_digits.length ≤ 10 := by
  obtain ⟨-, hdI, hdF, -⟩ := hw
  have h1 := digits_value_lt t.int_digits hdI
  have h2 := digits_value_lt t.frac_digits hdF
  simp only [DecimalText.bytes, List.length_append] at hlen
  have hI8 : t.int_digits.length ≤ 8 := by omega
  have hF7 : t.frac_digits.length ≤ 7 := by
    rcases hf : t.frac with _ | F
    · simp [DecimalText.frac_digits, hf]
    · rw [hf] at hlen
      simp only [DecimalText.frac_bytes, List.length_cons] at hlen
      simp only [DecimalText.frac_digits, hf, Option.getD_some]
      omega
  have p1 : 10 ^ t.int_digits.length ≤ 10 ^ 8 := Nat.pow_le_pow_right (by norm_num) hI8
  have p2 : 10 ^ t.frac_digits.length ≤ 10 ^ 7 := Nat.pow_le_pow_right (by norm_num) hF7
  refine ⟨?_, ?_, by omega⟩
  · exact lt_of_lt_of_le h1 (le_trans p1 (by norm_num))
  · exact lt_of_lt_of_le h2 (le_trans p2 (by norm_num))

/-- C3, amended: for every text of the grammar with at least one digit,
followed by the terminator, `temp_str_to_float` returns true; and when the
integer digits read below `2^63`, the fraction has at most 10 digits that read
below `2^24`, and the value `sign * (value(I) + value(F) / 10^k)` is exactly
representable in binary32, the value written is exactly that value. -/
theorem temp_str_to_float_exact_on_short_texts (t : DecimalText) (junk : List Nat) (o : F32)
    (hw : t.WellFormed) (hd : t.has_digit) :
    ∃ x, temp_str_to_float (some (t.bytes ++ 0 :: junk)) (some o) = some (true, some x)
      ∧ (digits_value t.int_digits < 2 ^ 63 → digits_value t.frac_digits < 2 ^ 24 →
          t.frac_digits.length ≤ 10 → F32.Representable t.value →
          x.toRat = some t.value) := by
  refine ⟨t.parsed, temp_str_to_float_of_text t junk o hw hd, ?_⟩
  intro hI hF hk hrep
  obtain ⟨m, s, hm, hs, habs⟩ := hrep
  have hnn : (0 : ℚ) ≤ (digits_value t.int_digits : ℚ)
      + (digits_value t.frac_digits : ℚ) / 10 ^ t.frac_digits.length := by positivity
  have hval : (digits_value t.int_digits : ℚ)
      + (digits_value t.frac_digits : ℚ) / 10 ^ t.frac_digits.length
      = (m : ℚ) * 2 ^ s / 2 ^ 149 := by
    rw [← habs, DecimalText.value]
    have := abs_signed_value (decide (t.sign = some true)) _ hnn
    simpa using this.symm
  have heq : (digits_value t.int_digits * 10 ^ t.frac_digits.length
      + digits_value t.frac_digits) * 2 ^ 149 = m * 2 ^ s * 10 ^ t.frac_digits.length := by
    have h10 : (10 : ℚ) ^ t.frac_digits.length ≠ 0 := by positivity
    have h2 : (2 : ℚ) ^ 149 ≠ 0 := by positivity
    have hq : ((digits_value t.int_digits : ℚ) * 10 ^ t.frac_digits.length
        + (digits_value t.frac_digits : ℚ)) * 2 ^ 149
        = (m : ℚ) * 2 ^ s * 10 ^ t.frac_digits.length := by
      field_simp at hval
      linarith
    exact_mod_cast hq
  rw [parsed_units t hw m s hI hF hk hm hs heq, DecimalText.value, hval]
  by_cases hsg : t.sign = some true
  · simp only [F32.toRat, hsg, decide_True, if_true, Option.some.injEq]
    push_cast
    ring
  · simp only [F32.toRat, hsg, decide_False, if_false, Option.some.injEq]
    push_cast
    ring

/-- Witness of the amended C3 on the text `+0018.50` of the specification,
whose value is 18.5. -/
theorem temp_str_to_float_exact_on_short_texts_witness :
    (spec_example_text.WellFormed ∧ spec_example_text.has_digit
      ∧ digits_value spec_example_text.int_digits < 2 ^ 63
      ∧ digits_value spec_example_text.frac_digits < 2 ^ 24
      ∧ spec_example_text.frac_digits.length ≤ 10
      ∧ F32.Representable spec_example_text.value)
    ∧ ∃ x, temp_str_to_float (some (spec_example_text.bytes ++ 0 :: [])) (some F32.zero)
        = some (true, some x) ∧ x.toRat = some spec_example_text.value :=
  have hrep : F32.Representable spec_example_text.value :=
    ⟨37, 148, by norm_num, by norm_num, by
      have hs : spec_example_text.sign ≠ some true := by decide
      rw [DecimalText.value, if_neg hs]
      simp only [spec_example_text, DecimalText.frac_digits,
        Option.getD_some, digits_value, digits_acc, List.foldl_cons, List.foldl_nil,
        List.length_cons, List.length_nil]
      norm_num [abs_of_nonneg]⟩
  ⟨⟨by decide, by decide, by decide, by decide, by decide, hrep⟩,
    (temp_str_to_float_exact_on_short_texts spec_example_text [] F32.zero (by decide)
      (by decide)).imp fun _ h => ⟨h.1, h.2 (by decide) (by decide) (by decide) hrep⟩⟩

/-! ## The raw temperature register -/

theorem ofInt_exact_of_small (n : Int) (hn : n.natAbs < 2 ^ 24) :
    F32.ofInt n = .fin (decide (n < 0)) (n.natAbs * 2 ^ 149) := by
  have h := F32.roundQ_exact (decide (n < 0)) n.natAbs 149 1 hn (units_bound _ hn) Nat.one_pos
  rw [Nat.mul_one] at h
  exact h

/-- The quotient by `100.0f` is exact whenever the raw value is below `2^24`
in magnitude and its hundredth is a binary32 value. -/
theorem div_hundred_exact (n : Int) (hn : n.natAbs < 2 ^ 24)
    (hrep : F32.Representable ((n : ℚ) / 100)) :
    (F32.div (F32.ofInt n) (F32.ofInt 100)).toRat = some ((n : ℚ) / 100) := by
  obtain ⟨m, s, hm, hs, habs⟩ := hrep
  have hkvb : m * 2 ^ s < 2 ^ 128 * 2 ^ 149 := by
    have h1 : m * 2 ^ s < 2 ^ 24 * 2 ^ s := Nat.mul_lt_mul_of_pos_right hm (by positivity)
    have h2 : (2 : Nat) ^ 24 * 2 ^ s ≤ 2 ^ 24 * 2 ^ 253 :=
      Nat.mul_le_mul_left _ (Nat.pow_le_pow_right (by norm_num) hs)
    have h3 : (2 : Nat) ^ 24 * 2 ^ 253 = 2 ^ 128 * 2 ^ 149 := by
      rw [← pow_add, ← pow_add]
    omega
  have habs2 : ((n.natAbs : ℕ) : ℚ) / 100 = (m : ℚ) * 2 ^ s / 2 ^ 149 := by
    rw [← habs, abs_div, Nat.cast_natAbs, Int.cast_abs]
    norm_num
  have heq : n.natAbs * 2 ^ 149 = m * 2 ^ s * 100 := by
    have h2 : (2 : ℚ) ^ 149 ≠ 0 := by positivity
    have hq : ((n.natAbs : ℕ) : ℚ) * 2 ^ 149 = (m : ℚ) * 2 ^ s * 100 := by
      field_simp at habs2
      linarith
    exact_mod_cast hq
  have h100 : F32.ofInt 100 = .fin false (100 * 2 ^ 149) := F32.ofInt_small 100 (by norm_num)
  have hdiv : F32.div (.fin (decide (n < 0)) (n.natAbs * 2 ^ 149)) (.fin false (100 * 2 ^ 149))
      = .fin (decide (n < 0)) (m * 2 ^ s) := by
    have hb : 100 * 2 ^ 149 ≠ 0 := by positivity
    have hN : n.natAbs * 2 ^ 149 * 2 ^ 149 = m * 2 ^ s * (100 * 2 ^ 149) := by
      rw [heq]
      ring
    simp only [F32.div, if_neg hb, hN, Bool.xor_false]
    exact F32.roundQ_exact _ m s _ hm hkvb (by positivity)
  rw [ofInt_exact_of_small n hn, h100, hdiv]
  have hmq : (m : ℚ) * 2 ^ s / 2 ^ 149 = |(n : ℚ)| / 100 := by
    rw [← habs2, Nat.cast_natAbs, Int.cast_abs]
  by_cases hneg : n < 0
  · have hq : (n : ℚ) < 0 := by exact_mod_cast hneg
    simp only [F32.toRat, hneg, decide_True, if_true, Option.some.injEq]
    push_cast
    rw [mul_div_assoc, hmq, abs_of_neg hq]
    ring
  · have hq : (0 : ℚ) ≤ (n : ℚ) := by exact_mod_cast not_lt.1 hneg
    simp only [F32.toRat, hneg, decide_False, if_false, Option.some.injEq]
    push_cast
    rw [mul_div_assoc, hmq, abs_of_nonneg hq]
    ring

/-! ## The error of one rounding -/

theorem rne_bounds (N M : Nat) (hM : 0 < M) :
    2 * (rne N M * M) ≤ 2 * N + M ∧ 2 * N ≤ 2 * (rne N M * M) + M := by
  have hdm : M * (N / M) + N % M = N := Nat.div_add_mod N M
  have hlt : N % M < M := Nat.mod_lt _ hM
  have e1 : (N / M + 1) * M = M * (N / M) + M := by ring
  have e0 : N / M * M = M * (N / M) := by ring
  unfold rne
  simp only
  split
  · rw [e0]
    omega
  · split
    · rw [e1]
      omega
    · split
      · rw [e0]
        omega
      · rw [e1]
        omega

/-- Rounding a value of at least `2^24` units changes it by at most one part
in `2^24`: the rounded count `k` satisfies
`(2^24 - 1) * N ≤ 2^24 * (k * D) ≤ (2^24 + 1) * N`. -/
theorem roundQ_bounds (neg : Bool) (N D : Nat) (hD : 0 < D) (ht : 2 ^ 24 * D ≤ N) :
    ∃ k, F32.roundQ neg N D = (if 2 ^ 128 * 2 ^ 149 ≤ k then .inf neg else .fin neg k)
      ∧ (2 ^ 24 - 1) * N ≤ 2 ^ 24 * (k * D) ∧ 2 ^ 24 * (k * D) ≤ (2 ^ 24 + 1) * N := by
  refine ⟨rne N (D * 2 ^ F32.shiftFor (N / D) (N / D)) * 2 ^ F32.shiftFor (N / D) (N / D),
    rfl, ?_⟩
  have htN : 2 ^ 24 ≤ N / D := (Nat.le_div_iff_mul_le hD).2 ht
  obtain ⟨hs, -⟩ := F32.shiftFor_spec (N / D) (N / D) le_rfl htN
  generalize F32.shiftFor (N / D) (N / D) = sh at hs ⊢
  have hM : 0 < D * 2 ^ sh := by positivity
  obtain ⟨b1, b2⟩ := rne_bounds N (D * 2 ^ sh) hM
  have hMN : 2 ^ 23 * (D * 2 ^ sh) ≤ N := by
    have h1 : 2 ^ (sh + 23) * D ≤ N / D * D := Nat.mul_le_mul_right _ hs
    have h2 : N / D * D ≤ N := Nat.div_mul_le_self N D
    have e : 2 ^ 23 * (D * 2 ^ sh) = 2 ^ (sh + 23) * D := by
      rw [pow_add]
      ring
    rw [e]
    exact le_trans h1 h2
  have ek : rne N (D * 2 ^ sh) * 2 ^ sh * D = rne N (D * 2 ^ sh) * (D * 2 ^ sh) := by ring
  rw [ek]
  generalize rne N (D * 2 ^ sh) * (D * 2 ^ sh) = P at b1 b2 ⊢
  generalize D * 2 ^ sh = M at b1 b2 hMN
  norm_num at hMN ⊢
  omega



theorem ofInt_int32_bounds (n : Int) (hn0 : n ≠ 0) (hn : n.natAbs ≤ 2 ^ 31) :
    ∃ k1, F32.ofInt n = .fin (decide (n < 0)) k1
      ∧ (2 ^ 24 - 1) * (n.natAbs * 2 ^ 149) ≤ 2 ^ 24 * k1
      ∧ 2 ^ 24 * k1 ≤ (2 ^ 24 + 1) * (n.natAbs * 2 ^ 149) := by
  have hpos : 1 ≤ n.natAbs := Nat.one_le_iff_ne_zero.2 (Int.natAbs_ne_zero.2 hn0)
  have ht : 2 ^ 24 * 1 ≤ n.natAbs * 2 ^ 149 := by
    norm_num
    omega
  obtain ⟨k, hk, b1, b2⟩ := roundQ_bounds (decide (n < 0)) (n.natAbs * 2 ^ 149) 1 Nat.one_pos ht
  rw [Nat.mul_one] at b1 b2
  have hno : ¬ (2 ^ 128 * 2 ^ 149 ≤ k) := by
    norm_num at b2 hn ⊢
    omega
  rw [if_neg hno] at hk
  exact ⟨k, hk, b1, b2⟩

theorem div_hundred_bounds (neg : Bool) (k1 : Nat) (hlo : 2 ^ 24 * 100 ≤ k1)
    (hhi : k1 < 2 ^ 128 * 2 ^ 149) :
    ∃ k2, F32.div (.fin neg k1) (F32.ofInt 100) = .fin neg k2
      ∧ (2 ^ 24 - 1) * k1 ≤ 2 ^ 24 * (100 * k2)
      ∧ 2 ^ 24 * (100 * k2) ≤ (2 ^ 24 + 1) * k1 := by
  have h100 : F32.ofInt 100 = .fin false (100 * 2 ^ 149) := F32.ofInt_small 100 (by norm_num)
  have hb : 100 * 2 ^ 149 ≠ 0 := by positivity
  have ht : 2 ^ 24 * (100 * 2 ^ 149) ≤ k1 * 2 ^ 149 := by
    norm_num at hlo ⊢
    omega
  obtain ⟨k, hk, b1, b2⟩ := roundQ_bounds neg (k1 * 2 ^ 149) (100 * 2 ^ 149) (by positivity) ht
  have c1 : (2 ^ 24 - 1) * k1 ≤ 2 ^ 24 * (100 * k) := by
    norm_num at b1 ⊢
    omega
  have c2 : 2 ^ 24 * (100 * k) ≤ (2 ^ 24 + 1) * k1 := by
    norm_num at b2 ⊢
    omega
  have hno : ¬ (2 ^ 128 * 2 ^ 149 ≤ k) := by
    norm_num at c2 hhi ⊢
    omega
  rw [if_neg hno] at hk
  refine ⟨k, ?_, c1, c2⟩
  rw [h100]
  simp only [F32.div, if_neg hb, Bool.xor_false]
  exact hk

/-- The value written for the raw integer `n` of 32 bits is finite and within
one part in `2^22` of `n / 100`: the conversion of `n` and the division each
round once. -/
theorem div_hundred_error (n : Int) (hn : n.natAbs ≤ 2 ^ 31) :
    ∃ q : ℚ, (F32.div (F32.ofInt n) (F32.ofInt 100)).toRat = some q
      ∧ |q - (n : ℚ) / 100| * 2 ^ 22 ≤ |(n : ℚ) / 100| := by
  by_cases hn0 : n = 0
  · subst hn0
    have h0 : F32.ofInt 0 = .fin false (0 * 2 ^ 149) := F32.ofInt_small 0 (by norm_num)
    have h100 : F32.ofInt 100 = .fin false (100 * 2 ^ 149) := F32.ofInt_small 100 (by norm_num)
    have hd : F32.div (.fin false (0 * 2 ^ 149)) (.fin false (100 * 2 ^ 149))
        = .fin false (0 * 2 ^ 0) :=
      F32.div_exact _ _ 0 0 (by positivity) (by ring) (by norm_num) (by norm_num)
    refine ⟨0, ?_, by simp⟩
    rw [h0, h100, hd]
    simp [F32.toRat]
  · obtain ⟨k1, hk1, a1, a2⟩ := ofInt_int32_bounds n hn0 hn
    have hpos : 1 ≤ n.natAbs := Nat.one_le_iff_ne_zero.2 (Int.natAbs_ne_zero.2 hn0)
    have hlo : 2 ^ 24 * 100 ≤ k1 := by
      norm_num at a1 ⊢
      omega
    have hhi : k1 < 2 ^ 128 * 2 ^ 149 := by
      norm_num at a2 hn ⊢
      omega
    obtain ⟨k2, hk2, c1, c2⟩ := div_hundred_bounds (decide (n < 0)) k1 hlo hhi
    have HA : 2 ^ 22 * (100 * k2) ≤ (2 ^ 22 + 1) * (n.natAbs * 2 ^ 149) := by
      norm_num at a1 a2 c1 c2 ⊢
      omega
    have HB : (2 ^ 22 - 1) * (n.natAbs * 2 ^ 149) ≤ 2 ^ 22 * (100 * k2) := by
      norm_num at a1 a2 c1 c2 ⊢
      omega
    have HAq : (2 ^ 22 : ℚ) * (100 * (k2 : ℚ)) ≤ (2 ^ 22 + 1) * ((n.natAbs : ℚ) * 2 ^ 149) := by
      exact_mod_cast HA
    have HBq : ((2 ^ 22 : ℚ) - 1) * ((n.natAbs : ℚ) * 2 ^ 149) ≤ 2 ^ 22 * (100 * (k2 : ℚ)) := by
      have h : ((2 ^ 22 - 1 : ℕ) : ℚ) * ((n.natAbs : ℚ) * 2 ^ 149)
          ≤ 2 ^ 22 * (100 * (k2 : ℚ)) := by exact_mod_cast HB
      norm_num at h ⊢
      exact h
    have hU : (0 : ℚ) < 2 ^ 149 := by positivity
    have hX : (k2 : ℚ) = (k2 : ℚ) / 2 ^ 149 * 2 ^ 149 := by field_simp
    generalize hXd : (k2 : ℚ) / 2 ^ 149 = X at hX
    have hY : (n.natAbs : ℚ) = (n.natAbs : ℚ) / 100 * 100 := by field_simp
    generalize hYd : (n.natAbs : ℚ) / 100 = Y at hY
    have hA : 2 ^ 22 * X ≤ (2 ^ 22 + 1) * Y := by
      rw [hX, hY] at HAq
      have : (2 ^ 22 * X * 100) * 2 ^ 149 ≤ ((2 ^ 22 + 1) * Y * 100) * 2 ^ 149 := by
        linarith
      have := le_of_mul_le_mul_right this hU
      linarith
    have hB : (2 ^ 22 - 1) * Y ≤ 2 ^ 22 * X := by
      rw [hX, hY] at HBq
      have : ((2 ^ 22 - 1) * Y * 100) * 2 ^ 149 ≤ (2 ^ 22 * X * 100) * 2 ^ 149 := by
        linarith
      have := le_of_mul_le_mul_right this hU
      linarith
    have hYnn : 0 ≤ Y := by
      rw [← hYd]
      positivity
    have hXY : |X - Y| * 2 ^ 22 ≤ Y := by
      have h1 : |X - Y| ≤ Y / 2 ^ 22 := by
        rw [abs_le]
        constructor <;> linarith
      exact (le_div_iff₀ (by positivity)).1 h1
    have habs : ((n.natAbs : ℕ) : ℚ) = |(n : ℚ)| := by
      rw [Nat.cast_natAbs, Int.cast_abs]
    by_cases hneg : n < 0
    · have hq : (n : ℚ) < 0 := by exact_mod_cast hneg
      have hnY : (n : ℚ) / 100 = -Y := by
        rw [← hYd, habs, abs_of_neg hq]
        ring
      refine ⟨-X, ?_, ?_⟩
      · rw [hk1, hk2]
        simp only [F32.toRat, hneg, decide_True, if_true, Option.some.injEq]
        rw [← hXd]
        ring
      · rw [hnY, abs_neg, abs_of_nonneg hYnn]
        have e : -X - -Y = -(X - Y) := by ring
        rw [e, abs_neg]
        exact hXY
    · have hq : (0 : ℚ) ≤ (n : ℚ) := by exact_mod_cast not_lt.1 hneg
      have hnY : (n : ℚ) / 100 = Y := by
        rw [← hYd, habs, abs_of_nonneg hq]
      refine ⟨X, ?_, ?_⟩
      · rw [hk1, hk2]
        simp only [F32.toRat, hneg, decide_False, Bool.false_eq_true, if_false,
          Option.some.injEq]
        rw [← hXd]
        ring
      · rw [hnY, abs_of_nonneg hYnn]
        exact hXY

/-! ## The value of the raw temperature read -/

set_option maxRecDepth 100000 in
/-- C6, counterexample: the bytes `24 00 00 04` are the raw value 67108900,
whose hundredth 671089 is a binary32 value, and `th_get_temp_c_float` returns
OK with 671088.9375: the conversion `(float)n` rounds the raw value to
67108896 before the division. And the raw value 1 gives
5368709/536870912, the binary32 value next to 1/100. -/
theorem raw_over_hundred_is_rounded :
    (int32_of_bytes [0x24, 0, 0, 4] = 67108900
      ∧ (th_get_temp_c_float (const_bus ESP_OK none [0x24, 0, 0, 4]) (some th_bound)).2
          = { tag := .TH_STATUS_OK, value := .temp_c (.fin false (10737423 * 2 ^ 145)) }
      ∧ (F32.fin false (10737423 * 2 ^ 145)).toRat = some (10737423 / 16)
      ∧ F32.Representable ((67108900 : ℚ) / 100)
      ∧ (10737423 / 16 : ℚ) ≠ 67108900 / 100)
    ∧ (int32_of_bytes [1, 0, 0, 0] = 1
      ∧ (th_get_temp_c_float (const_bus ESP_OK none [1, 0, 0, 0]) (some th_bound)).2
          = { tag := .TH_STATUS_OK, value := .temp_c (.fin false (5368709 * 2 ^ 120)) }
      ∧ (F32.fin false (5368709 * 2 ^ 120)).toRat = some (5368709 / 536870912)
      ∧ (5368709 / 536870912 : ℚ) ≠ 1 / 100) := by
  refine ⟨⟨by decide, by decide, ?_, ?_, by norm_num⟩, ⟨by decide, by decide, ?_, by norm_num⟩⟩
  · simp only [F32.toRat, if_false, Option.some.injEq]
    norm_num
  · exact ⟨671089, 149, by norm_num, by norm_num, by norm_num [abs_of_nonneg]⟩
  · simp only [F32.toRat, if_false, Option.some.injEq]
    norm_num

/-- C6, amended: when the bus answers the 4-byte read of register 0x00 of a
bound object with success and the bytes `b0..b3`, `th_get_temp_c_float`
returns OK for every value of the bytes, with `temp_c` the binary32 quotient
`(float)n / 100.0f` of the little-endian two's-complement 32-bit integer `n`.
That value is finite and within one part in `2^22` of `n / 100`; it is exactly
`n / 100` whenever `|n| < 2^24` and `n / 100` is a binary32 value, so the raw
value 1850 yields 18.5 and -325 yields -3.25. -/
theorem get_temp_c_float_is_rounded_raw_over_hundred (bus : MockBus) (d : th_t)
    (b0 b1 b2 b3 : Nat) (hi : d.initialized = true) (hd : d.dev ≠ 0)
    (h0 : b0 < 256) (h1 : b1 < 256) (h2 : b2 < 256) (h3 : b3 < 256)
    (hrc : (bus.reply bus.calls
      (.transmit_receive d.dev [0x00] 4 (bus.pdMS_TO_TICKS d.timeout_ms))).rc = ESP_OK)
    (hdata : (bus.reply bus.calls
      (.transmit_receive d.dev [0x00] 4 (bus.pdMS_TO_TICKS d.timeout_ms))).data
        = [b0, b1, b2, b3]) :
    ∃ (n : Int) (q : ℚ),
      (-2 ^ 31 ≤ n ∧ n < 2 ^ 31
        ∧ (n - ((b0 + 256 * b1 + 65536 * b2 + 16777216 * b3 : Nat) : Int)) % 2 ^ 32 = 0)
      ∧ (th_get_temp_c_float bus (some d)).2
          = { tag := .TH_STATUS_OK,
              value := .temp_c (F32.div (F32.ofInt n) (F32.ofInt 100)) }
      ∧ (F32.div (F32.ofInt n) (F32.ofInt 100)).toRat = some q
      ∧ |q - (n : ℚ) / 100| * 2 ^ 22 ≤ |(n : ℚ) / 100|
      ∧ (n.natAbs < 2 ^ 24 → F32.Representable ((n : ℚ) / 100) → q = (n : ℚ) / 100)
      ∧ (n = 1850 → q = 37 / 2)
      ∧ (n = -325 → q = -13 / 4) := by
  have hrange : -2 ^ 31 ≤ int32_of_bytes [b0, b1, b2, b3]
      ∧ int32_of_bytes [b0, b1, b2, b3] < 2 ^ 31
      ∧ (int32_of_bytes [b0, b1, b2, b3]
          - ((b0 + 256 * b1 + 65536 * b2 + 16777216 * b3 : Nat) : Int)) % 2 ^ 32 = 0 := by
    simp only [int32_of_bytes, List.getD_cons_zero, List.getD_cons_succ]
    norm_num
    split <;> omega
  have hnat : (int32_of_bytes [b0, b1, b2, b3]).natAbs ≤ 2 ^ 31 := by
    obtain ⟨r1, r2, -⟩ := hrange
    norm_num at r1 r2 ⊢
    omega
  obtain ⟨q, hq, herr⟩ := div_hundred_error (int32_of_bytes [b0, b1, b2, b3]) hnat
  have hexact : ∀ m : Int, m = int32_of_bytes [b0, b1, b2, b3] → m.natAbs < 2 ^ 24 →
      F32.Representable ((m : ℚ) / 100) → q = (m : ℚ) / 100 := by
    intro m hm hsmall hrep
    subst hm
    have h := div_hundred_exact _ hsmall hrep
    rw [hq] at h
    exact Option.some.inj h
  refine ⟨int32_of_bytes [b0, b1, b2, b3], q, hrange, ?_, hq, herr, hexact _ rfl, ?_, ?_⟩
  · have hread := read_regs_bound bus d KMETER_TEMP_VAL_REG 4 (List.replicate 4 0) hi hd
      (by decide)
    have hst : store_bytes (List.replicate 4 0) [b0, b1, b2, b3] 4 = [b0, b1, b2, b3] := by
      simp [store_bytes, Nat.mod_eq_of_lt, h0, h1, h2, h3]
    have hrc2 : (bus.reply bus.calls (.transmit_receive d.dev [KMETER_TEMP_VAL_REG] 4
        (bus.pdMS_TO_TICKS d.timeout_ms))).rc = ESP_OK := hrc
    have hdata2 : (bus.reply bus.calls (.transmit_receive d.dev [KMETER_TEMP_VAL_REG] 4
        (bus.pdMS_TO_TICKS d.timeout_ms))).data = [b0, b1, b2, b3] := hdata
    rw [hrc2, hdata2, hst] at hread
    unfold th_get_temp_c_float
    simp only [hread]
    simp
  · intro hn
    have h := hexact 1850 hn.symm (by decide)
      ⟨37, 148, by norm_num, by norm_num, by norm_num [abs_of_nonneg]⟩
    rw [h]
    norm_num
  · intro hn
    have h := hexact (-325) hn.symm (by decide)
      ⟨13, 147, by norm_num, by norm_num, by norm_num [abs_of_nonneg]⟩
    rw [h]
    norm_num

/-- Witness of the amended C6 on a bus that answers with the bytes of 1850. -/
theorem get_temp_c_float_is_rounded_raw_over_hundred_witness :
    (th_bound.initialized = true ∧ th_bound.dev ≠ 0
      ∧ 0x3A < 256 ∧ 0x07 < 256 ∧ 0 < 256)
    ∧ ∃ (n : Int) (q : ℚ),
      (th_get_temp_c_float (const_bus ESP_OK none [0x3A, 0x07, 0, 0]) (some th_bound)).2
        = { tag := .TH_STATUS_OK, value := .temp_c (F32.div (F32.ofInt n) (F32.ofInt 100)) }
      ∧ (F32.div (F32.ofInt n) (F32.ofInt 100)).toRat = some q
      ∧ |q - (n : ℚ) / 100| * 2 ^ 22 ≤ |(n : ℚ) / 100| :=
  ⟨⟨rfl, by decide, by decide, by decide, by decide⟩,
    (get_temp_c_float_is_rounded_raw_over_hundred (const_bus ESP_OK none [0x3A, 0x07, 0, 0])
      th_bound 0x3A 0x07 0 0 rfl (by decide) (by decide) (by decide) (by decide) (by decide)
      rfl rfl).imp fun _ h => h.imp fun _ g => ⟨g.2.1, g.2.2.1, g.2.2.2.1⟩⟩

set_option maxRecDepth 100000 in
/-- The two examples of the raw register, evaluated: the bytes of 1850 give
18.5 and the bytes of -325 give -3.25. -/
theorem get_temp_c_float_examples :
    ((th_get_temp_c_float (const_bus ESP_OK none [0x3A, 0x07, 0, 0]) (some th_bound)).2
        = { tag := .TH_STATUS_OK, value := .temp_c (.fin false (37 * 2 ^ 148)) }
      ∧ (F32.fin false (37 * 2 ^ 148)).toRat = some (37 / 2))
    ∧ ((th_get_temp_c_float (const_bus ESP_OK none [0xBB, 0xFE, 0xFF, 0xFF])
          (some th_bound)).2
        = { tag := .TH_STATUS_OK, value := .temp_c (.fin true (13 * 2 ^ 147)) }
      ∧ (F32.fin true (13 * 2 ^ 147)).toRat = some (-13 / 4)) := by
  refine ⟨⟨by decide, ?_⟩, ⟨by decide, ?_⟩⟩
  · simp only [F32.toRat, if_false, Option.some.injEq]
    norm_num
  · simp only [F32.toRat, if_true, Option.some.injEq]
    norm_num

/-! ## One transaction per register operation -/

theorem read_reg_bound_bus (bus : MockBus) (d : ssr_t) (reg : Nat)
    (hi : d.initialized = true) (hd : d.dev ≠ 0) :
    (read_reg bus (some d) reg).1
      = (bus.call (.transmit_receive d.dev [reg] 1 (bus.pdMS_TO_TICKS d.timeout_ms))).1 := by
  rw [read_reg_bound _ _ _ hi hd]
  split <;> rfl

theorem write_reg_bound_bus (bus : MockBus) (d : ssr_t) (reg val : Nat)
    (hi : d.initialized = true) (hd : d.dev ≠ 0) :
    (write_reg bus (some d) reg val).1
      = (bus.call (.transmit d.dev [reg, val] (bus.pdMS_TO_TICKS d.timeout_ms))).1 := by
  rw [write_reg_bound _ _ _ _ hi hd]
  split <;> rfl

theorem read_regs_bound_bus (bus : MockBus) (d : th_t) (reg len : Nat) (buf : List Nat)
    (hi : d.initialized = true) (hd : d.dev ≠ 0) (hl : len ≠ 0) :
    (read_regs bus (some d) reg (some buf) len).1
      = (bus.call (.transmit_receive d.dev [reg] len (bus.pdMS_TO_TICKS d.timeout_ms))).1 := by
  rw [read_regs_bound _ _ _ _ _ hi hd hl]
  split <;> rfl

theorem call_calls (bus : MockBus) (c : BusCall) : (bus.call c).1.calls = bus.calls ++ [c] :=
  rfl

/-- C11: on a bound object each register operation adds exactly one
transaction to the call log, whatever the bus answers: `ssr_set_active a`
one write of the frame `[0x00, 1]` or `[0x00, 0]`; `ssr_get_active` and
`ssr_get_version` one write-then-read of the register byte 0x00 resp. 0xFE
with read length 1; `th_get_temp_c_float` one write-then-read of 0x00 with
length 4; `th_get_temp_c` and `th_get_temp_c_str` one write-then-read of 0x30
with length 8. -/
theorem one_transaction_per_operation (bus : MockBus) (s : ssr_t) (t : th_t) (a : Bool)
    (hsi : s.initialized = true) (hsd : s.dev ≠ 0)
    (hti : t.initialized = true) (htd : t.dev ≠ 0) :
    (ssr_set_active bus (some s) a).1.calls
        = bus.calls ++ [.transmit s.dev [0x00, if a then 1 else 0]
            (bus.pdMS_TO_TICKS s.timeout_ms)]
    ∧ (ssr_get_active bus (some s)).1.calls
        = bus.calls ++ [.transmit_receive s.dev [0x00] 1 (bus.pdMS_TO_TICKS s.timeout_ms)]
    ∧ (ssr_get_version bus (some s)).1.calls
        = bus.calls ++ [.transmit_receive s.dev [0xFE] 1 (bus.pdMS_TO_TICKS s.timeout_ms)]
    ∧ (th_get_temp_c_float bus (some t)).1.calls
        = bus.calls ++ [.transmit_receive t.dev [0x00] 4 (bus.pdMS_TO_TICKS t.timeout_ms)]
    ∧ (∃ r, th_get_temp_c bus (some t) = some r
        ∧ r.1.calls
          = bus.calls ++ [.transmit_receive t.dev [0x30] 8 (bus.pdMS_TO_TICKS t.timeout_ms)])
    ∧ (th_get_temp_c_str bus (some t)).1.calls
        = bus.calls ++ [.transmit_receive t.dev [0x30] 8 (bus.pdMS_TO_TICKS t.timeout_ms)] := by
  refine ⟨?_, ?_, ?_, ?_, ?_, ?_⟩
  · rw [ssr_set_active, write_reg_bound_bus _ _ _ _ hsi hsd, call_calls]
  · have h : (ssr_get_active bus (some s)).1 = (read_reg bus (some s) 0x00).1 := by
      simp only [ssr_get_active]
      split <;> rfl
    rw [h, read_reg_bound_bus _ _ _ hsi hsd, call_calls]
  · rw [ssr_get_version, read_reg_bound_bus _ _ _ hsi hsd, call_calls]
  · have h : (th_get_temp_c_float bus (some t)).1
        = (read_regs bus (some t) KMETER_TEMP_VAL_REG (some (List.replicate 4 0)) 4).1 := by
      simp only [th_get_temp_c_float]
      split <;> rfl
    rw [h, read_regs_bound_bus _ _ _ _ _ hti htd (by decide), call_calls]
    rfl
  · obtain ⟨r, hr, e | e⟩ := th_get_temp_c_bus bus t
    · exfalso
      have hb := read_regs_bound_bus bus t KMETER_TEMP_CELSIUS_STRING_REG 8
        (List.replicate 9 0) hti htd (by decide)
      have hr2 : (th_get_temp_c bus (some t)).map (fun r => r.1)
          = some (read_regs bus (some t) KMETER_TEMP_CELSIUS_STRING_REG
              (some (List.replicate 9 0)) 8).1 := by
        obtain ⟨r2, hr2, -⟩ := th_get_temp_c_bus bus t
        have hq := hr2
        unfold th_get_temp_c at hq
        simp only [Nat.add_one_sub_one] at hq
        split at hq
        · rw [hr2, ← Option.some.inj hq]
          rfl
        · obtain ⟨p, -, hp⟩ := Option.bind_eq_some.1 hq
          rw [hr2]
          split at hp <;> rw [← Option.some.inj hp] <;> rfl
      rw [hr, Option.map_some', hb, e] at hr2
      have hc := congrArg (fun b => b.calls.length) (Option.some.inj hr2)
      simp [call_calls] at hc
    · exact ⟨r, hr, by rw [e, call_calls]; rfl⟩
  · have h : (th_get_temp_c_str bus (some t)).1
        = (read_regs bus (some t) KMETER_TEMP_CELSIUS_STRING_REG
            (some (List.replicate 8 0)) 8).1 := by
      simp only [th_get_temp_c_str]
      split <;> rfl
    rw [h, read_regs_bound_bus _ _ _ _ _ hti htd (by decide), call_calls]
    rfl

/-- Witness of C11 on a bus that fails every call. -/
theorem one_transaction_per_operation_witness :
    (ssr_bound.initialized = true ∧ ssr_bound.dev ≠ 0
      ∧ th_bound.initialized = true ∧ th_bound.dev ≠ 0)
    ∧ (ssr_set_active (const_bus (-1) none []) (some ssr_bound) true).1.calls
        = (const_bus (-1) none []).calls ++ [.transmit ssr_bound.dev [0x00, if true then 1 else 0]
            ((const_bus (-1) none []).pdMS_TO_TICKS ssr_bound.timeout_ms)] :=
  ⟨⟨rfl, by decide, rfl, by decide⟩,
    (one_transaction_per_operation (const_bus (-1) none []) ssr_bound th_bound true rfl
      (by decide) rfl (by decide)).1⟩

/-! ## Binding followed by teardown -/

theorem ssr_init_proceeds (bus : MockBus) (s : ssr_t) (i2c_bus i2c_addr timeout_ms : Nat)
    (ha : i2c_addr ≠ 0) :
    (ssr_init bus (some s) i2c_bus i2c_addr timeout_ms).1
        = (bus.call (.add_device i2c_bus (bind_cfg i2c_addr))).1
    ∧ ∃ d, (ssr_init bus (some s) i2c_bus i2c_addr timeout_ms).2.1 = some d
      ∧ d.i2c_bus = i2c_bus
      ∧ d.dev = ((bus.reply bus.calls (.add_device i2c_bus (bind_cfg i2c_addr))).handle).getD 0
      ∧ (d.initialized = true →
          s.initialized = true
          ∨ (bus.reply bus.calls (.add_device i2c_bus (bind_cfg i2c_addr))).rc = ESP_OK) := by
  simp only [ssr_init, ha, if_false, i2c_master_bus_add_device, MockBus.call, bind_cfg]
  split
  · exact ⟨rfl, _, rfl, rfl, rfl, fun h => Or.inl h⟩
  · rename_i hrc
    exact ⟨rfl, _, rfl, rfl, rfl, fun _ => Or.inr (by simpa using hrc)⟩

theorem th_init_proceeds (bus : MockBus) (t : th_t) (i2c_bus i2c_addr timeout_ms : Nat)
    (ha : i2c_addr ≠ 0) :
    (th_init bus (some t) i2c_bus i2c_addr timeout_ms).1
        = (bus.call (.add_device i2c_bus (bind_cfg i2c_addr))).1
    ∧ ∃ d, (th_init bus (some t) i2c_bus i2c_addr timeout_ms).2.1 = some d
      ∧ d.i2c_bus = i2c_bus
      ∧ d.dev = ((bus.reply bus.calls (.add_device i2c_bus (bind_cfg i2c_addr))).handle).getD 0
      ∧ (d.initialized = true →
          (bus.reply bus.calls (.add_device i2c_bus (bind_cfg i2c_addr))).rc = ESP_OK) := by
  simp only [th_init, ha, if_false, i2c_master_bus_add_device, MockBus.call, bind_cfg]
  split
  · exact ⟨rfl, _, rfl, rfl, rfl, fun h => by simp [th_t.zero] at h⟩
  · rename_i hrc
    exact ⟨rfl, _, rfl, rfl, rfl, fun _ => by simpa using hrc⟩

theorem ssr_deinit_some (bus : MockBus) (d : ssr_t) :
    ssr_deinit bus (some d)
      = ((if d.dev ≠ 0 ∧ d.i2c_bus ≠ 0 then (bus.call (.rm_device d.dev)).1 else bus),
          some ssr_t.zero, { tag := .SSR_STATUS_OK, value := .reserved 0 }) := by
  simp only [ssr_deinit, i2c_master_bus_rm_device]

theorem th_deinit_some (bus : MockBus) (d : th_t) :
    th_deinit bus (some d)
      = ((if d.dev ≠ 0 ∧ d.i2c_bus ≠ 0 then (bus.call (.rm_device d.dev)).1 else bus),
          some th_t.zero, { tag := .TH_STATUS_OK, value := .esp_code 0 }) := by
  simp only [th_deinit, i2c_master_bus_rm_device]

/-- C12: for every nonzero address, every timeout and every answer of the bus
to the binding, on a bus handle that is not NULL, `ssr_init` followed
immediately by `ssr_deinit` (and `th_init` followed by `th_deinit`) returns OK
and leaves every field of the object zero (bus NULL, handle NULL, address 0,
timeout 0, initialized false); and when the binding stored a handle `h` in the
object, the teardown removes it: the call log grows by the `add_device` call
followed by `rm_device h`, and by the `add_device` call alone when no handle
was stored. -/
theorem bind_then_unbind_leaves_zero (bus : MockBus) (s : ssr_t) (t : th_t)
    (i2c_bus i2c_addr timeout_ms : Nat) (ha : i2c_addr ≠ 0) (hb : i2c_bus ≠ 0) :
    ((ssr_bind_unbind bus (some s) i2c_bus i2c_addr timeout_ms).2.1
        = some { i2c_bus := 0, dev := 0, i2c_addr := 0, timeout_ms := 0, initialized := false }
      ∧ (ssr_bind_unbind bus (some s) i2c_bus i2c_addr timeout_ms).2.2.tag = .SSR_STATUS_OK
      ∧ (th_bind_unbind bus (some t) i2c_bus i2c_addr timeout_ms).2.1
        = some { i2c_bus := 0, dev := 0, i2c_addr := 0, timeout_ms := 0, initialized := false }
      ∧ (th_bind_unbind bus (some t) i2c_bus i2c_addr timeout_ms).2.2.tag = .TH_STATUS_OK)
    ∧ (∀ h, (bus.reply bus.calls (.add_device i2c_bus (bind_cfg i2c_addr))).handle = some h →
        h ≠ 0 →
        (ssr_bind_unbind bus (some s) i2c_bus i2c_addr timeout_ms).1.calls
          = bus.calls ++ [.add_device i2c_bus (bind_cfg i2c_addr), .rm_device h]
        ∧ (th_bind_unbind bus (some t) i2c_bus i2c_addr timeout_ms).1.calls
          = bus.calls ++ [.add_device i2c_bus (bind_cfg i2c_addr), .rm_device h])
    ∧ ((bus.reply bus.calls (.add_device i2c_bus (bind_cfg i2c_addr))).handle.getD 0 = 0 →
        (ssr_bind_unbind bus (some s) i2c_bus i2c_addr timeout_ms).1.calls
          = bus.calls ++ [.add_device i2c_bus (bind_cfg i2c_addr)]
        ∧ (th_bind_unbind bus (some t) i2c_bus i2c_addr timeout_ms).1.calls
          = bus.calls ++ [.add_device i2c_bus (bind_cfg i2c_addr)]) := by
  obtain ⟨hsb, ds, hds, hsbus, hsdev, -⟩ :=
    ssr_init_proceeds bus s i2c_bus i2c_addr timeout_ms ha
  obtain ⟨htb, dt, hdt, htbus, htdev, -⟩ :=
    th_init_proceeds bus t i2c_bus i2c_addr timeout_ms ha
  have es : ssr_bind_unbind bus (some s) i2c_bus i2c_addr timeout_ms
      = ((if ds.dev ≠ 0 ∧ ds.i2c_bus ≠ 0 then
            ((bus.call (.add_device i2c_bus (bind_cfg i2c_addr))).1.call (.rm_device ds.dev)).1
          else (bus.call (.add_device i2c_bus (bind_cfg i2c_addr))).1),
          some ssr_t.zero, { tag := .SSR_STATUS_OK, value := .reserved 0 }) := by
    rw [ssr_bind_unbind, hds, hsb, ssr_deinit_some]
  have et : th_bind_unbind bus (some t) i2c_bus i2c_addr timeout_ms
      = ((if dt.dev ≠ 0 ∧ dt.i2c_bus ≠ 0 then
            ((bus.call (.add_device i2c_bus (bind_cfg i2c_addr))).1.call (.rm_device dt.dev)).1
          else (bus.call (.add_device i2c_bus (bind_cfg i2c_addr))).1),
          some th_t.zero, { tag := .TH_STATUS_OK, value := .esp_code 0 }) := by
    rw [th_bind_unbind, hdt, htb, th_deinit_some]
  refine ⟨⟨by rw [es]; rfl, by rw [es], by rw [et]; rfl, by rw [et]⟩, ?_, ?_⟩
  · intro h hh hne
    rw [hh] at hsdev htdev
    simp only [Option.getD_some] at hsdev htdev
    have cs : ds.dev ≠ 0 ∧ ds.i2c_bus ≠ 0 := ⟨by rw [hsdev]; exact hne, by rw [hsbus]; exact hb⟩
    have ct : dt.dev ≠ 0 ∧ dt.i2c_bus ≠ 0 := ⟨by rw [htdev]; exact hne, by rw [htbus]; exact hb⟩
    rw [es, et, if_pos cs, if_pos ct]
    simp only [call_calls, hsdev, htdev, List.append_assoc, List.singleton_append, and_self]
  · intro h0
    rw [h0] at hsdev htdev
    have cs : ¬ (ds.dev ≠ 0 ∧ ds.i2c_bus ≠ 0) := fun c => c.1 hsdev
    have ct : ¬ (dt.dev ≠ 0 ∧ dt.i2c_bus ≠ 0) := fun c => c.1 htdev
    rw [es, et, if_neg cs, if_neg ct]
    simp only [call_calls, and_self]

/-- Witness of C12 on the loopback bus, which hands out the handle 0x51 for
the address 0x50. -/
theorem bind_then_unbind_leaves_zero_witness :
    ((0x50 : Nat) ≠ 0 ∧ (1 : Nat) ≠ 0)
    ∧ (ssr_bind_unbind loopback_bus (some ssr_t.zero) 1 0x50 0).2.1
        = some { i2c_bus := 0, dev := 0, i2c_addr := 0, timeout_ms := 0, initialized := false }
    ∧ (ssr_bind_unbind loopback_bus (some ssr_t.zero) 1 0x50 0).1.calls
        = loopback_bus.calls ++ [.add_device 1 (bind_cfg 0x50), .rm_device 0x51] :=
  ⟨⟨by decide, by decide⟩,
    (bind_then_unbind_leaves_zero loopback_bus ssr_t.zero th_t.zero 1 0x50 0 (by decide)
      (by decide)).1.1,
    ((bind_then_unbind_leaves_zero loopback_bus ssr_t.zero th_t.zero 1 0x50 0 (by decide)
      (by decide)).2.1 0x51 rfl (by decide)).1⟩

/-! ## Teardown -/

/-- C13: on every object `ssr_deinit` / `th_deinit` returns the OK tag and
leaves the zero state; a second call returns OK again, leaves the bus as it
was, its call log included, and leaves the same zero state. -/
theorem teardown_is_idempotent (bus : MockBus) (s : ssr_t) (t : th_t) :
    ((ssr_deinit bus (some s)).2.2.tag = .SSR_STATUS_OK
      ∧ (ssr_deinit bus (some s)).2.1 = some ssr_t.zero
      ∧ (ssr_deinit (ssr_deinit bus (some s)).1 (ssr_deinit bus (some s)).2.1).2.2.tag
          = .SSR_STATUS_OK
      ∧ (ssr_deinit (ssr_deinit bus (some s)).1 (ssr_deinit bus (some s)).2.1).1.calls
          = (ssr_deinit bus (some s)).1.calls
      ∧ (ssr_deinit (ssr_deinit bus (some s)).1 (ssr_deinit bus (some s)).2.1).2.1
          = (ssr_deinit bus (some s)).2.1)
    ∧ ((th_deinit bus (some t)).2.2.tag = .TH_STATUS_OK
      ∧ (th_deinit bus (some t)).2.1 = some th_t.zero
      ∧ (th_deinit (th_deinit bus (some t)).1 (th_deinit bus (some t)).2.1).2.2.tag
          = .TH_STATUS_OK
      ∧ (th_deinit (th_deinit bus (some t)).1 (th_deinit bus (some t)).2.1).1.calls
          = (th_deinit bus (some t)).1.calls
      ∧ (th_deinit (th_deinit bus (some t)).1 (th_deinit bus (some t)).2.1).2.1
          = (th_deinit bus (some t)).2.1) := by
  have hs : ∀ b : MockBus, ssr_deinit b (some ssr_t.zero)
      = (b, some ssr_t.zero, { tag := .SSR_STATUS_OK, value := .reserved 0 }) := by
    intro b
    rw [ssr_deinit_some]
    simp [ssr_t.zero]
  have ht : ∀ b : MockBus, th_deinit b (some th_t.zero)
      = (b, some th_t.zero, { tag := .TH_STATUS_OK, value := .esp_code 0 }) := by
    intro b
    rw [th_deinit_some]
    simp [th_t.zero]
  refine ⟨?_, ?_⟩
  · rw [ssr_deinit_some]
    simp only [hs, and_self]
  · rw [th_deinit_some]
    simp only [ht, and_self]

/-! ## Inputs without a digit -/

theorem has_digit_mem {t : DecimalText} (hw : t.WellFormed) (hd : t.has_digit) :
    ∃ c ∈ t.bytes, is_digit c := by
  obtain ⟨-, hI, hF, -⟩ := hw
  rcases hd with h | h
  · obtain ⟨c, hc⟩ := List.exists_mem_of_ne_nil _ h
    exact ⟨c, by simp [DecimalText.bytes, hc], hI c hc⟩
  · obtain ⟨c, hc⟩ := List.exists_mem_of_ne_nil _ h
    refine ⟨c, ?_, hF c hc⟩
    rcases hf : t.frac with _ | F
    · simp [DecimalText.frac_digits, hf] at hc
    · have hcF : c ∈ F := by simpa [DecimalText.frac_digits, hf] using hc
      simp [DecimalText.bytes, DecimalText.frac_bytes, hf, hcF]

/-- A terminated string that holds no decimal digit is rejected, and `*out`
keeps its content. -/
theorem temp_str_to_float_no_digit (mem : List Nat) (o : F32) (h0 : 0 ∈ mem)
    (h : ∀ c ∈ c_string mem, ¬ is_digit c) :
    temp_str_to_float (some mem) (some o) = some (false, some o) := by
  apply (temp_str_to_float_decided_by_string mem o h0).2
  rintro ⟨t, hw, hd, hs⟩
  obtain ⟨c, hc, hdig⟩ := has_digit_mem hw hd
  exact h c (hs ▸ hc) hdig

/-- C14: an input without a decimal digit is rejected. For every terminated
string made only of whitespace, signs and `.` (in any number and order, so in
particular with at most one sign and at most one `.`) `temp_str_to_float`
returns false and leaves `*out` as it was: it does not produce 0. -/
theorem digitless_input_is_rejected (mem : List Nat) (o : F32) (h0 : 0 ∈ mem)
    (h : ∀ c ∈ c_string mem, isspace c = true ∨ c = 43 ∨ c = 45 ∨ c = 46) :
    temp_str_to_float (some mem) (some o) = some (false, some o) := by
  apply temp_str_to_float_no_digit mem o h0
  intro c hc hdig
  rcases h c hc with h1 | h1 | h1 | h1
  · exact isspace_not_digit h1 hdig
  · have h48 : 48 ≤ c := hdig.1
    omega
  · have h48 : 48 ≤ c := hdig.1
    omega
  · have h48 : 48 ≤ c := hdig.1
    omega

/-- Witness of C14 on the string `+.`, with 7.0 behind `out`. -/
theorem digitless_input_is_rejected_witness :
    (0 ∈ c_str "+."
      ∧ ∀ c ∈ c_string (c_str "+."), isspace c = true ∨ c = 43 ∨ c = 45 ∨ c = 46)
    ∧ temp_str_to_float (some (c_str "+.")) (some (.fin false (7 * 2 ^ 149)))
        = some (false, some (.fin false (7 * 2 ^ 149))) :=
  ⟨⟨by decide, by decide⟩,
    digitless_input_is_rejected (c_str "+.") (.fin false (7 * 2 ^ 149)) (by decide)
      (by decide)⟩

/-- The digitless strings named by the specification, evaluated: the empty
string, `+`, `-`, `.`, `+.` and a string of blanks are all rejected. -/
theorem digitless_examples :
    temp_str_to_float (some (c_str "")) (some F32.zero) = some (false, some F32.zero)
    ∧ temp_str_to_float (some (c_str "+")) (some F32.zero) = some (false, some F32.zero)
    ∧ temp_str_to_float (some (c_str "-")) (some F32.zero) = some (false, some F32.zero)
    ∧ temp_str_to_float (some (c_str ".")) (some F32.zero) = some (false, some F32.zero)
    ∧ temp_str_to_float (some (c_str "+.")) (some F32.zero) = some (false, some F32.zero)
    ∧ temp_str_to_float (some (c_str " \t\n ")) (some F32.zero)
        = some (false, some F32.zero) := by
  decide

/-! ## The parser and the 9-byte buffer -/

theorem c_string_no_nul (mem : List Nat) : 0 ∉ c_string mem := by
  intro h
  have := List.mem_takeWhile_imp h
  simp at this

theorem c_string_append_of_nul (mem junk : List Nat) (h0 : 0 ∈ mem) :
    c_string (mem ++ junk) = c_string mem := by
  obtain ⟨j0, hj⟩ := mem_eq_c_string_append mem h0
  have e : mem ++ junk = c_string mem ++ 0 :: (j0 ++ junk) := by
    conv_lhs => rw [hj]
    simp
  rw [e, c_string_append_nul _ _ (c_string_no_nul mem)]

/-- Whatever lies after the first NUL of a memory has no effect on the parse. -/
theorem temp_str_to_float_ignores_after_nul (mem junk : List Nat) (o : F32) (h0 : 0 ∈ mem) :
    temp_str_to_float (some (mem ++ junk)) (some o) = temp_str_to_float (some mem) (some o) := by
  obtain ⟨hy1, hn1⟩ := temp_str_to_float_decided_by_string mem o h0
  obtain ⟨hy2, hn2⟩ := temp_str_to_float_decided_by_string (mem ++ junk) o
    (List.mem_append_left _ h0)
  rw [c_string_append_of_nul mem junk h0] at hy2 hn2
  by_cases hex : ∃ t : DecimalText, t.WellFormed ∧ t.has_digit ∧ t.bytes = c_string mem
  · obtain ⟨t, hw, hd, hs⟩ := hex
    rw [hy1 t hw hd hs, hy2 t hw hd hs]
  · rw [hn1 hex, hn2 hex]

theorem store_bytes_nine (data : List Nat) :
    (store_bytes (List.replicate 9 0) data 8).length = 9
      ∧ (store_bytes (List.replicate 9 0) data 8)[8]? = some 0 := by
  have e : store_bytes (List.replicate 9 0) data 8
      = (List.map (fun b => b % 256) (List.take 8 data))
        ++ List.replicate (9 - (List.map (fun b => b % 256) (List.take 8 data)).length) 0 := by
    simp only [store_bytes, List.drop_replicate]
  have hlen2 : ((data.take 8).map (fun b => b % 256)).length ≤ 8 := by
    simp only [List.length_map, List.length_take]
    omega
  rw [e]
  generalize (data.take 8).map (fun b => b % 256) = d2 at hlen2
  constructor
  · simp only [List.length_append, List.length_replicate]
    omega
  · rw [List.getElem?_append_right hlen2, List.getElem?_replicate]
    simp only [ite_eq_left_iff, not_lt]
    intro h
    omega

/-- C15: on every 9-byte buffer whose byte at index 8 is zero,
`temp_str_to_float` returns without a read outside the indices 0 to 8 (a read
past the buffer would make the result `none`), and its result does not depend
on any byte that lies after the buffer; and `th_get_temp_c` always hands the
parser such a buffer: after the 8-byte read the buffer still has 9 bytes, the
last one zero, whatever the bus delivered, so `th_get_temp_c` always returns. -/
theorem parser_stays_within_nine_bytes :
    (∀ (buf : List Nat) (o : F32), buf.length = 9 → buf[8]? = some 0 →
      ∃ b x, temp_str_to_float (some buf) (some o) = some (b, x)
        ∧ ∀ junk, temp_str_to_float (some (buf ++ junk)) (some o) = some (b, x))
    ∧ (∀ (bus : MockBus) (self : Option th_t),
      (∃ buf, (read_regs bus self KMETER_TEMP_CELSIUS_STRING_REG
            (some (List.replicate 9 0)) (9 - 1)).2.2 = some buf
          ∧ buf.length = 9 ∧ buf[8]? = some 0)
      ∧ ∃ r, th_get_temp_c bus self = some r) := by
  constructor
  · intro buf o _ h8
    have h0 : 0 ∈ buf := List.getElem?_mem h8
    obtain ⟨b, x, hp, -⟩ := temp_str_to_float_total buf o h0
    exact ⟨b, x, hp, fun junk => by rw [temp_str_to_float_ignores_after_nul buf junk o h0, hp]⟩
  · intro bus self
    cases self with
    | none =>
      refine ⟨⟨List.replicate 9 0, by simp [read_regs], by decide, by decide⟩, ?_⟩
      simp [th_get_temp_c, read_regs]
    | some d =>
      constructor
      · rcases read_regs_bus bus d KMETER_TEMP_CELSIUS_STRING_REG 8 (List.replicate 9 0)
          (by decide) with ⟨-, hbuf⟩ | ⟨-, hbuf⟩
        · exact ⟨_, hbuf, by decide, by decide⟩
        · exact ⟨_, hbuf, (store_bytes_nine _).1, (store_bytes_nine _).2⟩
      · obtain ⟨r, hr, -⟩ := th_get_temp_c_bus bus d
        exact ⟨r, hr⟩

/-- Witness of C15 on the buffer that holds `12.3x`, three NUL bytes and the
terminator. -/
theorem parser_stays_within_nine_bytes_witness :
    ([49, 50, 46, 51, 120, 0, 0, 0, 0].length = 9
      ∧ [49, 50, 46, 51, 120, 0, 0, 0, 0][8]? = some 0)
    ∧ ∃ b x, temp_str_to_float (some [49, 50, 46, 51, 120, 0, 0, 0, 0]) (some F32.zero)
          = some (b, x)
        ∧ ∀ junk, temp_str_to_float (some ([49, 50, 46, 51, 120, 0, 0, 0, 0] ++ junk))
            (some F32.zero) = some (b, x) :=
  ⟨⟨rfl, rfl⟩,
    parser_stays_within_nine_bytes.1 [49, 50, 46, 51, 120, 0, 0, 0, 0] F32.zero rfl rfl⟩

/-! ## The flag `initialized` and the device handle -/

theorem one_slot_bus_discipline : HandleDiscipline one_slot_bus := by
  intro log bus_handle cfg
  simp only [one_slot_bus, one_slot_reply]
  split
  · exact ⟨fun h => absurd h (by decide), fun _ => rfl⟩
  · exact ⟨fun _ => ⟨7, by decide, rfl⟩, fun h => absurd rfl h⟩

/-- C16, the failing input evaluated: on a bus with a single device slot,
which keeps the handle discipline, a first `ssr_init` succeeds, and a second
`ssr_init` on the same object is rejected by the bus and returns the
I2C-error tag; the object is then left with `initialized == true` and
`dev == NULL`, and `ssr_get_active` on it reports an I2C error without any
bus call. The same two calls of `th_init` leave `initialized == false`. -/
theorem ssr_failed_rebind_keeps_initialized :
    ((ssr_init one_slot_bus (some ssr_t.zero) 1 0x50 0).2.2.tag = .SSR_STATUS_OK
      ∧ (ssr_init one_slot_bus (some ssr_t.zero) 1 0x50 0).2.1
        = some { i2c_bus := 1, dev := 7, i2c_addr := 0x50, timeout_ms := 200,
                 initialized := true })
    ∧ ((ssr_init (ssr_init one_slot_bus (some ssr_t.zero) 1 0x50 0).1
          (ssr_init one_slot_bus (some ssr_t.zero) 1 0x50 0).2.1 1 0x50 0).2.2
        = { tag := .SSR_STATUS_I2C_ERR, value := .esp_code ESP_FAIL }
      ∧ (ssr_init (ssr_init one_slot_bus (some ssr_t.zero) 1 0x50 0).1
          (ssr_init one_slot_bus (some ssr_t.zero) 1 0x50 0).2.1 1 0x50 0).2.1
        = some { i2c_bus := 1, dev := 0, i2c_addr := 0x50, timeout_ms := 200,
                 initialized := true })
    ∧ ((ssr_steps one_slot_bus (some ssr_t.zero) [.init 1 0x50 0, .init 1 0x50 0]).2
        = some { i2c_bus := 1, dev := 0, i2c_addr := 0x50, timeout_ms := 200,
                 initialized := true }
      ∧ (ssr_steps one_slot_bus (some ssr_t.zero)
            [.init 1 0x50 0, .init 1 0x50 0, .op .get_active]).1.calls
        = [.add_device 1 (bind_cfg 0x50), .add_device 1 (bind_cfg 0x50)]
      ∧ (ssr_get_active
            (ssr_steps one_slot_bus (some ssr_t.zero) [.init 1 0x50 0, .init 1 0x50 0]).1
            (ssr_steps one_slot_bus (some ssr_t.zero) [.init 1 0x50 0, .init 1 0x50 0]).2).2
        = { tag := .SSR_STATUS_I2C_ERR, value := .esp_code ESP_FAIL })
    ∧ (th_steps one_slot_bus (some th_t.zero) [.init 1 0x66 0, .init 1 0x66 0]).map
          (fun r => r.2)
        = some (some { i2c_bus := 1, dev := 0, i2c_addr := 0x66, timeout_ms := 200,
                       initialized := false }) := by
  decide

theorem call_reply (bus : MockBus) (c : BusCall) : (bus.call c).1.reply = bus.reply := rfl

theorem discipline_of_reply_eq {a b : MockBus} (h : b.reply = a.reply)
    (hd : HandleDiscipline a) : HandleDiscipline b := by
  intro log bus_handle cfg
  rw [h]
  exact hd log bus_handle cfg

theorem th_run_op_reply (bus : MockBus) (d : th_t) (op : ThOp) :
    ∃ r, th_run_op bus (some d) op = some r ∧ r.1.reply = bus.reply := by
  cases op with
  | get_temp_c_str =>
    refine ⟨_, rfl, ?_⟩
    have h : (th_get_temp_c_str bus (some d)).1
        = (read_regs bus (some d) KMETER_TEMP_CELSIUS_STRING_REG
            (some (List.replicate 8 0)) 8).1 := by
      simp only [th_get_temp_c_str]
      split <;> rfl
    rw [h]
    rcases read_regs_bus bus d KMETER_TEMP_CELSIUS_STRING_REG 8 (List.replicate 8 0)
      (by decide) with ⟨e, -⟩ | ⟨e, -⟩ <;> rw [e]
    rfl
  | get_temp_c =>
    obtain ⟨r, hr, e | e⟩ := th_get_temp_c_bus bus d
    · exact ⟨r, hr, by rw [e]⟩
    · exact ⟨r, hr, by rw [e]; rfl⟩
  | get_temp_c_float =>
    refine ⟨_, rfl, ?_⟩
    have h : (th_get_temp_c_float bus (some d)).1
        = (read_regs bus (some d) KMETER_TEMP_VAL_REG (some (List.replicate 4 0)) 4).1 := by
      simp only [th_get_temp_c_float]
      split <;> rfl
    rw [h]
    rcases read_regs_bus bus d KMETER_TEMP_VAL_REG 4 (List.replicate 4 0)
      (by decide) with ⟨e, -⟩ | ⟨e, -⟩ <;> rw [e]
    rfl

/-- One thermocouple driver call keeps the invariant: afterwards the object
is initialized only if its handle is not NULL. -/
theorem th_step_invariant (bus : MockBus) (d : th_t) (st : ThStep)
    (hd : HandleDiscipline bus) (hinv : d.initialized = true → d.dev ≠ 0) :
    ∃ bus2 d2, th_step bus (some d) st = some (bus2, some d2) ∧ bus2.reply = bus.reply
      ∧ (d2.initialized = true → d2.dev ≠ 0) := by
  cases st with
  | init i2c_bus i2c_addr timeout_ms =>
    by_cases ha : i2c_addr = 0
    · refine ⟨bus, d, ?_, rfl, hinv⟩
      simp [th_step, th_init, ha]
    · obtain ⟨hb, d2, hd2, -, hdev, hinit⟩ :=
        th_init_proceeds bus d i2c_bus i2c_addr timeout_ms ha
      refine ⟨(th_init bus (some d) i2c_bus i2c_addr timeout_ms).1, d2,
        by simp only [th_step, hd2], by rw [hb]; rfl, ?_⟩
      intro hi
      obtain ⟨h, hne, hh⟩ := (hd bus.calls i2c_bus (bind_cfg i2c_addr)).1 (hinit hi)
      rw [hdev, hh]
      exact hne
  | deinit =>
    refine ⟨(th_deinit bus (some d)).1, th_t.zero,
      by simp only [th_step, th_deinit_some], ?_, ?_⟩
    · rw [th_deinit_some]
      simp only
      split <;> rfl
    · intro h
      simp [th_t.zero] at h
  | op o =>
    obtain ⟨r, hr, hrep⟩ := th_run_op_reply bus d o
    exact ⟨r.1, d, by simp only [th_step, hr, Option.map_some'], hrep, hinv⟩

/-- The thermocouple driver keeps the invariant: starting from the zero
state, after every sequence of `th_init`, `th_deinit` and register operations
against a bus that keeps the handle discipline, the object is initialized
only if its handle is not NULL. -/
theorem th_initialized_implies_handle (bus : MockBus) (steps : List ThStep)
    (hd : HandleDiscipline bus) :
    ∃ bus2 d, th_steps bus (some th_t.zero) steps = some (bus2, some d)
      ∧ (d.initialized = true → d.dev ≠ 0) := by
  have key : ∀ (steps : List ThStep) (bus : MockBus) (d0 : th_t), HandleDiscipline bus →
      (d0.initialized = true → d0.dev ≠ 0) →
      ∃ bus2 d, th_steps bus (some d0) steps = some (bus2, some d)
        ∧ (d.initialized = true → d.dev ≠ 0) := by
    intro steps
    induction steps with
    | nil => exact fun bus d0 _ hinv => ⟨bus, d0, rfl, hinv⟩
    | cons st rest ih =>
      intro bus d0 hd hinv
      obtain ⟨bus1, d1, h1, hrep, hinv1⟩ := th_step_invariant bus d0 st hd hinv
      obtain ⟨bus2, d2, h2, hinv2⟩ := ih bus1 d1 (discipline_of_reply_eq hrep hd) hinv1
      exact ⟨bus2, d2, by simp only [th_steps, h1, Option.some_bind, h2], hinv2⟩
  exact key steps bus th_t.zero hd (fun h => by simp [th_t.zero] at h)

/-- One SSR driver call keeps the invariant unless it is an `ssr_init` that
the bus rejects on an object that is initialized: that is the only call that
can leave `initialized == true` with a NULL handle. -/
theorem ssr_step_invariant (bus : MockBus) (d : ssr_t) (st : SsrStep)
    (hd : HandleDiscipline bus) (hinv : d.initialized = true → d.dev ≠ 0)
    (hst : ∀ i2c_bus i2c_addr timeout_ms, st = .init i2c_bus i2c_addr timeout_ms →
      d.initialized = false
      ∨ (bus.reply bus.calls (.add_device i2c_bus (bind_cfg i2c_addr))).rc = ESP_OK) :
    ∃ d2, (ssr_step bus (some d) st).2 = some d2 ∧ (d2.initialized = true → d2.dev ≠ 0) := by
  cases st with
  | init i2c_bus i2c_addr timeout_ms =>
    by_cases ha : i2c_addr = 0
    · refine ⟨d, ?_, hinv⟩
      simp [ssr_step, ssr_init, ha]
    · obtain ⟨-, d2, hd2, -, hdev, hinit⟩ :=
        ssr_init_proceeds bus d i2c_bus i2c_addr timeout_ms ha
      refine ⟨d2, by simp only [ssr_step, hd2], ?_⟩
      intro hi
      have hok : (bus.reply bus.calls (.add_device i2c_bus (bind_cfg i2c_addr))).rc
          = ESP_OK := by
        rcases hinit hi with h1 | h1
        · rcases hst i2c_bus i2c_addr timeout_ms rfl with h2 | h2
          · rw [h1] at h2
            exact absurd h2 (by decide)
          · exact h2
        · exact h1
      obtain ⟨h, hne, hh⟩ := (hd bus.calls i2c_bus (bind_cfg i2c_addr)).1 hok
      rw [hdev, hh]
      exact hne
  | deinit =>
    refine ⟨ssr_t.zero, by simp only [ssr_step, ssr_deinit_some], ?_⟩
    intro h
    simp [ssr_t.zero] at h
  | op o => exact ⟨d, rfl, hinv⟩

end Diepvries
